import Mathlib

/-!
zsql: clause merging and statement assembly.

A shallow embedding of the SQL fragment builder of `luoskak/zsql`
(`clause.go`, `statement.go`, `db.go`).

* Go values of type `interface{}` are the inductive `Value`; a
  `map[string]interface{}` is the sequence `Entries` of its entries, in the
  order in which `range` visits them.
* The two node kinds `and` / `or` are the two constructors of `WhereColumn`.
* A `Statement` keeps the text buffer, the bound parameters, the clause map and
  the rename table; the maps are total functions into `Option`.
* A Go `panic` is the `error` branch of `Except String`.
* Slices are lists; every empty slice that reaches a `nil` test in these files
  was never allocated, so `nil` and the empty list coincide.
* Go `int` values are integers; the only arithmetic on them (`Paging`) wraps
  to 64 bits.
-/

set_option linter.dupNamespace false

namespace Zsql

/-! ## Dynamic values -/

mutual
/-- Values held in a Go `interface{}`: `nil`, an `int`, a `string`, a
`WhereEquality`, a `[]interface{}`, a `map[string]interface{}`, or any other
dynamic value (identified by a tag). -/
inductive Value where
  | nil
  | int (i : Int)
  | str (s : String)
  | equality (s : String)
  | slice (vs : List Value)
  | map (kvs : Entries)
  | other (tag : Nat)
/-- The entries `key, value` of a `map[string]interface{}`, in the order in
which `range` visits them. -/
inductive Entries where
  | nil
  | cons (key : String) (v : Value) (rest : Entries)
end

/-- The entries of a mapping written as a list of pairs. -/
def Entries.ofList : List (String × Value) → Entries
  | [] => .nil
  | (k, v) :: rest => .cons k v (Entries.ofList rest)

/-- The type switch `case map[string]interface{}` of `Statement.AddVar`. -/
def Value.isMap : Value → Bool
  | .map _ => true
  | _ => false

/-! ## Operators (`WhereEquality`) -/

abbrev WhereEquality := String

def WE_EQ : WhereEquality := "="
def WE_NE : WhereEquality := "<>"
def WE_LK : WhereEquality := "LIKE"
def WE_LT : WhereEquality := "<"
def WE_LTE : WhereEquality := "<="
def WE_GT : WhereEquality := ">"
def WE_GTE : WhereEquality := ">="
def WE_BETWEEN : WhereEquality := "BETWEEN"
def WE_IN : WhereEquality := "IN"

/-- Go `unicode.ToUpper` on the characters that matter for the operator
texts: ASCII lower-case letters, and the two non-ASCII characters whose upper
case is an ASCII letter (U+0131 dotless i, U+017F long s). Every other
character of Go's case table is mapped to a non-ASCII character, which can
never take part in a match with an operator text, and is left as it is. -/
def upperRune (c : Char) : Char :=
  if 'a' ≤ c ∧ c ≤ 'z' then Char.ofNat (c.toNat - 32)
  else if c = Char.ofNat 0x131 then 'I'
  else if c = Char.ofNat 0x17F then 'S'
  else c

/-- Go `strings.ToUpper`. -/
def ToUpper (s : String) : String := ⟨s.data.map upperRune⟩

def ToWhereEquality (op : String) : WhereEquality :=
  let u := ToUpper op
  if u = "=" then WE_EQ
  else if u = "<>" then WE_NE
  else if u = "LIKE" then WE_LK
  else if u = "<" then WE_LT
  else if u = "<=" then WE_LTE
  else if u = ">" then WE_GT
  else if u = ">=" then WE_GTE
  else if u = "BETWEEN" then WE_BETWEEN
  else if u = "IN" then WE_IN
  else ""

/-! ## Predicate nodes -/

/-- The node kinds `and` and `or` of `clause.go`; both carry the fields
`Columns`, `Field`, `Equality`, `Semantic`, `Value`. -/
inductive WhereColumn where
  | and (Columns : List WhereColumn) (Field : String) (Equality : WhereEquality)
      (Semantic : String) (Value : Zsql.Value)
  | or (Columns : List WhereColumn) (Field : String) (Equality : WhereEquality)
      (Semantic : String) (Value : Zsql.Value)

namespace WhereColumn

def name : WhereColumn → String
  | .and .. => "AND"
  | .or .. => "OR"

def columns : WhereColumn → List WhereColumn
  | .and cs .. => cs
  | .or cs .. => cs

def Field : WhereColumn → String
  | .and _ f .. => f
  | .or _ f .. => f

def Equality : WhereColumn → WhereEquality
  | .and _ _ e .. => e
  | .or _ _ e .. => e

def Semantic : WhereColumn → String
  | .and _ _ _ s _ => s
  | .or _ _ _ s _ => s

def Value : WhereColumn → Zsql.Value
  | .and _ _ _ _ v => v
  | .or _ _ _ _ v => v

def Len (wc : WhereColumn) : Nat := wc.columns.length

def IsEmpty (wc : WhereColumn) : Bool :=
  wc.Len == 0 && wc.Field == "" && wc.Semantic == ""

/-- The methods `(*and).C` and `(*or).C`: a node without children first gets a
child of its own kind built from its `Field` and `Value` only, then `sub` is
appended. The result is the node after the in-place update. -/
def C : WhereColumn → WhereColumn → WhereColumn
  | .and cs f e s v, sub =>
    let cs1 := if cs.isEmpty then [WhereColumn.and [] f "" "" v] else cs
    .and (cs1 ++ [sub]) f e s v
  | .or cs f e s v, sub =>
    let cs1 := if cs.isEmpty then [WhereColumn.or [] f "" "" v] else cs
    .or (cs1 ++ [sub]) f e s v

end WhereColumn

/-! ## Clauses and the statement -/

structure orderByColumn where
  Column : String
  Desc : Bool
deriving DecidableEq

structure groupByColumn where
  Column : String
deriving DecidableEq

structure orderBy where
  Columns : List orderByColumn

structure groupBy where
  Columns : List groupByColumn

structure Limit where
  Limit : Int
  Offset : Int
deriving DecidableEq

structure Where where
  Columns : List WhereColumn

/-- The dynamic type held in `Clause.Expression`, which is also the dynamic
type of an `IClause` contribution. -/
inductive Expression where
  | orderBy (e : Zsql.orderBy)
  | groupBy (e : Zsql.groupBy)
  | Limit (e : Zsql.Limit)
  | Where (e : Zsql.Where)

structure Clause where
  Name : String
  Expression : Option Expression

structure Statement where
  SQL : String
  Vals : List Value
  Clauses : String → Option Clause
  NameMapper : String → Option String

namespace Statement

def WriteString (st : Statement) (str : String) : Statement :=
  { st with SQL := st.SQL ++ str }

def WriteByte (st : Statement) (c : Char) : Statement :=
  { st with SQL := st.SQL.push c }

def WriteQuoted (st : Statement) (v : String) : Statement :=
  match st.NameMapper v with
  | some nn => st.WriteString nn
  | none => st.WriteString v

def AddVar (st : Statement) (vars : List Value) : Statement :=
  { st with Vals := st.Vals ++ vars.filter (fun v => !v.isMap) }

end Statement

/-- Go `strings.Repeat`. -/
def Repeat (s : String) : Nat → String
  | 0 => ""
  | n + 1 => s ++ Repeat s n

/-- The leaf part of `and.build` / `or.build` (no children). -/
def leafBuild (Field : String) (Equality : WhereEquality) (Semantic : String)
    (Val : Value) (st : Statement) : Except String Statement :=
  let we := Equality
  if we = "" then
    if Semantic = "" then
      .error "equlity not support and sematic is empty"
    else
      let st1 := st.WriteString (" " ++ Semantic)
      match Val with
      | .slice vs => .ok (st1.AddVar vs)
      | _ => .error "interface conversion: interface is not []interface"
  else if Equality = WE_BETWEEN then
    let st1 := (st.WriteQuoted Field).WriteString (" " ++ we ++ " ? AND ?")
    match Val with
    | .slice vs =>
      match vs with
      | v0 :: v1 :: _ => .ok ((st1.AddVar [v0]).AddVar [v1])
      | _ => .error "index out of range"
    | _ => .error "interface conversion: interface is not []interface"
  else if Equality = WE_IN then
    match Val with
    | .slice vs =>
      let st1 := st.WriteQuoted Field
      let inClause := Repeat "?," vs.length
      if inClause.length = 0 then .error "slice bounds out of range [:-1]"
      else
        let st2 := st1.WriteString (" " ++ we ++ "(" ++ inClause.dropRight 1 ++ ")")
        .ok (st2.AddVar vs)
    | _ => .error "interface conversion: interface is not []interface"
  else
    let st1 := (st.WriteQuoted Field).WriteString (" " ++ we ++ " ?")
    .ok (st1.AddVar [Val])

mutual
/-- The methods `and.build` and `or.build`. -/
def WhereColumn.build : WhereColumn → Statement → Except String Statement
  | .and cs f e s v, st =>
    if cs.length > 1 then
      (WhereColumn.buildColumns cs 0 (st.WriteString "(")).map (fun r => r.WriteString ")")
    else
      match cs with
      | c :: _ => c.build st
      | [] => leafBuild f e s v st
  | .or cs f e s v, st =>
    if cs.length > 1 then
      (WhereColumn.buildColumns cs 0 (st.WriteString "(")).map (fun r => r.WriteString ")")
    else
      match cs with
      | c :: _ => c.build st
      | [] => leafBuild f e s v st
/-- The loop `for idx, column := range columns` shared by `and.build`,
`or.build` and `Where.Build`; `idx` is the index of the head of the list. -/
def WhereColumn.buildColumns : List WhereColumn → Nat → Statement → Except String Statement
  | [], _, st => .ok st
  | c :: cs, idx, st =>
    let st1 := if idx > 0 then st.WriteString (" " ++ c.name ++ " ") else st
    match c.build st1 with
    | .error e => .error e
    | .ok st2 => WhereColumn.buildColumns cs (idx + 1) st2
end


/-! ## Serializers of the other clause kinds -/

/-- Go `strconv.Itoa`: the decimal text of an integer. -/
def Itoa (n : Int) : String := toString n

/-- The loop of `orderBy.Build`; `idx` is the index of the head of the list. -/
def orderBy.buildColumns : List orderByColumn → Nat → Statement → Statement
  | [], _, st => st
  | column :: rest, idx, st =>
    let st1 := if idx > 0 then st.WriteByte ',' else st
    let st2 := st1.WriteQuoted column.Column
    let st3 := if column.Desc then st2.WriteString " DESC" else st2
    orderBy.buildColumns rest (idx + 1) st3

def orderBy.Build (ob : orderBy) (st : Statement) : Statement :=
  orderBy.buildColumns ob.Columns 0 st

/-- The loop of `groupBy.Build`. -/
def groupBy.buildColumns : List groupByColumn → Nat → Statement → Statement
  | [], _, st => st
  | column :: rest, idx, st =>
    let st1 := if idx > 0 then st.WriteByte ',' else st
    groupBy.buildColumns rest (idx + 1) (st1.WriteQuoted column.Column)

def groupBy.Build (gb : groupBy) (st : Statement) : Statement :=
  groupBy.buildColumns gb.Columns 0 st

def Limit.Build (limit : Zsql.Limit) (st : Statement) : Statement :=
  let st1 :=
    if limit.Limit > 0 then (st.WriteString "LIMIT ").WriteString (Itoa limit.Limit) else st
  if limit.Offset > 0 then
    let st2 := if limit.Limit > 0 then st1.WriteString " " else st1
    (st2.WriteString "OFFSET ").WriteString (Itoa limit.Offset)
  else st1

def Where.Build (w : Where) (st : Statement) : Except String Statement :=
  if w.Columns.length = 0 then .ok st
  else
    let cols :=
      match w.Columns with
      | [c] => if c.Len > 0 then c.columns else w.Columns
      | _ => w.Columns
    WhereColumn.buildColumns cols 0 st

def Expression.Name : Expression → String
  | .orderBy _ => "ORDER BY"
  | .groupBy _ => "GROUP BY"
  | .Limit _ => "LIMIT"
  | .Where _ => "WHERE"

def Expression.Build : Expression → Statement → Except String Statement
  | .orderBy e, st => .ok (e.Build st)
  | .groupBy e, st => .ok (e.Build st)
  | .Limit e, st => .ok (e.Build st)
  | .Where e, st => e.Build st

def Clause.Build (c : Clause) (st : Statement) : Except String Statement :=
  match c.Expression with
  | some e =>
    let st1 := if c.Name ≠ "" then (st.WriteString c.Name).WriteByte ' ' else st
    e.Build st1
  | none => .ok st

/-! ## Merge policies -/

def orderBy.MergeClause (ob : orderBy) (clause : Clause) : Clause :=
  match clause.Expression with
  | some (.orderBy v) =>
    let copiedColumns := v.Columns
    { clause with Expression := some (.orderBy { Columns := ob.Columns ++ copiedColumns }) }
  | _ => { clause with Expression := some (.orderBy ob) }

def groupBy.MergeClause (gb : groupBy) (clause : Clause) : Clause :=
  match clause.Expression with
  | some (.groupBy v) =>
    let copiedColumns := v.Columns
    { clause with Expression := some (.groupBy { Columns := gb.Columns ++ copiedColumns }) }
  | _ => { clause with Expression := some (.groupBy gb) }

def Limit.MergeClause (limit : Zsql.Limit) (clause : Clause) : Clause :=
  let clause1 := { clause with Name := "" }
  match clause.Expression with
  | some (.Limit v) =>
    let l1 := if limit.Limit = 0 ∧ v.Limit ≠ 0 then v.Limit else limit.Limit
    let o1 :=
      if limit.Offset = 0 ∧ v.Offset > 0 then v.Offset
      else if limit.Offset < 0 then 0
      else limit.Offset
    { clause1 with Expression := some (.Limit { Limit := l1, Offset := o1 }) }
  | _ => { clause1 with Expression := some (.Limit limit) }

/-- The loop of `Where.MergeClause` over the copied columns of the stored
clause: each one is appended to the columns collected so far unless it is
empty, in which case the merge panics. -/
def Where.mergeColumns : List WhereColumn → List WhereColumn → Except String (List WhereColumn)
  | [], acc => .ok acc
  | column :: rest, acc =>
    if column.IsEmpty then .error "has empty WhereColumn"
    else Where.mergeColumns rest (acc ++ [column])

def Where.MergeClause (w : Where) (clause : Clause) : Except String Clause :=
  match clause.Expression with
  | some (.Where v) =>
    let copiedColumns := v.Columns
    match Where.mergeColumns copiedColumns w.Columns with
    | .error e => .error e
    | .ok cols => .ok { clause with Expression := some (.Where { Columns := cols }) }
  | _ => .ok { clause with Expression := some (.Where w) }

def Expression.MergeClause : Expression → Clause → Except String Clause
  | .orderBy e, c => .ok (e.MergeClause c)
  | .groupBy e, c => .ok (e.MergeClause c)
  | .Limit e, c => .ok (e.MergeClause c)
  | .Where e, c => e.MergeClause c

namespace Statement

/-- `Statement.AddClause`: the entry of a missing key is the zero `Clause`. -/
def AddClause (st : Statement) (v : Expression) : Except String Statement :=
  let name := v.Name
  let c : Clause := (st.Clauses name).getD { Name := "", Expression := none }
  let c1 := { c with Name := name }
  match v.MergeClause c1 with
  | .error e => .error e
  | .ok c2 => .ok { st with Clauses := fun k => if k = name then some c2 else st.Clauses k }

def Build : Statement → List String → Except String Statement
  | st, [] => .ok st
  | st, name :: rest =>
    match st.Clauses name with
    | some c =>
      match c.Build (st.WriteString " ") with
      | .error e => .error e
      | .ok st1 => Build st1 rest
    | none => Build st rest

/-- `Statement.clone`. -/
def clone (st : Statement) : Statement :=
  { SQL := if st.SQL.length > 0 then st.SQL else "",
    Vals := [],
    Clauses := fun _ => none,
    NameMapper := fun _ => none }

end Statement

/-! ## The handle and its builder calls -/

structure DB where
  Statement : Statement
  clone : Int

/-- The statement allocated by `getInstance` for a root handle (`clone == 1`). -/
def freshStatement : Statement :=
  { SQL := "", Vals := [], Clauses := fun _ => none, NameMapper := fun _ => none }

namespace DB

def getInstance (db : DB) : DB :=
  if db.clone > 0 then
    if db.clone = 1 then { Statement := freshStatement, clone := 0 }
    else { Statement := db.Statement.clone, clone := 0 }
  else db

end DB

mutual
/-- The closure `travelWhere` of `DB.Where`: the outer loop over the entries
`field, v` of the mapping. -/
def travelWhere : Entries → List WhereColumn
  | .nil => []
  | .cons field v rest =>
    (match v with
      | .map vm => travelOps field vm
      | _ => []) ++ travelWhere rest
/-- The inner loop of `travelWhere` over the entries `op, v` of one field. -/
def travelOps (field : String) : Entries → List WhereColumn
  | .nil => []
  | .cons op v rest =>
    (if op = "OR" ∨ op = "AND" then
      match v with
      | .map sm =>
        let cs := travelWhere sm
        if op = "OR" then [WhereColumn.or cs "" "" "" .nil]
        else [WhereColumn.and cs "" "" "" .nil]
      | _ => []
    else if op = "BETWEEN" then
      match v with
      | .slice vs =>
        if vs.length = 2 then [WhereColumn.and [] field WE_BETWEEN "" (.slice vs)] else []
      | _ => []
    else if op = "IN" then
      match v with
      | .slice vs =>
        if vs.length > 0 then [WhereColumn.and [] field WE_IN "" (.slice vs)] else []
      | _ => []
    else
      let quality := ToWhereEquality op
      if quality = "" then []
      else [WhereColumn.and [] field quality "" v]) ++ travelOps field rest
end


/-- One argument of the variadic `DB.Where`: a dynamic value, or a pre-built
node (a value implementing `WhereColumn`). -/
inductive Arg where
  | val (v : Value)
  | column (c : WhereColumn)

/-- An argument stored as a bound value. A node stored as a value is one of
the other dynamic values: it is neither a string, a slice nor a mapping. -/
def Arg.toValue : Arg → Value
  | .val v => v
  | .column _ => .other 0

/-- The argument of `DB.Order`, by the cases of its type switch; `other` is
any value of another type. -/
inductive OrderArg where
  | column (c : orderByColumn)
  | str (s : String)
  | pairs (v : List (List String))
  | other

/-- Go `int` arithmetic: the result wraps to 64 bits, two's complement. -/
def wrap64 (x : Int) : Int := (x + 2 ^ 63) % 2 ^ 64 - 2 ^ 63

namespace DB

def addClause (tx : DB) (v : Expression) : Except String DB :=
  match tx.Statement.AddClause v with
  | .error e => .error e
  | .ok st => .ok { tx with Statement := st }

/-- The two three-argument branches of `DB.Where` after the operator has been
read: the arity guard for `IN` / `BETWEEN`, then the contribution of one
`and` node. -/
def wherePositional (tx : DB) (field : String) (equality : WhereEquality) (w2 : Value) :
    Except String DB :=
  let add := tx.addClause (.Where { Columns := [WhereColumn.and [] field equality "" w2] })
  if equality = WE_IN ∨ equality = WE_BETWEEN then
    match w2 with
    | .slice vs =>
      if vs.length = 0 then .ok tx
      else if vs.length ≠ 2 ∧ equality = WE_BETWEEN then .ok tx
      else add
    | _ => .ok tx
  else add

/-- The last branch of `DB.Where`: a leading string is the text of a raw
fragment, the remaining arguments are its values. -/
def whereRaw (tx : DB) (args : List Arg) : Except String DB :=
  match args with
  | .val (.str s) :: rest =>
    let vs := rest.map Arg.toValue
    tx.addClause (.Where { Columns := [WhereColumn.and [] "" "" s (.slice vs)] })
  | _ => .ok tx

def Where (db : DB) (args : List Arg) : Except String DB :=
  let tx := db.getInstance
  match args with
  | [] => .ok tx
  | .val (.map v) :: _ =>
    let columns := travelWhere v
    if columns.isEmpty then .ok tx
    else tx.addClause (.Where { Columns := columns })
  | .column v :: _ => tx.addClause (.Where { Columns := [v] })
  | [.val (.str f), .val (.str w1), w2] =>
    tx.wherePositional f (ToWhereEquality w1) w2.toValue
  | [.val (.str f), .val (.equality w1), w2] =>
    tx.wherePositional f w1 w2.toValue
  | _ => tx.whereRaw args

/-- The loop of the `[][]string` case of `DB.Order`; `i[1]` panics on an
element shorter than two. -/
def orderColumns : List (List String) → List orderByColumn → Except String (List orderByColumn)
  | [], columns => .ok columns
  | i :: rest, columns =>
    match i with
    | i0 :: i1 :: _ =>
      if i1 = "ASC" then orderColumns rest (columns ++ [{ Column := i0, Desc := false }])
      else if i1 = "DESC" then orderColumns rest (columns ++ [{ Column := i0, Desc := true }])
      else orderColumns rest columns
    | _ => .error "index out of range"

def Order (db : DB) (value : OrderArg) : Except String DB :=
  let tx := db.getInstance
  match value with
  | .column v => tx.addClause (.orderBy { Columns := [v] })
  | .str v =>
    if v ≠ "" then tx.addClause (.orderBy { Columns := [{ Column := v, Desc := false }] })
    else .ok tx
  | .pairs v =>
    if v.length = 0 then .ok tx
    else
      match orderColumns v [] with
      | .error e => .error e
      | .ok columns => tx.addClause (.orderBy { Columns := columns })
  | .other => .ok tx

def GroupBy (db : DB) (column : String) : Except String DB :=
  db.getInstance.addClause (.groupBy { Columns := [{ Column := column }] })

def Limit (db : DB) (limit : Int) : Except String DB :=
  db.getInstance.addClause (.Limit { Limit := limit, Offset := 0 })

def Offset (db : DB) (offset : Int) : Except String DB :=
  db.getInstance.addClause (.Limit { Limit := 0, Offset := offset })

def Paging (db : DB) (page perPage : Int) : Except String DB :=
  let page1 := if page < 1 then 1 else page
  db.getInstance.addClause
    (.Limit { Offset := wrap64 (wrap64 (page1 - 1) * perPage), Limit := perPage })

end DB


/-! ## Sequences of calls and observations -/

/-- A sequence of `Statement.AddClause` calls, in call order; a panic stops
the sequence. -/
def Statement.AddClauses : Statement → List Expression → Except String Statement
  | st, [] => .ok st
  | st, v :: rest =>
    match st.AddClause v with
    | .error e => .error e
    | .ok st1 => Statement.AddClauses st1 rest

/-- The predicate list of the clause stored under `"WHERE"`. -/
def Statement.whereColumns (st : Statement) : Option (List WhereColumn) :=
  match st.Clauses "WHERE" with
  | some c =>
    match c.Expression with
    | some (.Where w) => some w.Columns
    | _ => none
  | none => none

/-- The column list of the clause stored under `"ORDER BY"`. -/
def Statement.orderColumns (st : Statement) : Option (List orderByColumn) :=
  match st.Clauses "ORDER BY" with
  | some c =>
    match c.Expression with
    | some (.orderBy ob) => some ob.Columns
    | _ => none
  | none => none

/-- The `Limit` value of the clause stored under `"LIMIT"`. -/
def Statement.storedLimit (st : Statement) : Option Limit :=
  match st.Clauses "LIMIT" with
  | some c =>
    match c.Expression with
    | some (.Limit v) => some v
    | _ => none
  | none => none

/-- Text and parameters written by `Clause.Build` for the clause stored under
`name`, serialized into the statement that owns it. -/
def Statement.clauseOutput (st : Statement) (name : String) : Option (String × List Value) :=
  match st.Clauses name with
  | some c =>
    match c.Build st with
    | .ok st1 => some (st1.SQL, st1.Vals)
    | .error _ => none
  | none => none

/-- The panic message of a failed computation. -/
def panicOf {α : Type} : Except String α → Option String
  | .error e => some e
  | .ok _ => none

/-! ## Concrete inputs -/

/-- The leaf `a = 1` as an `and` node. -/
def leafA : WhereColumn := .and [] "a" WE_EQ "" (.int 1)

/-- The leaf `b = 2` as an `and` node. -/
def leafB : WhereColumn := .and [] "b" WE_EQ "" (.int 2)

/-- The leaf `b = 2` as an `or` node. -/
def leafOrB : WhereColumn := .or [] "b" WE_EQ "" (.int 2)

/-- A root handle, as registered by the middleware: `clone` is 1 and the
statement has no maps yet. -/
def rootDB : DB := { Statement := freshStatement, clone := 1 }

/-- Two builder calls in a row on the handle returned by the first. -/
def DB.andThen (r : Except String DB) (f : DB → Except String DB) : Except String DB :=
  match r with
  | .error e => .error e
  | .ok db => f db

/-- The statement of a successful chain of builder calls. -/
def statementOf (r : Except String DB) : Option Statement :=
  match r with
  | .ok db => some db.Statement
  | .error _ => none

/-- The operators that serialize in the default form `field op ?`. -/
def compareOps : List WhereEquality := [WE_EQ, WE_NE, WE_LK, WE_LT, WE_LTE, WE_GT, WE_GTE]

/-- A list of predicates `(field, operator key, value)` as the mapping
`field -> (operator key -> value)` given to `DB.Where`, iterated in list
order. -/
def predicateMap : List (String × String × Value) → Entries
  | [] => .nil
  | e :: rest => .cons e.1 (.map (.cons e.2.1 e.2.2 .nil)) (predicateMap rest)

/-- The text of one default-form predicate: the field, the operator, one
placeholder. -/
def predicateText (e : String × String × Value) : String :=
  e.1 ++ " " ++ ToWhereEquality e.2.1 ++ " ?"

/-- The nodes `travelWhere` builds for a list of default-form predicates: one
childless `and` node each. -/
def predicateLeaves (es : List (String × String × Value)) : List WhereColumn :=
  es.map fun e => WhereColumn.and [] e.1 (ToWhereEquality e.2.1) "" e.2.2

/-- The values of a list of predicates that `AddVar` binds (keyed mappings are
discarded). -/
def predicateParams (es : List (String × String × Value)) : List Value :=
  (es.map fun e => e.2.2).filter fun v => !v.isMap

/-- One paging call on a handle: `Limit(limit)`, `Offset(offset)` or
`Paging(page, perPage)`. -/
inductive LimitCall where
  | Limit (limit : Int)
  | Offset (offset : Int)
  | Paging (page perPage : Int)

/-- The paging call `c` on the handle `db`. -/
def DB.limitCall (db : DB) : LimitCall → Except String DB
  | .Limit limit => db.Limit limit
  | .Offset offset => db.Offset offset
  | .Paging page perPage => db.Paging page perPage

/-- A chain of paging calls, each on the handle returned by the one before. -/
def DB.limitCalls : DB → List LimitCall → Except String DB
  | db, [] => .ok db
  | db, c :: rest =>
    match db.limitCall c with
    | .error e => .error e
    | .ok tx => DB.limitCalls tx rest

/-- The text `Limit.Build` writes for the stored values `n` and `m`. -/
def limitText (n m : Int) : String :=
  (if n > 0 then "LIMIT " ++ Itoa n else "") ++
  (if n > 0 ∧ m > 0 then " " else "") ++
  (if m > 0 then "OFFSET " ++ Itoa m else "")

/-! ## Strict constructors -/

/-- The test `value == nil` on an `interface{}`. -/
def Value.isNil : Value → Bool
  | .nil => true
  | _ => false

/-- The method `(*Where).And`: the `Where` after the call and the node
returned. -/
def Where.And (w : Where) (field : String) (quality : WhereEquality) (value : Value) :
    Except String (Where × WhereColumn) :=
  if quality = "" then .error ("where builder and unsupported quality " ++ quality)
  else if (quality = WE_IN ∨ quality = WE_BETWEEN) ∧ value.isNil then
    .error "where builder for quanlity in and between received empty value"
  else
    let node := WhereColumn.and [] field quality "" value
    .ok ({ Columns := w.Columns ++ [node] }, node)

/-- The method `(*Where).Or`. -/
def Where.Or (w : Where) (field : String) (quality : WhereEquality) (value : Value) :
    Except String (Where × WhereColumn) :=
  if quality = "" then .error ("where builder and unsupported quality " ++ quality)
  else if (quality = WE_IN ∨ quality = WE_BETWEEN) ∧ value.isNil then
    .error "where builder for quanlity in and between received empty value"
  else
    let node := WhereColumn.or [] field quality "" value
    .ok ({ Columns := w.Columns ++ [node] }, node)

/-- The package-level constructor `And(field, quality, value)`; `quality` is
a dynamic value, typed `WhereEquality` or `string` or anything else. -/
def And (field : String) (quality : Value) (value : Value) : WhereColumn :=
  if field = "" then WhereColumn.and [] "" "" "" .nil
  else
    match quality with
    | .equality v => WhereColumn.and [] field v "" value
    | .str v =>
      let s : WhereEquality := v
      if s ≠ "" then WhereColumn.and [] field s "" value
      else
        let ts := ToWhereEquality v
        if ts ≠ "" then WhereColumn.and [] field ts "" value
        else WhereColumn.and [] "" "" "" .nil
    | _ => WhereColumn.and [] "" "" "" .nil

/-- The closed operator set. -/
def closedOps : List WhereEquality :=
  [WE_EQ, WE_NE, WE_LK, WE_LT, WE_LTE, WE_GT, WE_GTE, WE_BETWEEN, WE_IN]

/-- A handle that owns its statement (`clone` is 0), with empty maps: what a
builder call on a root handle works on. -/
def ownDB : DB := { Statement := freshStatement, clone := 0 }

/-- A chain of `DB.Where` calls, each on the handle returned by the one
before; a panic stops the chain. -/
def DB.whereCalls : DB → List (List Arg) → Except String DB
  | db, [] => .ok db
  | db, args :: rest =>
    match db.Where args with
    | .error e => .error e
    | .ok tx => DB.whereCalls tx rest

/-- The third argument of a positional triple is no non-empty sequence. -/
def Value.notNonEmptySlice : Value → Bool
  | .slice (_ :: _) => false
  | _ => true

/-- The third argument of a positional triple is no sequence of length 2. -/
def Value.notPair : Value → Bool
  | .slice [_, _] => false
  | _ => true

/-- A stored `WHERE` clause with the single predicate `a = 1`. -/
def heldClauses : String → Option Clause := fun k =>
  if k = "WHERE" then some ⟨"WHERE", some (.Where ⟨[leafA]⟩)⟩ else none

/-- A handle that owns a statement holding the `WHERE` clause `a = 1` and one
bound parameter. -/
def heldDB : DB :=
  { Statement := { SQL := "", Vals := [.int 1], Clauses := heldClauses,
                   NameMapper := fun _ => none },
    clone := 0 }

/-! ## The statement left behind by a failing `AddClause` -/

/-- The node `&and{Field: ""}`, as `And` returns it for an empty field. -/
def emptyNode : WhereColumn := .and [] "" "" "" .nil

/-- A Go slice `[]WhereColumn` that begins at the start of its backing array:
the array (its index among the arrays allocated so far), the length and the
capacity. -/
structure ColumnSlice where
  array : Nat
  len : Nat
  cap : Nat

/-- The backing arrays allocated so far, each one the list of its cells; a
cell that was never written holds the nil interface. -/
abbrev Arrays := List (List (Option WhereColumn))

/-- The elements of a slice, read from its backing array. -/
def sliceCells (m : Arrays) (s : ColumnSlice) : List (Option WhereColumn) :=
  (m.getD s.array []).take s.len

/-- Go `append(s, x)`: with spare capacity the element is written into the
backing array of `s`, in the cell after the last element of `s`; otherwise
the elements are copied to a newly allocated array. `grow` stands for the
capacity rule of the runtime: the new array gets the capacity `grow s.cap`,
and in any case room for the element. -/
def appendColumn (grow : Nat → Nat) (m : Arrays) (s : ColumnSlice) (x : WhereColumn) :
    Arrays × ColumnSlice :=
  if s.len < s.cap then
    (m.set s.array ((m.getD s.array []).set s.len (some x)), { s with len := s.len + 1 })
  else
    let newcap := max (grow s.cap) (s.len + 1)
    (m ++ [sliceCells m s ++ some x :: List.replicate (newcap - (s.len + 1)) none],
      { array := m.length, len := s.len + 1, cap := newcap })

/-- The loop of `Where.MergeClause` on the backing arrays: `copied` holds the
elements of `copiedColumns` still to visit (a new array, read by the loop
only) and `w` is the local `where.Columns`. The result is the arrays and
`where.Columns` as they are when the loop ends, at the end of the copied
columns or at the panic, and the panic message. -/
def Where.mergeColumnsState (grow : Nat → Nat) :
    List (Option WhereColumn) → Arrays → ColumnSlice → Arrays × ColumnSlice × Option String
  | [], m, w => (m, w, none)
  | none :: _, m, w => (m, w, some "invalid memory address or nil pointer dereference")
  | some column :: rest, m, w =>
    if column.IsEmpty then (m, w, some "has empty WhereColumn")
    else
      Where.mergeColumnsState grow rest (appendColumn grow m w column).1
        (appendColumn grow m w column).2

/-- `Where.MergeClause` on the backing arrays. `w` is the `Columns` slice of
the receiver and `stored` the `Columns` slice of the `Where` held by
`clause.Expression`, if it holds one. The result is the arrays and the slice
held by `clause.Expression` when the call ends, and the panic message if it
panicked; the assignment to `clause.Expression` is the last statement of the
method. -/
def Where.MergeClauseState (grow : Nat → Nat) (w : ColumnSlice) (stored : Option ColumnSlice)
    (m : Arrays) : Arrays × Option ColumnSlice × Option String :=
  match stored with
  | some v =>
    match Where.mergeColumnsState grow (sliceCells m v) m w with
    | (m1, _, some e) => (m1, some v, some e)
    | (m1, w1, none) => (m1, some w1, none)
  | none => (m, some w, none)

/-- A statement as `AddClause` of a `WHERE` contribution sees it: the backing
arrays, the `Columns` slice of the `Where` stored under `"WHERE"` (none when
the entry is missing or holds no `Where`), the text and the parameters. -/
structure StatementState where
  arrays : Arrays
  stored : Option ColumnSlice
  SQL : String
  Vals : List Value

/-- The predicate list of the stored `WHERE` clause, read through its slice;
empty when there is none. -/
def StatementState.columns (st : StatementState) : List (Option WhereColumn) :=
  match st.stored with
  | some v => sliceCells st.arrays v
  | none => []

/-- `Statement.AddClause` of a `WHERE` contribution with the slice `w`, with
the statement as it is when the call ends, whether it returns or panics. The
clause `c` is a copy of the map entry, so it holds the same slice, and the
entry is written back after `MergeClause` has returned. -/
def Statement.AddClauseState (grow : Nat → Nat) (st : StatementState) (w : ColumnSlice) :
    StatementState × Option String :=
  match Where.MergeClauseState grow w st.stored st.arrays with
  | (m1, _, some e) => ({ st with arrays := m1 }, some e)
  | (m1, c, none) => ({ st with arrays := m1, stored := c }, none)

/-- The contribution `w := Where{Columns: cols}` with
`cols := append(make([]WhereColumn, 0, 4), a, e, c)`: the nodes `a = 1`, an
empty node and `b = 2` in an array with one spare cell. -/
def spareSlice : ColumnSlice := { array := 0, len := 3, cap := 4 }

/-- A statement that holds the `WHERE` clause `[b = 2 (or)]`, a text and a
parameter, next to the array of `spareSlice`. -/
def spareState : StatementState :=
  { arrays := [[some leafA, some emptyNode, some leafB, none], [some leafOrB]],
    stored := some { array := 1, len := 1, cap := 1 },
    SQL := "SELECT 1", Vals := [.int 7] }

/-- The values after a leading string make the call a positional triple:
there are exactly two and the first is a string or a `WhereEquality`. -/
def positionalShape : List Value → Bool
  | [.str _, _] => true
  | [.equality _, _] => true
  | _ => false

/-- The predicate list of the stored `WHERE` clause, empty when there is
none. -/
def Statement.storedColumns (st : Statement) : List WhereColumn :=
  st.whereColumns.getD []

/-- No node of the list is empty. -/
def noEmptyNode (cols : List WhereColumn) : Bool :=
  cols.all fun c => !c.IsEmpty

/-- The calls `Where(m)` for a list of nested mappings. -/
def mappingCalls (ms : List Entries) : List (List Arg) :=
  ms.map fun m => [Arg.val (.map m)]

/-- Three nested mappings: `a = 1`, an entry with the unknown operator `foo`,
and `b = 2`. -/
def sampleMappings : List Entries :=
  [Entries.ofList [("a", .map (.ofList [("=", .int 1)]))],
   Entries.ofList [("x", .map (.ofList [("foo", .int 1)]))],
   Entries.ofList [("b", .map (.ofList [("=", .int 2)]))]]

/-! ## Parameters of a tree, as the specification lists them -/

/-- The values of a childless node, following the specification: the
sequence for `IN`, `BETWEEN` and a raw fragment, the single value
otherwise. -/
def leafValues (e : WhereEquality) (v : Value) : List Value :=
  if e = WE_BETWEEN ∨ e = WE_IN ∨ e = "" then
    match v with
    | .slice vs => vs
    | _ => []
  else [v]

/-- None of the values is a keyed mapping. -/
def bindable (vs : List Value) : Bool :=
  vs.all fun v => !v.isMap

/-- A childless node is well formed: a raw fragment with a non-empty text and
a sequence of values, or a field predicate with `BETWEEN` and a sequence of
two, with `IN` and a non-empty sequence, or with a default-form operator; and
no value to bind is a keyed mapping. -/
def leafWellFormed (e : WhereEquality) (s : String) (v : Value) : Bool :=
  if e = "" then
    match v with
    | .slice vs => s ≠ "" && bindable vs
    | _ => false
  else if e = WE_BETWEEN then
    match v with
    | .slice [a, b] => bindable [a, b]
    | _ => false
  else if e = WE_IN then
    match v with
    | .slice (a :: rest) => bindable (a :: rest)
    | _ => false
  else decide (e ∈ compareOps) && !v.isMap

mutual
/-- Every leaf of the tree is well formed. -/
def WhereColumn.wellFormed : WhereColumn → Bool
  | .and cs _ e s v =>
    match cs with
    | [] => leafWellFormed e s v
    | _ :: _ => WhereColumn.wellFormedList cs
  | .or cs _ e s v =>
    match cs with
    | [] => leafWellFormed e s v
    | _ :: _ => WhereColumn.wellFormedList cs
/-- Every tree of the list is well formed. -/
def WhereColumn.wellFormedList : List WhereColumn → Bool
  | [] => true
  | c :: cs => c.wellFormed && WhereColumn.wellFormedList cs
end

mutual
/-- The depth-first, left-to-right concatenation of the leaf values of a
tree. -/
def WhereColumn.params : WhereColumn → List Zsql.Value
  | .and cs _ e _ v =>
    match cs with
    | [] => leafValues e v
    | _ :: _ => WhereColumn.paramsList cs
  | .or cs _ e _ v =>
    match cs with
    | [] => leafValues e v
    | _ :: _ => WhereColumn.paramsList cs
/-- The concatenation of the parameters of a list of trees, in order. -/
def WhereColumn.paramsList : List WhereColumn → List Zsql.Value
  | [] => []
  | c :: cs => c.params ++ WhereColumn.paramsList cs
end

/-- The number of `?` placeholders in a text. -/
def placeholders (s : String) : Nat := s.data.count '?'

/-- The tree `(a = 1 OR n IN ("x", "y"))` followed by `AND b BETWEEN 3 AND 4`. -/
def sampleWhere : Where :=
  { Columns :=
      [WhereColumn.and
          [leafA, WhereColumn.or [] "n" WE_IN "" (.slice [.str "x", .str "y"])] "" "" "" .nil,
        WhereColumn.and [] "b" WE_BETWEEN "" (.slice [.int 3, .int 4])] }

/-! ## The sink primitives as written -/

/-- The loop of `Statement.AddVar` as it is written: the values are visited in
order, a `map[string]interface{}` is skipped, any other value is appended. -/
def Statement.addVarLoop : Statement → List Value → Statement
  | st, [] => st
  | st, val :: rest =>
    match val with
    | .map _ => Statement.addVarLoop st rest
    | v => Statement.addVarLoop { st with Vals := st.Vals ++ [v] } rest

/-! ## The text and the parameters of a serializer -/

/-- A statement with no text, no parameters and no clauses whose rename table
is `m`. -/
def sinkOf (m : String → Option String) : Statement :=
  { SQL := "", Vals := [], Clauses := fun _ => none, NameMapper := m }

/-- The text and the parameters of the statement a serializer returns. -/
def outputOf : Except String Statement → Except String (String × List Value)
  | .error e => .error e
  | .ok st => .ok (st.SQL, st.Vals)

/-- The statement `st` with a text appended to its text and parameters
appended to its parameters; a panic stays a panic. -/
def Statement.extend (st : Statement) :
    Except String (String × List Value) → Except String Statement
  | .error e => .error e
  | .ok (t, ps) => .ok { st with SQL := st.SQL ++ t, Vals := st.Vals ++ ps }

/-- What `build` of a node writes on a statement with rename table `m`. -/
def WhereColumn.output (c : WhereColumn) (m : String → Option String) :
    Except String (String × List Zsql.Value) :=
  outputOf (c.build (sinkOf m))

/-- The serialized text of a node; empty when the serialization panics. -/
def WhereColumn.text (c : WhereColumn) (m : String → Option String) : String :=
  match c.output m with
  | .ok (t, _) => t
  | .error _ => ""

/-- The parameters a node binds; none when the serialization panics. -/
def WhereColumn.bound (c : WhereColumn) (m : String → Option String) : List Zsql.Value :=
  match c.output m with
  | .ok (_, ps) => ps
  | .error _ => []

/-- What `Build` of an expression writes on a statement with rename table
`m`. -/
def Expression.output (e : Expression) (m : String → Option String) :
    Except String (String × List Value) :=
  outputOf (e.Build (sinkOf m))

/-- What `Clause.Build` writes on a statement with rename table `m`. -/
def Clause.output (c : Clause) (m : String → Option String) :
    Except String (String × List Value) :=
  outputOf (c.Build (sinkOf m))

/-- The serialized text of a clause; empty when the serialization panics. -/
def Clause.text (c : Clause) (m : String → Option String) : String :=
  match c.output m with
  | .ok (t, _) => t
  | .error _ => ""

/-- The parameters a clause binds; none when the serialization panics. -/
def Clause.bound (c : Clause) (m : String → Option String) : List Value :=
  match c.output m with
  | .ok (_, ps) => ps
  | .error _ => []

/-- A serializer is framed when, under each rename table, it either panics
on every statement or appends one and the same text and list of parameters to
every statement, leaving the clause map and the rename table as they are. -/
def Framed (f : Statement → Except String Statement) : Prop :=
  ∀ m : String → Option String, ∃ res : Except String (String × List Value),
    ∀ st : Statement, st.NameMapper = m → f st = st.extend res

/-- In the words of the specification: what `Build` writes for one requested
name, a space and the serialized text of the clause stored under the name, or
nothing when no clause is stored under it. -/
def Statement.buildText (st : Statement) (n : String) : String :=
  match st.Clauses n with
  | some c => " " ++ c.text st.NameMapper
  | none => ""

/-- The parameters `Build` binds for one requested name: those of the clause
stored under the name, none when no clause is stored under it. -/
def Statement.buildVals (st : Statement) (n : String) : List Value :=
  match st.Clauses n with
  | some c => c.bound st.NameMapper
  | none => []

/-- A clause map holding the `WHERE` clause `a = 1` and the `ORDER BY` clause
`a DESC`. -/
def builtClauses : String → Option Clause := fun k =>
  if k = "WHERE" then some ⟨"WHERE", some (.Where ⟨[leafA]⟩)⟩
  else if k = "ORDER BY" then some ⟨"ORDER BY", some (.orderBy ⟨[⟨"a", true⟩]⟩)⟩
  else none

/-- A statement whose text is `SELECT 1`, with the clauses of `builtClauses`
and one bound parameter. -/
def builtStatement : Statement :=
  { SQL := "SELECT 1", Vals := [.int 7], Clauses := builtClauses, NameMapper := fun _ => none }

/-! ## Column naming (`pkg/schema/naming.go`) -/

def commonInitialisms : List String :=
  ["API", "ASCII", "CPU", "CSS", "DNS", "EOF", "GUID", "HTML", "HTTP", "HTTPS", "ID", "IP",
    "JSON", "LHS", "QPS", "RAM", "RHS", "RPC", "SLA", "SMTP", "SSH", "TLS", "TTL", "UID", "UI",
    "UUID", "URI", "URL", "UTF8", "VM", "XML", "XSRF", "XSS"]

/-- Go `strings.Title(strings.ToLower(s))` on one word of ASCII letters and
digits: the first letter in upper case, the others in lower case. -/
def titleLower (s : String) : String :=
  match s.data with
  | [] => ""
  | c :: cs => String.mk (c.toUpper :: cs.map Char.toLower)

/-- The arguments of `strings.NewReplacer` built by `init`: each initialism
with its replacement, in the order of `commonInitialisms`. -/
def commonInitialismsForReplacer : List (String × String) :=
  commonInitialisms.map fun initialism => (initialism, titleLower initialism)

/-- Whether the text `s` begins with `old`. -/
def beginsWith : List Char → List Char → Bool
  | [], _ => true
  | _ :: _, [] => false
  | a :: old, b :: s => a == b && beginsWith old s

/-- The lookup of the generic `strings.Replacer` at one position: among the
old strings the remaining text begins with, the one that comes first in
argument order. -/
def lookupReplacement : List (String × String) → List Char → Option (String × String)
  | [], _ => none
  | (old, new) :: rest, s =>
    if beginsWith old.data s then some (old, new) else lookupReplacement rest s

/-- The scan of `Replacer.Replace`, from the left and without overlapping
matches: `skip` is the number of characters of the last matched old string
still to be passed over. -/
def replaceScan (oldnew : List (String × String)) : Nat → List Char → List Char
  | _, [] => []
  | skip + 1, _ :: s => replaceScan oldnew skip s
  | 0, c :: s =>
    match lookupReplacement oldnew (c :: s) with
    | some (old, new) => new.data ++ replaceScan oldnew (old.length - 1) s
    | none => c :: replaceScan oldnew 0 s

/-- `commonInitialismsReplacer.Replace`. -/
def commonInitialismsReplace (name : String) : String :=
  String.mk (replaceScan commonInitialismsForReplacer 0 name.data)

/-- The test `b <= 'Z' && b >= 'A'` of `toDBName`. -/
def isUpperByte (b : Char) : Bool := b ≤ 'Z' && b ≥ 'A'

/-- The test `b >= '0' && b <= '9'` of `toDBName`. -/
def isDigitByte (b : Char) : Bool := b ≥ '0' && b ≤ '9'

/-- The character `v + 32`: the lower-case letter of an upper-case ASCII
letter. -/
def plus32 (v : Char) : Char := Char.ofNat (v.toNat + 32)

/-- The variables of `toDBName` that change in its loop. -/
structure NameBuf where
  buf : List Char
  lastCase : Bool
  curCase : Bool

/-- One iteration, at index `i`, of the loop
`for i, v := range value[:len(value)-1]` of `toDBName`, on ASCII text (one
byte per character). -/
def toDBNameStep (value : List Char) (s : NameBuf) (i : Nat) : NameBuf :=
  let v := value.getD i ' '
  let nextCase := isUpperByte (value.getD (i + 1) ' ')
  let nextNumber := isDigitByte (value.getD (i + 1) ' ')
  let buf1 :=
    if s.curCase then
      if s.lastCase && (nextCase || nextNumber) then s.buf ++ [plus32 v]
      else
        (if i > 0 ∧ value.getD (i - 1) ' ' ≠ '_' ∧ value.getD (i + 1) ' ' ≠ '_' then
          s.buf ++ ['_']
        else s.buf) ++ [plus32 v]
    else s.buf ++ [v]
  { buf := buf1, lastCase := s.curCase, curCase := nextCase }

/-- `NamingStrategy.toDBName` with no `NameReplacer` configured, on ASCII
text. The replaced `value` of a non-empty name is not empty, so every index
read is in range. -/
def toDBName (name : String) : String :=
  if name = "" then ""
  else
    let value := (commonInitialismsReplace name).data
    let start : NameBuf :=
      { buf := [], lastCase := false, curCase := isUpperByte (value.getD 0 ' ') }
    let s := (List.range (value.length - 1)).foldl (toDBNameStep value) start
    let last := value.getD (value.length - 1) ' '
    if s.curCase then
      String.mk ((if !s.lastCase ∧ value.length > 1 then s.buf ++ ['_'] else s.buf) ++
        [plus32 last])
    else String.mk (s.buf ++ [last])

/-! ## Handles as objects -/

namespace DB

/-- `DB.AddNameMap`: the entry `old` of the rename table of the handle
returned by `getInstance` is set to `new`. -/
def AddNameMap (db : DB) (old new : String) : DB :=
  let tx := db.getInstance
  { tx with
    Statement :=
      { tx.Statement with
        NameMapper := fun k => if k = old then some new else tx.Statement.NameMapper k } }

end DB

/-- A builder call with its arguments. -/
inductive BuilderCall where
  | Where (args : List Arg)
  | Order (value : OrderArg)
  | GroupBy (column : String)
  | Limit (limit : Int)
  | Offset (offset : Int)
  | Paging (page perPage : Int)
  | AddNameMap (old new : String)

/-- The builder call `c` with receiver `db`. -/
def DB.call (db : DB) : BuilderCall → Except String DB
  | .Where args => db.Where args
  | .Order value => db.Order value
  | .GroupBy column => db.GroupBy column
  | .Limit limit => db.Limit limit
  | .Offset offset => db.Offset offset
  | .Paging page perPage => db.Paging page perPage
  | .AddNameMap old new => .ok (db.AddNameMap old new)

/-- The handles allocated so far. A pointer `*DB` is an index into the list,
and an allocation appends to it. A handle is stored with its `Statement` and
the two maps of the statement: `getInstance` allocates a statement with new
maps for every handle it allocates, so no two handles share a statement or a
map. -/
abbrev Store := List DB

/-- `getInstance` on the handle at `p`: with `clone > 0` a new handle is
allocated and its pointer returned, otherwise the pointer `p` itself is
returned. -/
def Store.getInstance (s : Store) (p : Nat) : Option (Store × Nat) :=
  match s[p]? with
  | none => none
  | some db => if db.clone > 0 then some (s ++ [db.getInstance], s.length) else some (s, p)

/-- A builder call on the handle at `p`: `tx` is the pointer returned by
`getInstance`, the rest of the call works on the handle at `tx` in place, and
`tx` is returned. The handle at `tx` has `clone <= 0`, so the `getInstance`
inside `DB.call` returns it as it is. -/
def Store.call (s : Store) (p : Nat) (c : BuilderCall) : Except String (Store × Nat) :=
  match s.getInstance p with
  | none => .error "invalid memory address or nil pointer dereference"
  | some (s1, tx) =>
    match s1[tx]? with
    | none => .error "invalid memory address or nil pointer dereference"
    | some h =>
      match h.call c with
      | .error e => .error e
      | .ok h1 => .ok (s1.set tx h1, tx)

/-- Whether the call returns on a handle whose clause map is empty: the only
panic left is `i[1]` in `DB.Order` on a pair with fewer than two elements. -/
def BuilderCall.wellFormed : BuilderCall → Bool
  | .Order (.pairs v) => v.all fun i => decide (2 ≤ i.length)
  | _ => true

/-- Two handles: a root handle (`clone == 1`) whose statement holds text, a
parameter and a `WHERE` clause, and a handle that owns its statement
(`clone == 0`). -/
def sampleStore : Store :=
  [{ Statement := builtStatement, clone := 1 }, heldDB]

/-! ## Accumulating merges (`WHERE`, `ORDER BY`) -/

/-- Without an empty node among the stored columns the merge loop succeeds and
appends them, in order, to the columns collected so far. -/
theorem Where.mergeColumns_ok (old acc : List WhereColumn)
    (h : ∀ c ∈ old, c.IsEmpty = false) :
    Where.mergeColumns old acc = .ok (acc ++ old) := by
  induction old generalizing acc with
  | nil => simp [Where.mergeColumns]
  | cons c rest ih =>
    have hc : c.IsEmpty = false := h c (List.mem_cons_self _ _)
    have hr : ∀ d ∈ rest, d.IsEmpty = false := fun d hd => h d (List.mem_cons_of_mem _ hd)
    simp [Where.mergeColumns, hc, ih _ hr]

/-- `AddClause` of a `WHERE` contribution when a `WHERE` clause without empty
node is stored: the new nodes come first, the stored ones after them. -/
theorem Statement.AddClause_where_merge (st : Statement) (nm : String) (w : Where)
    (new : List WhereColumn)
    (hc : st.Clauses "WHERE" = some { Name := nm, Expression := some (.Where w) })
    (h : ∀ c ∈ w.Columns, c.IsEmpty = false) :
    st.AddClause (.Where { Columns := new }) =
      .ok { st with Clauses := fun k =>
        if k = "WHERE" then some ⟨"WHERE", some (.Where ⟨new ++ w.Columns⟩)⟩
        else st.Clauses k } := by
  simp [Statement.AddClause, Expression.Name, Expression.MergeClause, Where.MergeClause,
    hc, Where.mergeColumns_ok w.Columns new h]

/-- `AddClause` of a `WHERE` contribution when no `WHERE` clause is stored. -/
theorem Statement.AddClause_where_first (st : Statement) (new : List WhereColumn)
    (hc : st.Clauses "WHERE" = none) :
    st.AddClause (.Where { Columns := new }) =
      .ok { st with Clauses := fun k =>
        if k = "WHERE" then some ⟨"WHERE", some (.Where ⟨new⟩)⟩
        else st.Clauses k } := by
  simp [Statement.AddClause, Expression.Name, Expression.MergeClause, Where.MergeClause, hc]

/-- The predicate list stored by a sequence of `WHERE` contributions without
empty node on top of a stored list `old`: the contributions appear in the
reverse of the call order, the stored list last. -/
theorem Statement.AddClauses_where_stored (cs : List (List WhereColumn)) :
    ∀ (st : Statement) (nm : String) (old : List WhereColumn),
      st.Clauses "WHERE" = some { Name := nm, Expression := some (.Where { Columns := old }) } →
      (∀ c ∈ old, c.IsEmpty = false) →
      (∀ c ∈ cs, ∀ n ∈ c, WhereColumn.IsEmpty n = false) →
      ∃ st1, st.AddClauses (cs.map fun c => .Where { Columns := c }) = .ok st1 ∧
        st1.whereColumns = some (cs.reverse.flatten ++ old) := by
  induction cs with
  | nil =>
    intro st nm old hc _ _
    exact ⟨st, rfl, by simp [Statement.whereColumns, hc]⟩
  | cons c rest ih =>
    intro st nm old hc hold hcs
    have hstep := Statement.AddClause_where_merge st nm { Columns := old } c hc hold
    have hnew : ∀ n ∈ c ++ old, WhereColumn.IsEmpty n = false := by
      intro n hn
      rcases List.mem_append.mp hn with h1 | h1
      · exact hcs c (List.mem_cons_self _ _) n h1
      · exact hold n h1
    obtain ⟨st1, h1, h2⟩ := ih
      { st with Clauses := fun k =>
        if k = "WHERE" then some ⟨"WHERE", some (.Where ⟨c ++ old⟩)⟩ else st.Clauses k }
      "WHERE" (c ++ old) (by simp) hnew
      (fun d hd => hcs d (List.mem_cons_of_mem _ hd))
    refine ⟨st1, ?_, ?_⟩
    · simp only [List.map_cons, Statement.AddClauses, hstep]
      exact h1
    · simp [h2, List.append_assoc]

/-- C1 (code defect): two `WHERE` contributions `[a = 1]` then `[b = 2]`
through `Statement.AddClause` on a statement with an empty clause map store
the predicate list `[b = 2, a = 1]`: the later contribution comes first, so
the stored and emitted order is the reverse of the call order, not the call
order. -/
theorem C1_where_contributions_stored_in_reverse :
    ((freshStatement.AddClauses
        [.Where { Columns := [leafA] }, .Where { Columns := [leafB] }]).toOption.bind
          Statement.whereColumns = some [leafB, leafA]) ∧
    ((freshStatement.AddClauses
        [.Where { Columns := [leafA] }, .Where { Columns := [leafB] }]).toOption.bind
          Statement.whereColumns ≠ some [leafA, leafB]) ∧
    ((freshStatement.AddClauses
        [.Where { Columns := [leafA] }, .Where { Columns := [leafB] }]).toOption.bind
          (fun st => st.clauseOutput "WHERE") =
        some ("WHERE b = ? AND a = ?", [.int 2, .int 1])) ∧
    ((freshStatement.AddClauses
        [.Where { Columns := [leafA] }, .Where { Columns := [leafOrB] }]).toOption.bind
          (fun st => st.clauseOutput "WHERE") =
        some ("WHERE b = ? AND a = ?", [.int 2, .int 1])) := by
  refine ⟨rfl, ?_, rfl, rfl⟩
  have h : (freshStatement.AddClauses
      [.Where { Columns := [leafA] }, .Where { Columns := [leafB] }]).toOption.bind
        Statement.whereColumns = some [leafB, leafA] := rfl
  rw [h]
  simp [leafA, leafB]

/-- Two `ORDER BY` contributions `xs` then `ys` on a statement without an
`ORDER BY` clause store the column list `ys ++ xs`. -/
theorem Statement.AddClauses_orderBy_stored (st : Statement) (xs ys : List orderByColumn)
    (hc : st.Clauses "ORDER BY" = none) :
    (st.AddClauses [.orderBy { Columns := xs }, .orderBy { Columns := ys }]).toOption.bind
      Statement.orderColumns = some (ys ++ xs) := by
  simp [Statement.AddClauses, Statement.AddClause, Expression.Name, Expression.MergeClause,
    orderBy.MergeClause, hc, Except.toOption, Statement.orderColumns]

/-- C2 (code defect): `Order("a")` followed by `Order([["b","DESC"]])` on a
root handle stores the columns `b DESC, a` and serializes as
`ORDER BY b DESC,a`, whereas the single list `[a, b DESC]` serializes as
`ORDER BY a,b DESC`: the text of two contributions `xs`, `ys` is the text of
`ys ++ xs`, not of `xs ++ ys`. -/
theorem C2_order_contributions_stored_in_reverse :
    ((statementOf (DB.andThen (rootDB.Order (.str "a"))
        (fun tx => tx.Order (.pairs [["b", "DESC"]])))).bind Statement.orderColumns =
      some [{ Column := "b", Desc := true }, { Column := "a", Desc := false }]) ∧
    ((statementOf (DB.andThen (rootDB.Order (.str "a"))
        (fun tx => tx.Order (.pairs [["b", "DESC"]])))).bind
          (fun st => st.clauseOutput "ORDER BY") = some ("ORDER BY b DESC,a", [])) ∧
    ((freshStatement.AddClause (.orderBy { Columns :=
        [{ Column := "a", Desc := false }, { Column := "b", Desc := true }] })).toOption.bind
          (fun st => st.clauseOutput "ORDER BY") = some ("ORDER BY a,b DESC", [])) := by
  refine ⟨rfl, rfl, rfl⟩

/-! ## Default-form leaves and lists of them -/

/-- A default-form operator is neither empty nor `BETWEEN` nor `IN`. -/
theorem compareOps_ne (e : WhereEquality) (h : e ∈ compareOps) :
    e ≠ "" ∧ e ≠ WE_BETWEEN ∧ e ≠ WE_IN := by
  simp only [compareOps, List.mem_cons, List.mem_singleton, List.not_mem_nil, or_false] at h
  rcases h with rfl | rfl | rfl | rfl | rfl | rfl | rfl <;> decide

/-- A childless `and` node with a default-form operator writes the (renamed)
field, the operator and one placeholder, and binds its value. -/
theorem build_and_compare (f : String) (e : WhereEquality) (s : String) (v : Value)
    (st : Statement) (h : e ∈ compareOps) :
    (WhereColumn.and [] f e s v).build st =
      .ok (((st.WriteQuoted f).WriteString (" " ++ e ++ " ?")).AddVar [v]) := by
  obtain ⟨h1, h2, h3⟩ := compareOps_ne e h
  simp [WhereColumn.build, leafBuild, h1, h2, h3]

/-- A text in front of the accumulator of `String.intercalate.go` stays in
front of the result. -/
theorem intercalate_go_append (p acc s : String) (l : List String) :
    String.intercalate.go (p ++ acc) s l = p ++ String.intercalate.go acc s l := by
  induction l generalizing acc with
  | nil => simp [String.intercalate.go]
  | cons a as ih =>
    simp only [String.intercalate.go]
    rw [← ih]
    simp [String.append_assoc]

/-- The column loop over default-form leaves from a positive index on, with
no rename: every leaf is written after its connector ` AND `. -/
theorem buildColumns_predicateLeaves_succ (es : List (String × String × Value)) :
    ∀ (idx : Nat) (st : Statement), st.NameMapper = (fun _ => none) →
      (∀ e ∈ es, ToWhereEquality e.2.1 ∈ compareOps) →
      WhereColumn.buildColumns (predicateLeaves es) (idx + 1) st =
        .ok { st with
          SQL := String.intercalate.go st.SQL " AND " (es.map predicateText),
          Vals := st.Vals ++ predicateParams es } := by
  induction es with
  | nil =>
    intro idx st _ _
    simp [predicateLeaves, predicateParams, WhereColumn.buildColumns, String.intercalate.go]
  | cons e rest ih =>
    intro idx st hm hs
    have he := hs e (List.mem_cons_self _ _)
    have hr : ∀ x ∈ rest, ToWhereEquality x.2.1 ∈ compareOps :=
      fun x hx => hs x (List.mem_cons_of_mem _ hx)
    have hstep := build_and_compare e.1 (ToWhereEquality e.2.1) "" e.2.2
      (st.WriteString (" " ++ WhereColumn.name (WhereColumn.and [] e.1
        (ToWhereEquality e.2.1) "" e.2.2) ++ " ")) he
    have hrec := ih (idx + 1)
      (((((st.WriteString (" " ++ WhereColumn.name (WhereColumn.and [] e.1
        (ToWhereEquality e.2.1) "" e.2.2) ++ " ")).WriteQuoted e.1).WriteString
          (" " ++ ToWhereEquality e.2.1 ++ " ?")).AddVar [e.2.2]))
      (by simp [Statement.AddVar, Statement.WriteString, Statement.WriteQuoted, hm]) hr
    simp only [predicateLeaves, List.map_cons] at hrec ⊢
    simp only [WhereColumn.buildColumns, Nat.succ_pos, if_true, hstep]
    rw [hrec]
    simp [Statement.AddVar, Statement.WriteString, Statement.WriteQuoted, hm,
      String.intercalate.go, predicateText, predicateParams, WhereColumn.name,
      String.append_assoc, List.filter_cons]
    split <;> simp

/-- The column loop over a non-empty list of default-form leaves from index 0,
with no rename: the first leaf is written bare, the others after ` AND `. -/
theorem buildColumns_predicateLeaves_zero (e : String × String × Value)
    (rest : List (String × String × Value)) (st : Statement)
    (hm : st.NameMapper = (fun _ => none))
    (hs : ∀ x ∈ e :: rest, ToWhereEquality x.2.1 ∈ compareOps) :
    WhereColumn.buildColumns (predicateLeaves (e :: rest)) 0 st =
      .ok { st with
        SQL := st.SQL ++ String.intercalate " AND " ((e :: rest).map predicateText),
        Vals := st.Vals ++ predicateParams (e :: rest) } := by
  have he := hs e (List.mem_cons_self _ _)
  have hr : ∀ x ∈ rest, ToWhereEquality x.2.1 ∈ compareOps :=
    fun x hx => hs x (List.mem_cons_of_mem _ hx)
  have hstep := build_and_compare e.1 (ToWhereEquality e.2.1) "" e.2.2 st he
  have hrec := buildColumns_predicateLeaves_succ rest 0
    (((st.WriteQuoted e.1).WriteString (" " ++ ToWhereEquality e.2.1 ++ " ?")).AddVar [e.2.2])
    (by simp [Statement.AddVar, Statement.WriteString, Statement.WriteQuoted, hm]) hr
  simp only [predicateLeaves, List.map_cons] at hrec ⊢
  simp only [WhereColumn.buildColumns, Nat.lt_irrefl, if_false, hstep]
  rw [hrec]
  simp only [String.intercalate, ← intercalate_go_append]
  simp [Statement.AddVar, Statement.WriteString, Statement.WriteQuoted, hm,
    predicateText, predicateParams, String.append_assoc, List.filter_cons]
  split <;> simp

/-- One default-form entry of the inner loop of `travelWhere` yields one
childless `and` node. -/
theorem travelOps_compare (f op : String) (v : Value) (rest : Entries)
    (he : ToWhereEquality op ∈ compareOps) :
    travelOps f (.cons op v rest) =
      WhereColumn.and [] f (ToWhereEquality op) "" v :: travelOps f rest := by
  have h1 : op ≠ "OR" := by
    intro h; rw [h] at he; revert he; decide
  have h2 : op ≠ "AND" := by
    intro h; rw [h] at he; revert he; decide
  have h3 : op ≠ "BETWEEN" := by
    intro h; rw [h] at he; revert he; decide
  have h4 : op ≠ "IN" := by
    intro h; rw [h] at he; revert he; decide
  have h5 := (compareOps_ne _ he).1
  cases v <;> simp [travelOps, h1, h2, h3, h4, h5]


/-- On a mapping of default-form predicates `travelWhere` builds one childless
`and` node per entry, in iteration order. -/
theorem travelWhere_predicateMap (es : List (String × String × Value))
    (hs : ∀ e ∈ es, ToWhereEquality e.2.1 ∈ compareOps) :
    travelWhere (predicateMap es) = predicateLeaves es := by
  induction es with
  | nil => simp [predicateMap, predicateLeaves, travelWhere]
  | cons e rest ih =>
    obtain ⟨f, op, v⟩ := e
    have he : ToWhereEquality op ∈ compareOps := hs (f, op, v) (List.mem_cons_self _ _)
    have hr : ∀ x ∈ rest, ToWhereEquality x.2.1 ∈ compareOps :=
      fun x hx => hs x (List.mem_cons_of_mem _ hx)
    have ih1 := ih hr
    show travelWhere (.cons f (.map (.cons op v .nil)) (predicateMap rest)) = _
    rw [travelWhere, travelOps_compare f op v .nil he, ih1]
    simp [travelOps, predicateLeaves]

/-- The mapping with one entry holding an `AND` (an `OR`) group is lowered to
one `and` (one `or`) node whose children are the lowered inner mapping. -/
theorem travelWhere_single_group (x : String) (inner : Entries) :
    travelWhere (.ofList [(x, .map (.ofList [("AND", .map inner)]))]) =
        [WhereColumn.and (travelWhere inner) "" "" "" .nil] ∧
    travelWhere (.ofList [(x, .map (.ofList [("OR", .map inner)]))]) =
        [WhereColumn.or (travelWhere inner) "" "" "" .nil] := by
  constructor <;> simp [Entries.ofList, travelWhere, travelOps]

/-- C3 (amended): a nested mapping whose only entry is an `AND` / `OR` group
of `k >= 2` members, given to `DB.Where` on a root handle, is stored as one
group node and serializes as `WHERE ` followed by the output of the column
loop over the members (each member after the first preceded by its own
connector), with no enclosing parentheses, whereas the group node by itself
serializes with them. When the members are default-form predicates the text is
`WHERE ` followed by the predicates `field op ?` joined by ` AND `, and the
parameters are their values in order. -/
theorem C3_single_group_serializes_without_parentheses (x group : String) (inner : Entries)
    (hg : group = "AND" ∨ group = "OR") (hk : 2 ≤ (travelWhere inner).length) :
    (∃ st : Statement,
      statementOf (rootDB.Where
        [.val (.map (.ofList [(x, .map (.ofList [(group, .map inner)]))]))]) = some st ∧
      st.SQL = "" ∧ st.Vals = [] ∧
      st.whereColumns = some
        [if group = "OR" then WhereColumn.or (travelWhere inner) "" "" "" .nil
         else WhereColumn.and (travelWhere inner) "" "" "" .nil] ∧
      st.clauseOutput "WHERE" =
        (WhereColumn.buildColumns (travelWhere inner) 0 (st.WriteString "WHERE ")).toOption.map
          (fun r => (r.SQL, r.Vals)) ∧
      ∀ sink : Statement,
        (if group = "OR" then WhereColumn.or (travelWhere inner) "" "" "" .nil
         else WhereColumn.and (travelWhere inner) "" "" "" .nil).build sink =
          (WhereColumn.buildColumns (travelWhere inner) 0 (sink.WriteString "(")).map
            (fun r => r.WriteString ")")) ∧
    (∀ es : List (String × String × Value), inner = predicateMap es →
      (∀ e ∈ es, ToWhereEquality e.2.1 ∈ compareOps) →
      (statementOf (rootDB.Where
        [.val (.map (.ofList [(x, .map (.ofList [(group, .map inner)]))]))])).bind
          (fun st => st.clauseOutput "WHERE") =
        some ("WHERE " ++ String.intercalate " AND " (es.map predicateText),
          predicateParams es)) := by
  have hw : ("WHERE" : String).push ' ' = "WHERE " := by decide
  have hne : ¬ ("AND" : String) = "OR" := by decide
  have hg1 := (travelWhere_single_group x inner).1
  have hg2 := (travelWhere_single_group x inner).2
  have hpos : 0 < (travelWhere inner).length := by omega
  have hgt : (travelWhere inner).length > 1 := by omega
  constructor
  · rcases hg with rfl | rfl
    · refine ⟨_, by simp only [DB.Where, hg1]; rfl, rfl, rfl, ?_, ?_, ?_⟩
      · simp [Statement.whereColumns, DB.getInstance, rootDB, Statement.AddClause,
          Expression.Name, Expression.MergeClause, Where.MergeClause, freshStatement]
      · simp [Statement.clauseOutput, DB.getInstance, rootDB, Statement.AddClause,
          Expression.Name, Expression.MergeClause, Where.MergeClause, freshStatement,
          Clause.Build, Expression.Build, Where.Build, WhereColumn.Len, WhereColumn.columns,
          hpos, Statement.WriteString, Statement.WriteByte, hw, Except.toOption]
        generalize WhereColumn.buildColumns _ _ _ = r
        cases r <;> rfl
      · intro sink
        simp only [hne, if_false]
        rw [WhereColumn.build.eq_def]
        simp only [hgt, if_true]
    · refine ⟨_, by simp only [DB.Where, hg2]; rfl, rfl, rfl, ?_, ?_, ?_⟩
      · simp [Statement.whereColumns, DB.getInstance, rootDB, Statement.AddClause,
          Expression.Name, Expression.MergeClause, Where.MergeClause, freshStatement]
      · simp [Statement.clauseOutput, DB.getInstance, rootDB, Statement.AddClause,
          Expression.Name, Expression.MergeClause, Where.MergeClause, freshStatement,
          Clause.Build, Expression.Build, Where.Build, WhereColumn.Len, WhereColumn.columns,
          hpos, Statement.WriteString, Statement.WriteByte, hw, Except.toOption]
        generalize WhereColumn.buildColumns _ _ _ = r
        cases r <;> rfl
      · intro sink
        simp only [if_true]
        rw [WhereColumn.build.eq_def]
        simp only [hgt, if_true]
  · intro es hin hs
    subst hin
    have htw := travelWhere_predicateMap es hs
    rw [htw] at hg1 hg2 hk
    match es, hk, hs, hg1, hg2 with
    | e :: rest, _, hs, hg1, hg2 =>
      rcases hg with rfl | rfl
      · simp only [DB.Where, hg1]
        simp [DB.getInstance, rootDB, DB.addClause,
          Statement.AddClause, Expression.Name, Expression.MergeClause, Where.MergeClause,
          freshStatement, statementOf, Statement.clauseOutput, Clause.Build, Expression.Build,
          Where.Build, WhereColumn.Len, WhereColumn.columns]
        rw [if_pos (by simp [predicateLeaves]),
          buildColumns_predicateLeaves_zero e rest _ rfl hs]
        simp [Statement.WriteString, Statement.WriteByte, hw]
      · simp only [DB.Where, hg2]
        simp [DB.getInstance, rootDB, DB.addClause,
          Statement.AddClause, Expression.Name, Expression.MergeClause, Where.MergeClause,
          freshStatement, statementOf, Statement.clauseOutput, Clause.Build, Expression.Build,
          Where.Build, WhereColumn.Len, WhereColumn.columns]
        rw [if_pos (by simp [predicateLeaves]),
          buildColumns_predicateLeaves_zero e rest _ rfl hs]
        simp [Statement.WriteString, Statement.WriteByte, hw]

/-- Witness of C3 (amended) at the mapping
`x -> AND -> (a -> (= -> 1), b -> (= -> 2))`: the clause text is
`WHERE a = ? AND b = ?` and the parameters are `[1, 2]`. -/
theorem C3_single_group_serializes_without_parentheses_witness :
    ((("AND" : String) = "AND" ∨ ("AND" : String) = "OR") ∧
      2 ≤ (travelWhere
        (predicateMap [("a", "=", Value.int 1), ("b", "=", Value.int 2)])).length) ∧
    (statementOf (rootDB.Where [.val (.map (.ofList [("x", .map (.ofList [("AND",
        .map (predicateMap [("a", "=", Value.int 1), ("b", "=", Value.int 2)]))]))]))])).bind
          (fun st => st.clauseOutput "WHERE") =
      some ("WHERE a = ? AND b = ?", [.int 1, .int 2]) :=
  ⟨⟨Or.inl rfl, by decide⟩,
    (C3_single_group_serializes_without_parentheses "x" "AND"
      (predicateMap [("a", "=", Value.int 1), ("b", "=", Value.int 2)])
      (Or.inl rfl) (by decide)).2 [("a", "=", Value.int 1), ("b", "=", Value.int 2)] rfl
        (by decide)⟩

/-- Counterexample to C3 as stated: the mapping
`x -> AND -> (a -> (= -> 1), b -> (= -> 2))` serializes as
`WHERE a = ? AND b = ?` with parameters `[1, 2]`; the text is not
`WHERE (a = ? AND b = ?)`. -/
theorem C3_counterexample :
    ((statementOf (rootDB.Where [.val (.map (.ofList [("x", .map (.ofList [("AND", .map (.ofList
        [("a", .map (.ofList [("=", .int 1)])),
          ("b", .map (.ofList [("=", .int 2)]))]))]))]))])).bind
          (fun st => st.clauseOutput "WHERE") =
      some ("WHERE a = ? AND b = ?", [.int 1, .int 2])) ∧
    (((statementOf (rootDB.Where [.val (.map (.ofList [("x", .map (.ofList [("AND", .map (.ofList
        [("a", .map (.ofList [("=", .int 1)])),
          ("b", .map (.ofList [("=", .int 2)]))]))]))]))])).bind
          (fun st => st.clauseOutput "WHERE")).map Prod.fst ≠
      some "WHERE (a = ? AND b = ?)") := by
  refine ⟨rfl, ?_⟩
  decide

/-! ## Promotion of a leaf by `C` -/

/-- After `C` on a childless node the node never serializes: its first child
carries the field and the value but neither operator nor raw text. -/
theorem build_C_panics (f : String) (e : WhereEquality) (s : String) (v : Value)
    (sub : WhereColumn) (st : Statement) :
    ((WhereColumn.and [] f e s v).C sub).build st =
        .error "equlity not support and sematic is empty" ∧
    ((WhereColumn.or [] f e s v).C sub).build st =
        .error "equlity not support and sematic is empty" := by
  constructor <;>
    simp [WhereColumn.C, WhereColumn.build, WhereColumn.buildColumns, leafBuild, Except.map]

/-- C4 (code defect): the leaf `a = 1` serializes as `a = ?` with parameter
`1`; after `C(b = 2)` the node has two children, the first being a node with
field `a` and value `1` but an empty operator, and serializing that child, and
with it the node, panics: the original condition is lost. The same holds for
an `or` leaf. -/
theorem C4_promoted_leaf_loses_operator :
    ((leafA.build freshStatement).toOption.map (fun st => (st.SQL, st.Vals)) =
      some ("a = ?", [.int 1])) ∧
    ((leafA.C leafB).columns = [WhereColumn.and [] "a" "" "" (.int 1), leafB]) ∧
    (panicOf ((WhereColumn.and [] "a" "" "" (.int 1)).build freshStatement) =
      some "equlity not support and sematic is empty") ∧
    (panicOf ((leafA.C leafB).build freshStatement) =
      some "equlity not support and sematic is empty") ∧
    (((WhereColumn.or [] "a" WE_EQ "" (.int 1)).C leafB).columns =
      [WhereColumn.or [] "a" "" "" (.int 1), leafB]) ∧
    (panicOf (((WhereColumn.or [] "a" WE_EQ "" (.int 1)).C leafB).build freshStatement) =
      some "equlity not support and sematic is empty") := by
  refine ⟨rfl, rfl, rfl, rfl, rfl, rfl⟩

/-! ## The positional triple of `DB.Where` -/

/-- The positional triple with an operator text that matches no operator
stores a node with an empty operator. -/
theorem Where_positional_unmatched (f t : String) (v : Value) (h : ToWhereEquality t = "") :
    (statementOf (rootDB.Where [.val (.str f), .val (.str t), .val v])).bind
      Statement.whereColumns = some [WhereColumn.and [] f "" "" v] := by
  have h1 : ¬ (("" : String) = WE_IN ∨ ("" : String) = WE_BETWEEN) := by decide
  simp [DB.Where, DB.wherePositional, h, h1, DB.getInstance, rootDB, DB.addClause,
    Statement.AddClause, Expression.Name, Expression.MergeClause, Where.MergeClause,
    freshStatement, statementOf, Statement.whereColumns, Arg.toValue]

/-- C5 (code defect): `Where("age", "~", 18)` on a root handle stores a field
predicate whose operator is empty, which is outside the closed set, and the
`WHERE` clause then fails to serialize; the nested-mapping form of the same
predicate is dropped and stores nothing. -/
theorem C5_positional_unknown_operator_reaches_tree :
    ((statementOf (rootDB.Where [.val (.str "age"), .val (.str "~"), .val (.int 18)])).bind
      Statement.whereColumns = some [WhereColumn.and [] "age" "" "" (.int 18)]) ∧
    ((statementOf (rootDB.Where [.val (.str "age"), .val (.str "~"), .val (.int 18)])).bind
      (fun st => st.clauseOutput "WHERE") = none) ∧
    ((statementOf (rootDB.Where [.val (.str "age"), .val (.str "~"), .val (.int 18)])).bind
      (fun st => (st.Clauses "WHERE").bind (fun c => panicOf (c.Build st))) =
        some "equlity not support and sematic is empty") ∧
    ((statementOf (rootDB.Where
        [.val (.map (.ofList [("age", .map (.ofList [("~", .int 18)]))]))])).bind
      Statement.whereColumns = none) := by
  refine ⟨rfl, rfl, rfl, rfl⟩

/-! ## The `LIMIT` clause -/

/-- C6: merging a new contribution `l1, o1` into a stored `LIMIT` value
`l0, o0` stores the limit `l1` when `l1` is not zero and `l0` otherwise; and
`Limit(10)` followed by `Limit(0)` on a root handle keeps the limit 10. -/
theorem C6_limit_merge_keeps_prior_limit_on_zero :
    (∀ (nm : String) (l0 o0 l1 o1 : Int), ∃ o : Int,
      (Limit.MergeClause { Limit := l1, Offset := o1 }
          { Name := nm, Expression := some (.Limit { Limit := l0, Offset := o0 }) }).Expression =
        some (.Limit { Limit := if l1 ≠ 0 then l1 else l0, Offset := o })) ∧
    (((statementOf (DB.andThen (rootDB.Limit 10) (fun tx => tx.Limit 0))).bind
      Statement.storedLimit).map (fun v => v.Limit) = some 10) := by
  refine ⟨?_, by decide⟩
  intro nm l0 o0 l1 o1
  refine ⟨if o1 = 0 ∧ o0 > 0 then o0 else if o1 < 0 then 0 else o1, ?_⟩
  by_cases h1 : l1 = 0
  · by_cases h0 : l0 = 0 <;> simp [Limit.MergeClause, h1, h0]
  · simp [Limit.MergeClause, h1]

/-- Counterexample to C7 as stated: `Offset(-1)` on a root handle, whose
statement has no `LIMIT` clause yet, stores the offset `-1`, not `0`. -/
theorem C7_counterexample :
    (((statementOf (rootDB.Offset (-1))).bind Statement.storedLimit).map
      (fun v => v.Offset) = some (-1)) ∧
    (((statementOf (rootDB.Offset (-1))).bind Statement.storedLimit).map
      (fun v => v.Offset) ≠ some 0) := by
  decide

/-- C7 (amended): a `LIMIT` contribution with offset `o1` succeeds on every
statement. When a `LIMIT` value with offset `o0` is stored, the offset stored
afterwards is `0` if `o1` is negative, `o0` if `o1` is zero and `o0` is
positive, and `o1` otherwise; when no `LIMIT` value is stored, it is `o1`
unchanged. `Offset(5)` followed by `Offset(-1)` stores the offset 0. -/
theorem C7_offset_merge_clamps_only_against_prior :
    (∀ (st : Statement) (l1 o1 : Int),
      ((st.AddClause (.Limit { Limit := l1, Offset := o1 })).toOption.bind
          Statement.storedLimit).map (fun v => v.Offset) =
        some (match st.storedLimit with
          | some v => if o1 < 0 then 0 else if o1 = 0 ∧ v.Offset > 0 then v.Offset else o1
          | none => o1)) ∧
    (((statementOf (DB.andThen (rootDB.Offset 5) (fun tx => tx.Offset (-1)))).bind
      Statement.storedLimit).map (fun v => v.Offset) = some 0) := by
  refine ⟨?_, by decide⟩
  intro st l1 o1
  cases hc : st.Clauses "LIMIT" with
  | none =>
    simp [Statement.AddClause, Expression.Name, Expression.MergeClause, Limit.MergeClause, hc,
      Statement.storedLimit, Except.toOption]
  | some c =>
    obtain ⟨nm, ex⟩ := c
    match ex, hc with
    | none, hc =>
      simp [Statement.AddClause, Expression.Name, Expression.MergeClause, Limit.MergeClause, hc,
        Statement.storedLimit, Except.toOption]
    | some (.orderBy _), hc =>
      simp [Statement.AddClause, Expression.Name, Expression.MergeClause, Limit.MergeClause, hc,
        Statement.storedLimit, Except.toOption]
    | some (.groupBy _), hc =>
      simp [Statement.AddClause, Expression.Name, Expression.MergeClause, Limit.MergeClause, hc,
        Statement.storedLimit, Except.toOption]
    | some (.Where _), hc =>
      simp [Statement.AddClause, Expression.Name, Expression.MergeClause, Limit.MergeClause, hc,
        Statement.storedLimit, Except.toOption]
    | some (.Limit v), hc =>
      simp only [Statement.AddClause, Expression.Name, Expression.MergeClause,
        Limit.MergeClause, hc, Statement.storedLimit, Except.toOption, Option.getD]
      simp only [if_true, Option.bind, Option.map]
      by_cases hneg : o1 < 0
      · have h0 : ¬ o1 = 0 := by omega
        simp [hneg, h0]
      · by_cases hz : o1 = 0
        · by_cases hp : v.Offset > 0 <;> simp [hz, hp]
        · simp [hneg, hz]

/-- `Limit.Build` appends exactly `limitText`. -/
theorem Limit.Build_eq (n m : Int) (sink : Statement) :
    Limit.Build { Limit := n, Offset := m } sink = sink.WriteString (limitText n m) := by
  have hsp : ∀ x : String, " " ++ ("OFFSET " ++ x) = " OFFSET " ++ x := by
    intro x
    rw [← String.append_assoc]
    rfl
  by_cases hn : n > 0 <;> by_cases hm : m > 0 <;>
    simp [Limit.Build, limitText, Statement.WriteString, hn, hm, String.append_assoc, hsp]

/-- A stored `LIMIT` clause with an empty name serializes as `limitText`
alone. -/
theorem Clause.Build_limit (n m : Int) (sink : Statement) :
    Clause.Build { Name := "", Expression := some (.Limit { Limit := n, Offset := m }) } sink =
      .ok (sink.WriteString (limitText n m)) := by
  simp [Clause.Build, Expression.Build, Limit.Build_eq]

/-- The clause left by `Limit.MergeClause` has an empty name and holds a
`Limit` value. -/
theorem Limit.MergeClause_shape (v : Zsql.Limit) (c : Clause) :
    ∃ n m : Int, Limit.MergeClause v c =
      { Name := "", Expression := some (.Limit { Limit := n, Offset := m }) } := by
  obtain ⟨nm, ex⟩ := c
  match ex with
  | none => exact ⟨v.Limit, v.Offset, rfl⟩
  | some (.orderBy _) => exact ⟨v.Limit, v.Offset, rfl⟩
  | some (.groupBy _) => exact ⟨v.Limit, v.Offset, rfl⟩
  | some (.Where _) => exact ⟨v.Limit, v.Offset, rfl⟩
  | some (.Limit w) => exact ⟨_, _, rfl⟩

/-- Every `LIMIT` contribution succeeds and leaves a `LIMIT` clause with an
empty name under the key `"LIMIT"`. -/
theorem Statement.AddClause_limit (st : Statement) (v : Limit) :
    ∃ (st1 : Statement) (n m : Int), st.AddClause (.Limit v) = .ok st1 ∧
      st1.Clauses "LIMIT" =
        some { Name := "", Expression := some (.Limit { Limit := n, Offset := m }) } := by
  obtain ⟨n, m, h⟩ := Limit.MergeClause_shape v
    { Name := "LIMIT", Expression := ((st.Clauses "LIMIT").getD
      { Name := "", Expression := none }).Expression }
  refine ⟨{ st with Clauses := fun k =>
    if k = "LIMIT" then some ⟨"", some (.Limit ⟨n, m⟩)⟩ else st.Clauses k }, n, m, ?_, ?_⟩
  · simp only [Statement.AddClause, Expression.Name, Expression.MergeClause, h]
  · simp

/-- Every paging call succeeds and leaves a `LIMIT` clause with an empty
name. -/
theorem DB.limitCall_stored (db : DB) (c : LimitCall) :
    ∃ (tx : DB) (n m : Int), db.limitCall c = .ok tx ∧
      tx.Statement.Clauses "LIMIT" =
        some { Name := "", Expression := some (.Limit { Limit := n, Offset := m }) } := by
  cases c with
  | Limit limit =>
    obtain ⟨st1, n, m, h1, h2⟩ :=
      Statement.AddClause_limit db.getInstance.Statement { Limit := limit, Offset := 0 }
    exact ⟨{ Statement := st1, clone := db.getInstance.clone }, n, m,
      by simp only [DB.limitCall, DB.Limit, DB.addClause, h1], h2⟩
  | Offset offset =>
    obtain ⟨st1, n, m, h1, h2⟩ :=
      Statement.AddClause_limit db.getInstance.Statement { Limit := 0, Offset := offset }
    exact ⟨{ Statement := st1, clone := db.getInstance.clone }, n, m,
      by simp only [DB.limitCall, DB.Offset, DB.addClause, h1], h2⟩
  | Paging page perPage =>
    obtain ⟨st1, n, m, h1, h2⟩ :=
      Statement.AddClause_limit db.getInstance.Statement
        { Offset := wrap64 (wrap64 ((if page < 1 then 1 else page) - 1) * perPage),
          Limit := perPage }
    exact ⟨{ Statement := st1, clone := db.getInstance.clone }, n, m,
      by simp only [DB.limitCall, DB.Paging, DB.addClause, h1], h2⟩

/-- C8: after every chain of one or more `Limit` / `Offset` / `Paging` calls
(from any handle) the clause stored under `"LIMIT"` has an empty name and
holds values `n`, `m`, and `Clause.Build` on it appends to any sink exactly
`LIMIT n` when `n > 0`, one space when both are positive, and `OFFSET m` when
`m > 0`, with no clause name in front. `Limit(10)` then `Offset(5)` on a root
handle emits `LIMIT 10 OFFSET 5`. -/
theorem C8_limit_clause_has_no_name_and_one_fragment :
    (∀ (db : DB) (c : LimitCall) (cs : List LimitCall),
      ∃ (tx : DB) (cl : Clause) (n m : Int),
        db.limitCalls (c :: cs) = .ok tx ∧
        tx.Statement.Clauses "LIMIT" = some cl ∧
        cl.Name = "" ∧
        cl.Expression = some (.Limit { Limit := n, Offset := m }) ∧
        ∀ sink : Statement, cl.Build sink =
          .ok { sink with SQL := sink.SQL ++
            ((if n > 0 then "LIMIT " ++ Itoa n else "") ++
             (if n > 0 ∧ m > 0 then " " else "") ++
             (if m > 0 then "OFFSET " ++ Itoa m else "")) }) ∧
    ((statementOf (rootDB.limitCalls [.Limit 10, .Offset 5])).bind
      (fun st => st.clauseOutput "LIMIT") = some ("LIMIT 10 OFFSET 5", [])) := by
  refine ⟨?_, by rfl⟩
  intro db c cs
  induction cs generalizing db c with
  | nil =>
    obtain ⟨tx, n, m, h1, h2⟩ := DB.limitCall_stored db c
    exact ⟨tx, _, n, m, by simp [DB.limitCalls, h1], h2, rfl, rfl,
      fun sink => Clause.Build_limit n m sink⟩
  | cons d rest ih =>
    obtain ⟨tx, n, m, h1, _⟩ := DB.limitCall_stored db c
    obtain ⟨tx2, cl, n2, m2, k1, k2, k3, k4, k5⟩ := ih tx d
    exact ⟨tx2, cl, n2, m2, by simp only [DB.limitCalls, h1] at k1 ⊢; exact k1, k2, k3, k4, k5⟩

/-! ## Serialized leaves through `DB.Where` -/

/-- An operator text whose upper case is a default-form operator is read as
that operator. -/
theorem ToWhereEquality_of_upper (t : String) (e : WhereEquality) (he : e ∈ compareOps)
    (ht : ToUpper t = e) : ToWhereEquality t = e := by
  simp only [compareOps, List.mem_cons, List.mem_singleton, List.not_mem_nil, or_false] at he
  unfold ToWhereEquality
  rw [ht]
  rcases he with rfl | rfl | rfl | rfl | rfl | rfl | rfl <;> decide

/-- The positional triple with a default-form operator on a root handle: the
clause text is `WHERE field op ?` and the only parameter is the value. -/
theorem wherePositional_compare (f : String) (e : WhereEquality) (v : Value)
    (he : e ∈ compareOps) (hv : v.isMap = false) :
    (statementOf (rootDB.getInstance.wherePositional f e v)).bind
      (fun st => st.clauseOutput "WHERE") = some ("WHERE " ++ f ++ " " ++ e ++ " ?", [v]) := by
  obtain ⟨h1, h2, h3⟩ := compareOps_ne e he
  have hw : ("WHERE" : String).push ' ' = "WHERE " := by decide
  have hb := fun st => build_and_compare f e "" v st he
  simp [DB.wherePositional, h2, h3, DB.getInstance, rootDB, DB.addClause,
    Statement.AddClause, Expression.Name, Expression.MergeClause, Where.MergeClause,
    freshStatement, statementOf, Statement.clauseOutput, Clause.Build, Expression.Build,
    Where.Build, WhereColumn.Len, WhereColumn.columns, WhereColumn.buildColumns, hb,
    Statement.WriteString, Statement.WriteByte, Statement.WriteQuoted, Statement.AddVar, hw, hv,
    String.append_assoc]

/-- C9: for every field `f`, every operator `e` among `=`, `<>`, `LIKE`, `<`,
`<=`, `>`, `>=`, every text `t` whose upper case is `e` and every value `v`
that is not a keyed mapping (every scalar is such a value), `Where(f, t, v)`
and `Where(f, e, v)` with the enumerated value on a root handle (fresh
statement, empty rename table) produce a `WHERE` clause that serializes to
`WHERE f e ?` with parameter list `[v]`. -/
theorem C9_positional_compare_serializes (f t : String) (e : WhereEquality) (v : Value)
    (he : e ∈ compareOps) (ht : ToUpper t = e) (hv : v.isMap = false) :
    ((statementOf (rootDB.Where [.val (.str f), .val (.str t), .val v])).bind
      (fun st => st.clauseOutput "WHERE") = some ("WHERE " ++ f ++ " " ++ e ++ " ?", [v])) ∧
    ((statementOf (rootDB.Where [.val (.str f), .val (.equality e), .val v])).bind
      (fun st => st.clauseOutput "WHERE") = some ("WHERE " ++ f ++ " " ++ e ++ " ?", [v])) := by
  have h := wherePositional_compare f e v he hv
  constructor
  · simpa only [DB.Where, Arg.toValue, ToWhereEquality_of_upper t e he ht] using h
  · simpa only [DB.Where, Arg.toValue] using h

/-- Witness of C9 and its literal scenario: `Where("age", ">", 18)` gives
`WHERE age > ?` with parameters `[18]`. -/
theorem C9_positional_compare_serializes_witness :
    (WE_GT ∈ compareOps ∧ ToUpper ">" = WE_GT ∧ (Value.int 18).isMap = false) ∧
    ((statementOf (rootDB.Where [.val (.str "age"), .val (.str ">"), .val (.int 18)])).bind
      (fun st => st.clauseOutput "WHERE") = some ("WHERE age > ?", [.int 18])) ∧
    ((statementOf (rootDB.Where [.val (.str "age"), .val (.equality WE_GT), .val (.int 18)])).bind
      (fun st => st.clauseOutput "WHERE") = some ("WHERE age > ?", [.int 18])) :=
  ⟨⟨by decide, by decide, rfl⟩,
    C9_positional_compare_serializes "age" ">" WE_GT (.int 18) (by decide) (by decide) rfl⟩

/-- Counterexample to C10 as stated: with the two-element sequence
`[{}, 30]`, whose first element is a keyed mapping, the `BETWEEN` leaf writes
two placeholders but appends one parameter only, since `AddVar` discards the
mapping; so does `Where({"age": {"BETWEEN": [{}, 30]}})`. -/
theorem C10_counterexample :
    (((WhereColumn.and [] "age" WE_BETWEEN "" (.slice [.map .nil, .int 30])).build
        freshStatement).toOption.map (fun st => (st.SQL, st.Vals)) =
      some ("age BETWEEN ? AND ?", [.int 30])) ∧
    ((statementOf (rootDB.Where [.val (.map (.ofList [("age", .map (.ofList
        [("BETWEEN", .slice [.map .nil, .int 30])]))]))])).bind
          (fun st => st.clauseOutput "WHERE") =
      some ("WHERE age BETWEEN ? AND ?", [.int 30])) ∧
    (((statementOf (rootDB.Where [.val (.map (.ofList [("age", .map (.ofList
        [("BETWEEN", .slice [.map .nil, .int 30])]))]))])).bind
          (fun st => st.clauseOutput "WHERE")).map (fun p => p.2.length) ≠ some 2) := by
  refine ⟨rfl, rfl, ?_⟩
  decide

/-- C10 (amended): for every field `f` and every two-element sequence
`[x, y]` whose elements are not keyed mappings, a `BETWEEN` leaf (of either
node kind) appends to the text the field as `WriteQuoted` writes it (the name
the rename table gives for `f`, else `f` itself) followed by
` BETWEEN ? AND ?`, and appends exactly the parameters `x` then `y`.
`Where({"age": {"BETWEEN": [18, 30]}})` on a root handle gives
`WHERE age BETWEEN ? AND ?` with parameters `[18, 30]`. -/
theorem C10_between_leaf_serializes (f s : String) (x y : Value) (st : Statement)
    (hx : x.isMap = false) (hy : y.isMap = false) :
    ((WhereColumn.and [] f WE_BETWEEN s (.slice [x, y])).build st =
      .ok { st with
        SQL := st.SQL ++ (st.NameMapper f).getD f ++ " BETWEEN ? AND ?",
        Vals := st.Vals ++ [x, y] }) ∧
    ((WhereColumn.or [] f WE_BETWEEN s (.slice [x, y])).build st =
      .ok { st with
        SQL := st.SQL ++ (st.NameMapper f).getD f ++ " BETWEEN ? AND ?",
        Vals := st.Vals ++ [x, y] }) ∧
    ((statementOf (rootDB.Where [.val (.map (.ofList [("age", .map (.ofList
        [("BETWEEN", .slice [.int 18, .int 30])]))]))])).bind
          (fun st => st.clauseOutput "WHERE") =
      some ("WHERE age BETWEEN ? AND ?", [.int 18, .int 30])) := by
  have h1 : ¬ (WE_BETWEEN = "") := by decide
  have h2 : (" " ++ WE_BETWEEN ++ " ? AND ?" : String) = " BETWEEN ? AND ?" := by decide
  refine ⟨?_, ?_, rfl⟩
  · cases hm : st.NameMapper f <;>
      simp [WhereColumn.build, leafBuild, h1, h2, Statement.WriteQuoted, Statement.WriteString,
        Statement.AddVar, hm, hx, hy, String.append_assoc]
  · cases hm : st.NameMapper f <;>
      simp [WhereColumn.build, leafBuild, h1, h2, Statement.WriteQuoted, Statement.WriteString,
        Statement.AddVar, hm, hx, hy, String.append_assoc]

/-- Witness of C10 (amended) at field `age` and the sequence `[18, 30]` on a
statement whose rename table maps `age` to `user_age`. -/
theorem C10_between_leaf_serializes_witness :
    ((Value.int 18).isMap = false ∧ (Value.int 30).isMap = false) ∧
    ((WhereColumn.and [] "age" WE_BETWEEN "" (.slice [.int 18, .int 30])).build
        { freshStatement with
          NameMapper := fun k => if k = "age" then some "user_age" else none }).toOption.map
      (fun st => (st.SQL, st.Vals)) =
        some ("user_age BETWEEN ? AND ?", [.int 18, .int 30]) :=
  ⟨⟨rfl, rfl⟩, by
    rw [(C10_between_leaf_serializes "age" "" (.int 18) (.int 30)
      { freshStatement with
        NameMapper := fun k => if k = "age" then some "user_age" else none } rfl rfl).1]
    rfl⟩

/-! ## Rejected positional triples -/

/-- An operator text whose upper case is `IN` or `BETWEEN` is read as that
operator. -/
theorem ToWhereEquality_in_between (t : String) :
    (ToUpper t = "IN" → ToWhereEquality t = WE_IN) ∧
    (ToUpper t = "BETWEEN" → ToWhereEquality t = WE_BETWEEN) := by
  constructor <;> intro h <;> unfold ToWhereEquality <;> rw [h] <;> decide

/-- The arity guard of the positional triple for `IN`: without a non-empty
sequence nothing is contributed. -/
theorem wherePositional_in_rejected (tx : DB) (f : String) (v : Value)
    (hv : v.notNonEmptySlice = true) : tx.wherePositional f WE_IN v = .ok tx := by
  have h1 : (WE_IN = WE_IN ∨ WE_IN = WE_BETWEEN) := Or.inl rfl
  have h2 : ¬ (WE_IN = WE_BETWEEN) := by decide
  cases v with
  | slice vs =>
    cases vs with
    | nil => simp [DB.wherePositional, h1]
    | cons a rest => simp [Value.notNonEmptySlice] at hv
  | _ => simp [DB.wherePositional, h1]

/-- The arity guard of the positional triple for `BETWEEN`: without a
sequence of length 2 nothing is contributed. -/
theorem wherePositional_between_rejected (tx : DB) (f : String) (v : Value)
    (hv : v.notPair = true) : tx.wherePositional f WE_BETWEEN v = .ok tx := by
  have h1 : (WE_BETWEEN = WE_IN ∨ WE_BETWEEN = WE_BETWEEN) := Or.inr rfl
  cases v with
  | slice vs =>
    match vs, hv with
    | [], _ => simp [DB.wherePositional, h1]
    | [a], _ => simp [DB.wherePositional, h1]
    | [a, b], hv => simp [Value.notPair] at hv
    | a :: b :: c :: rest, _ => simp [DB.wherePositional, h1]
  | _ => simp [DB.wherePositional, h1]

/-- C14: on every handle, `Where(f, op, v)` with `op` the operator `IN`
(as text in any letter case or as enumerated value) and `v` nil, not a
sequence or an empty sequence, and with `op` the operator `BETWEEN` and `v`
nil, not a sequence or a sequence whose length is not 2, returns the instance
of the handle as `getInstance` gives it: no clause is added and the clause
map, the text and the parameter list are unchanged. -/
theorem C14_positional_in_between_arity_rejected (db : DB) (f t : String) (w2 : Arg) :
    (ToUpper t = "IN" → w2.toValue.notNonEmptySlice = true →
      db.Where [.val (.str f), .val (.str t), w2] = .ok db.getInstance) ∧
    (w2.toValue.notNonEmptySlice = true →
      db.Where [.val (.str f), .val (.equality WE_IN), w2] = .ok db.getInstance) ∧
    (ToUpper t = "BETWEEN" → w2.toValue.notPair = true →
      db.Where [.val (.str f), .val (.str t), w2] = .ok db.getInstance) ∧
    (w2.toValue.notPair = true →
      db.Where [.val (.str f), .val (.equality WE_BETWEEN), w2] = .ok db.getInstance) := by
  refine ⟨?_, ?_, ?_, ?_⟩
  · intro ht hv
    simp only [DB.Where, (ToWhereEquality_in_between t).1 ht]
    exact wherePositional_in_rejected _ f _ hv
  · intro hv
    simp only [DB.Where]
    exact wherePositional_in_rejected _ f _ hv
  · intro ht hv
    simp only [DB.Where, (ToWhereEquality_in_between t).2 ht]
    exact wherePositional_between_rejected _ f _ hv
  · intro hv
    simp only [DB.Where]
    exact wherePositional_between_rejected _ f _ hv

/-- Witness of C14: `Where("name", "in", [])` and
`Where("age", "Between", [18])` on a handle that already holds a `WHERE`
clause and a parameter leave the handle as it is. -/
theorem C14_positional_in_between_arity_rejected_witness :
    (ToUpper "in" = "IN" ∧ (Value.slice []).notNonEmptySlice = true ∧
      ToUpper "Between" = "BETWEEN" ∧ (Value.slice [.int 18]).notPair = true) ∧
    (heldDB.Where [.val (.str "name"), .val (.str "in"), .val (.slice [])] = .ok heldDB) ∧
    (heldDB.Where [.val (.str "age"), .val (.str "Between"), .val (.slice [.int 18])] =
      .ok heldDB) :=
  ⟨⟨by decide, rfl, by decide, rfl⟩,
    (C14_positional_in_between_arity_rejected heldDB "name" "in" (.val (.slice []))).1
      (by decide) rfl,
    (C14_positional_in_between_arity_rejected heldDB "age" "Between"
      (.val (.slice [.int 18]))).2.2.1 (by decide) rfl⟩

/-! ## Arity of `IN` / `BETWEEN` in the nested mapping -/

/-- An inner key that is a letter-case variant of `IN` or `BETWEEN`, other
than the upper-case spelling itself, reaches the tree with any value. -/
theorem travelOps_unchecked_key (field op : String) (v : Value)
    (h1 : op ≠ "OR") (h2 : op ≠ "AND") (h3 : op ≠ "BETWEEN") (h4 : op ≠ "IN")
    (h5 : ToWhereEquality op ≠ "") :
    travelOps field (.cons op v .nil) =
      [WhereColumn.and [] field (ToWhereEquality op) "" v] := by
  cases v <;> simp [travelOps, h1, h2, h3, h4, h5]

/-- C15 (code defect): `Where({"name": {"in": []}})` stores an `IN` leaf with
an empty sequence and `Where({"age": {"Between": [18]}})` stores a `BETWEEN`
leaf with a one-element sequence (serializing either clause panics), whereas
the same entries under the upper-case keys `IN` and `BETWEEN` are dropped: the
arity guard of `travelWhere` compares the key with the upper-case spelling
only. -/
theorem C15_mapping_lower_case_key_skips_arity_guard :
    ((statementOf (rootDB.Where
        [.val (.map (.ofList [("name", .map (.ofList [("in", .slice [])]))]))])).bind
      Statement.whereColumns = some [WhereColumn.and [] "name" WE_IN "" (.slice [])]) ∧
    ((statementOf (rootDB.Where
        [.val (.map (.ofList [("name", .map (.ofList [("in", .slice [])]))]))])).bind
      (fun st => (st.Clauses "WHERE").bind (fun c => panicOf (c.Build st))) =
        some "slice bounds out of range [:-1]") ∧
    ((statementOf (rootDB.Where
        [.val (.map (.ofList [("age", .map (.ofList [("Between", .slice [.int 18])]))]))])).bind
      Statement.whereColumns =
        some [WhereColumn.and [] "age" WE_BETWEEN "" (.slice [.int 18])]) ∧
    ((statementOf (rootDB.Where
        [.val (.map (.ofList [("age", .map (.ofList [("Between", .slice [.int 18])]))]))])).bind
      (fun st => (st.Clauses "WHERE").bind (fun c => panicOf (c.Build st))) =
        some "index out of range") ∧
    ((statementOf (rootDB.Where
        [.val (.map (.ofList [("name", .map (.ofList [("IN", .slice [])]))]))])).bind
      Statement.whereColumns = none) ∧
    ((statementOf (rootDB.Where
        [.val (.map (.ofList [("age", .map (.ofList [("BETWEEN", .slice [.int 18])]))]))])).bind
      Statement.whereColumns = none) := by
  refine ⟨rfl, rfl, rfl, rfl, rfl, rfl⟩

/-! ## Strict and package-level constructors -/

/-- `Where.And` and `Where.Or` append a node for every non-empty operator,
unless the operator is `IN` or `BETWEEN` and the value is nil. -/
theorem Where.And_Or_appends (w : Where) (f : String) (op : WhereEquality) (v : Zsql.Value)
    (hop : op ≠ "") (hv : (op = WE_IN ∨ op = WE_BETWEEN) → v.isNil = false) :
    w.And f op v =
        .ok ({ Columns := w.Columns ++ [WhereColumn.and [] f op "" v] },
          WhereColumn.and [] f op "" v) ∧
    w.Or f op v =
        .ok ({ Columns := w.Columns ++ [WhereColumn.or [] f op "" v] },
          WhereColumn.or [] f op "" v) := by
  by_cases h : op = WE_IN ∨ op = WE_BETWEEN
  · simp [Where.And, Where.Or, hop, h, hv h]
  · simp [Where.And, Where.Or, hop, h]

/-- C17 (code defect): `Where.And` and `Where.Or` fail for the empty operator
and for `IN` with a nil value, but for the operator `foo`, which is outside
the closed set, and for `IN` with an empty sequence they append the node and
return it instead of failing. -/
theorem C17_strict_constructors_accept_unknown_operator_and_empty_sequence :
    (panicOf (Where.And { Columns := [leafA] } "x" "" (.int 1)) =
      some "where builder and unsupported quality ") ∧
    (panicOf (Where.And { Columns := [leafA] } "x" WE_IN .nil) =
      some "where builder for quanlity in and between received empty value") ∧
    ("foo" ∉ closedOps) ∧
    (Where.And { Columns := [leafA] } "x" "foo" (.int 1) =
      .ok ({ Columns := [leafA, WhereColumn.and [] "x" "foo" "" (.int 1)] },
        WhereColumn.and [] "x" "foo" "" (.int 1))) ∧
    (Where.And { Columns := [leafA] } "x" WE_IN (.slice []) =
      .ok ({ Columns := [leafA, WhereColumn.and [] "x" WE_IN "" (.slice [])] },
        WhereColumn.and [] "x" WE_IN "" (.slice []))) ∧
    (Where.Or { Columns := [leafA] } "x" "foo" (.int 1) =
      .ok ({ Columns := [leafA, WhereColumn.or [] "x" "foo" "" (.int 1)] },
        WhereColumn.or [] "x" "foo" "" (.int 1))) ∧
    (Where.Or { Columns := [leafA] } "x" WE_BETWEEN (.slice []) =
      .ok ({ Columns := [leafA, WhereColumn.or [] "x" WE_BETWEEN "" (.slice [])] },
        WhereColumn.or [] "x" WE_BETWEEN "" (.slice []))) := by
  refine ⟨rfl, rfl, by decide, rfl, rfl, rfl, rfl⟩

/-- The package-level `And` takes every non-empty operator text as it is. -/
theorem And_text_verbatim (f t : String) (v : Value) (hf : f ≠ "") (ht : t ≠ "") :
    And f (.str t) v = WhereColumn.and [] f t "" v := by
  simp [And, hf, ht]

/-- C18 (code defect): `And("name", "like", "x")` returns a node whose
operator is the text `like`, not the member `LIKE` of the closed set, and
`And("name", "foo", 1)` returns a node with the operator `foo`, which is not
empty although `foo` matches no member; only the empty text gives an empty
node. -/
theorem C18_package_And_keeps_operator_text :
    (ToWhereEquality "like" = WE_LK) ∧
    (And "name" (.str "like") (.str "x") = WhereColumn.and [] "name" "like" "" (.str "x")) ∧
    ((And "name" (.str "like") (.str "x")).Equality ≠ WE_LK) ∧
    ((And "name" (.str "like") (.str "x")).Equality ∉ closedOps) ∧
    (ToWhereEquality "foo" = "") ∧
    (And "name" (.str "foo") (.int 1) = WhereColumn.and [] "name" "foo" "" (.int 1)) ∧
    ((And "name" (.str "foo") (.int 1)).IsEmpty = false) ∧
    ((And "name" (.str "foo") (.int 1)).Equality ∉ closedOps) ∧
    ((And "name" (.str "") (.int 1)).IsEmpty = true) := by
  refine ⟨by decide, rfl, by decide, by decide, by decide, rfl, by decide, by decide,
    by decide⟩

/-! ## Empty nodes in a `WHERE` merge -/

/-- With an empty node among the stored columns the merge loop panics,
whatever the new columns are. -/
theorem Where.mergeColumns_panics (old acc : List WhereColumn)
    (h : ∃ c ∈ old, c.IsEmpty = true) :
    Where.mergeColumns old acc = .error "has empty WhereColumn" := by
  induction old generalizing acc with
  | nil => obtain ⟨c, hc, _⟩ := h; simp at hc
  | cons d rest ih =>
    by_cases hd : d.IsEmpty = true
    · simp [Where.mergeColumns, hd]
    · obtain ⟨c, hc, he⟩ := h
      have hrest : ∃ c ∈ rest, c.IsEmpty = true := by
        rcases List.mem_cons.mp hc with rfl | hc1
        · exact absurd he hd
        · exact ⟨c, hc1, he⟩
      simp [Where.mergeColumns, hd, ih _ hrest]

/-- C19 (code defect): merging the contribution `[empty node]` into a
statement that holds the `WHERE` clause `[a = 1]` does not fail: it stores
`[empty node, a = 1]`. Only an empty node in the stored clause makes the merge
fail, as the next contribution `[b = 2]` shows. The empty node is the one
`And("", "=", 1)` returns. -/
theorem C19_empty_node_in_new_contribution_is_not_rejected :
    (And "" (.str "=") (.int 1) = emptyNode) ∧
    (emptyNode.IsEmpty = true) ∧
    (heldDB.Statement.whereColumns = some [leafA]) ∧
    ((heldDB.Statement.AddClause (.Where { Columns := [emptyNode] })).toOption.bind
      Statement.whereColumns = some [emptyNode, leafA]) ∧
    (panicOf (heldDB.Statement.AddClauses
      [.Where { Columns := [emptyNode] }, .Where { Columns := [leafB] }]) =
        some "has empty WhereColumn") ∧
    ((statementOf (DB.andThen (ownDB.Where [.column leafA])
        (fun tx => tx.Where [.column (And "" (.str "=") (.int 1))]))).bind
      Statement.whereColumns = some [emptyNode, leafA]) := by
  refine ⟨rfl, rfl, rfl, rfl, rfl, rfl⟩

/-- The merge loop panics with one message only. -/
theorem Where.mergeColumns_message (old acc : List WhereColumn) (e : String)
    (h : Where.mergeColumns old acc = .error e) : e = "has empty WhereColumn" := by
  induction old generalizing acc with
  | nil => simp [Where.mergeColumns] at h
  | cons d rest ih =>
    by_cases hd : d.IsEmpty = true
    · simp [Where.mergeColumns, hd] at h
      exact h.symm
    · simp only [Where.mergeColumns, hd] at h
      exact ih _ h

/-- `Where.MergeClause` panics with one message only. -/
theorem Where.MergeClause_message (w : Where) (c : Clause) (e : String)
    (h : w.MergeClause c = .error e) : e = "has empty WhereColumn" := by
  obtain ⟨nm, ex⟩ := c
  match ex, h with
  | none, h => simp [Where.MergeClause] at h
  | some (.orderBy _), h => simp [Where.MergeClause] at h
  | some (.groupBy _), h => simp [Where.MergeClause] at h
  | some (.Limit _), h => simp [Where.MergeClause] at h
  | some (.Where v), h =>
    cases hm : Where.mergeColumns v.Columns w.Columns with
    | ok cols => simp [Where.MergeClause, hm] at h
    | error e1 =>
      have : e1 = e := by simpa [Where.MergeClause, hm] using h
      subst this
      exact Where.mergeColumns_message _ _ _ hm

/-- An `append` leaves every array alone that is not the array of the slice
appended to, and every array when the slice has no spare capacity. -/
theorem appendColumn_other (grow : Nat → Nat) (m : Arrays) (s : ColumnSlice) (x : WhereColumn)
    (i : Nat) (hi : i < m.length) (h : i ≠ s.array ∨ s.cap ≤ s.len) :
    (appendColumn grow m s x).1.getD i [] = m.getD i [] ∧
      i < (appendColumn grow m s x).1.length ∧ i ≠ (appendColumn grow m s x).2.array := by
  unfold appendColumn
  by_cases hc : s.len < s.cap
  · have hne : i ≠ s.array := by
      rcases h with h | h
      · exact h
      · exact absurd hc (Nat.not_lt.mpr h)
    simp only [hc, if_true, List.length_set]
    refine ⟨?_, hi, hne⟩
    simp [List.getD_eq_getElem?_getD, List.getElem?_set_ne (Ne.symm hne)]
  · simp only [hc, if_false, List.length_append, List.length_singleton]
    refine ⟨?_, Nat.lt_succ_of_lt hi, Nat.ne_of_lt hi⟩
    simp [List.getD_eq_getElem?_getD, List.getElem?_append_left hi]

/-- The merge loop leaves every array alone that is not the array of the
contribution, and every array when the contribution has no spare capacity. -/
theorem Where.mergeColumnsState_other (grow : Nat → Nat) :
    ∀ (copied : List (Option WhereColumn)) (m : Arrays) (w : ColumnSlice) (i : Nat),
      i < m.length → (i ≠ w.array ∨ w.cap ≤ w.len) →
      (Where.mergeColumnsState grow copied m w).1.getD i [] = m.getD i []
  | [], _, _, _, _, _ => rfl
  | none :: _, _, _, _, _, _ => rfl
  | some column :: rest, m, w, i, hi, h => by
    by_cases he : column.IsEmpty = true
    · simp [Where.mergeColumnsState, he]
    · obtain ⟨h1, h2, h3⟩ := appendColumn_other grow m w column i hi h
      simp only [Where.mergeColumnsState, he, Bool.false_eq_true, if_false]
      rw [Where.mergeColumnsState_other grow rest _ _ i h2 (Or.inl h3)]
      exact h1

/-- C20 (code defect): a failing `AddClause` of a `WHERE` contribution can
change the predicate list of the stored `WHERE` clause. The loop of
`Where.MergeClause` appends the stored nodes to the slice of the contribution
before it meets the empty node, and with spare capacity `append` writes into
the backing array of the contribution. After `AddClause(w)` has returned for
a contribution `w = [a, empty, b]` of length 3 and capacity 4 on a statement
holding `[x]`, the stored clause is `[a, empty, b, x]` in the array of `w`; a
second `AddClause(w)` writes `a` over `x` and then panics on the empty node,
leaving `[a, empty, b, a]` stored. The map entry, the text and the parameters
are as before, and so is the stored list whenever the contribution has no
spare capacity or lies in another array than the stored clause. -/
theorem C20_failed_where_merge_overwrites_shared_array :
    (∀ grow : Nat → Nat,
      ((Statement.AddClauseState grow spareState spareSlice).1.columns =
          [some leafA, some emptyNode, some leafB, some leafOrB] ∧
        (Statement.AddClauseState grow spareState spareSlice).2 = none) ∧
      ((Statement.AddClauseState grow
          (Statement.AddClauseState grow spareState spareSlice).1 spareSlice).2 =
            some "has empty WhereColumn" ∧
        (Statement.AddClauseState grow
          (Statement.AddClauseState grow spareState spareSlice).1 spareSlice).1.columns =
            [some leafA, some emptyNode, some leafB, some leafA])) ∧
    (∀ (grow : Nat → Nat) (st st1 : StatementState) (w : ColumnSlice) (e : String),
      Statement.AddClauseState grow st w = (st1, some e) →
        st1.stored = st.stored ∧ st1.SQL = st.SQL ∧ st1.Vals = st.Vals) ∧
    (∀ (grow : Nat → Nat) (st st1 : StatementState) (w v : ColumnSlice) (e : String),
      st.stored = some v → v.array < st.arrays.length →
      (v.array ≠ w.array ∨ w.cap ≤ w.len) →
      Statement.AddClauseState grow st w = (st1, some e) →
        st1.columns = st.columns) := by
  refine ⟨fun grow => ⟨⟨rfl, rfl⟩, rfl, rfl⟩, ?_, ?_⟩
  · intro grow st st1 w e h
    unfold Statement.AddClauseState at h
    split at h
    · simp only [Prod.mk.injEq] at h
      obtain ⟨rfl, _⟩ := h
      exact ⟨rfl, rfl, rfl⟩
    · simp at h
  · intro grow st st1 w v e hs hv hw h
    have hkeep := Where.mergeColumnsState_other grow (sliceCells st.arrays v) st.arrays w
      v.array hv hw
    unfold Statement.AddClauseState Where.MergeClauseState at h
    rw [hs] at h
    simp only at h
    generalize Where.mergeColumnsState grow (sliceCells st.arrays v) st.arrays w = r at h hkeep
    obtain ⟨m1, w1, o⟩ := r
    cases o with
    | none => simp at h
    | some e1 =>
      simp only [Prod.mk.injEq] at h
      obtain ⟨rfl, _⟩ := h
      simp only [StatementState.columns, hs, sliceCells]
      simp only at hkeep
      rw [hkeep]

/-! ## Raw fragments -/

/-- A leading string followed by values that do not make a positional triple
is stored as one raw-fragment node. -/
theorem Where_raw_stored (db : DB) (s : String) (vs : List Value)
    (hshape : positionalShape vs = false) :
    db.Where (.val (.str s) :: vs.map Arg.val) =
      db.getInstance.addClause
        (.Where { Columns := [WhereColumn.and [] "" "" s (.slice vs)] }) := by
  have hmap : (vs.map Arg.val).map Arg.toValue = vs := by
    simp [List.map_map, Function.comp_def, Arg.toValue]
  match vs, hshape, hmap with
  | [], _, _ => simp [DB.Where, DB.whereRaw]
  | [a], _, hmap => simp [DB.Where, DB.whereRaw, Arg.toValue]
  | [a, b], hshape, hmap =>
    cases a <;> simp [positionalShape] at hshape <;>
      simp [DB.Where, DB.whereRaw, Arg.toValue]
  | a :: b :: c :: rest, _, hmap =>
    simp only [List.map_cons] at hmap ⊢
    simp only [DB.Where, DB.whereRaw, List.map_cons, hmap]

/-- A raw-fragment node writes a space and its text, and binds its values
except the keyed mappings. -/
theorem build_raw (s : String) (vs : List Value) (st : Statement) (hs : s ≠ "") :
    (WhereColumn.and [] "" "" s (.slice vs)).build st =
      .ok { st with SQL := st.SQL ++ " " ++ s,
                    Vals := st.Vals ++ vs.filter (fun v => !v.isMap) } := by
  simp [WhereColumn.build, leafBuild, hs, Statement.WriteString, Statement.AddVar,
    String.append_assoc]

/-- Counterexample to C12 as stated: the raw-fragment node of
`Where("name = ?", 1)` writes ` name = ?`, with a space in front of the text,
so the clause reads `WHERE  name = ?`; and `Where("name = ?", {})` appends no
parameter. -/
theorem C12_counterexample :
    ((statementOf (rootDB.Where [.val (.str "name = ?"), .val (.int 1)])).bind
      Statement.whereColumns =
        some [WhereColumn.and [] "" "" "name = ?" (.slice [.int 1])]) ∧
    (((WhereColumn.and [] "" "" "name = ?" (.slice [.int 1])).build
        freshStatement).toOption.map (fun st => (st.SQL, st.Vals)) =
      some (" name = ?", [.int 1])) ∧
    ((" name = ?" : String) ≠ "name = ?") ∧
    ((statementOf (rootDB.Where [.val (.str "name = ?"), .val (.int 1)])).bind
      (fun st => st.clauseOutput "WHERE") = some ("WHERE  name = ?", [.int 1])) ∧
    ((statementOf (rootDB.Where [.val (.str "name = ?"), .val (.map .nil)])).bind
      (fun st => st.clauseOutput "WHERE") = some ("WHERE  name = ?", [])) := by
  refine ⟨rfl, rfl, by decide, rfl, rfl⟩

/-- C12 (amended): for every non-empty text `s` and every list of values
`vs` that does not make the call a positional triple, `Where(s, vs...)` on a
root handle stores one raw-fragment node with the text `s` and the values
`vs`; serializing that node into any statement appends one space followed by
`s` verbatim to the text, and appends the values of `vs` that are not keyed
mappings to the parameters, in order. -/
theorem C12_raw_fragment_serializes_with_leading_space (s : String) (vs : List Value)
    (st : Statement) (hs : s ≠ "") (hshape : positionalShape vs = false) :
    ((statementOf (rootDB.Where (.val (.str s) :: vs.map Arg.val))).bind
      Statement.whereColumns = some [WhereColumn.and [] "" "" s (.slice vs)]) ∧
    ((WhereColumn.and [] "" "" s (.slice vs)).build st =
      .ok { st with SQL := st.SQL ++ " " ++ s,
                    Vals := st.Vals ++ vs.filter (fun v => !v.isMap) }) := by
  refine ⟨?_, build_raw s vs st hs⟩
  rw [Where_raw_stored rootDB s vs hshape]
  rfl

/-- Witness of C12 (amended) at `Where("a = ? OR b = ?", 1, 2)`, serialized
after the text `SELECT`. -/
theorem C12_raw_fragment_serializes_with_leading_space_witness :
    (("a = ? OR b = ?" : String) ≠ "" ∧ positionalShape [.int 1, .int 2] = false) ∧
    ((statementOf (rootDB.Where
        [.val (.str "a = ? OR b = ?"), .val (.int 1), .val (.int 2)])).bind
      Statement.whereColumns =
        some [WhereColumn.and [] "" "" "a = ? OR b = ?" (.slice [.int 1, .int 2])]) ∧
    (((WhereColumn.and [] "" "" "a = ? OR b = ?" (.slice [.int 1, .int 2])).build
        { freshStatement with SQL := "SELECT" }).toOption.map (fun r => (r.SQL, r.Vals)) =
      some ("SELECT a = ? OR b = ?", [.int 1, .int 2])) :=
  ⟨⟨by decide, rfl⟩,
    (C12_raw_fragment_serializes_with_leading_space "a = ? OR b = ?" [.int 1, .int 2]
      freshStatement (by decide) rfl).1,
    rfl⟩

/-! ## The `IN` leaf -/

/-- Dropping characters at the end of a string, on the list of its
characters. -/
theorem dropRight_data (s : String) (n : Nat) :
    s.dropRight n = ⟨(s.data.reverse.drop n).reverse⟩ := by
  have h : Substring.ValidFor [] (s.data.reverse.reverse ++ []) [] s.toSubstring := by
    simpa using s.validFor_toSubstring
  have hp := h.prevn n
  have hb := h.bsize
  simp only [List.reverse_reverse, List.append_nil] at hb
  have hlen : String.utf8Len s.data.reverse = String.utf8Len s.data := by
    simp
  rw [hlen, ← hb] at hp
  unfold String.dropRight
  have hv : Substring.ValidFor [] (s.data.reverse.drop n).reverse (s.data.reverse.take n).reverse
      (s.toSubstring.dropRight n) := by
    refine .of_eq _ ?_ ?_ ?_
    · simp only [Substring.dropRight, String.toSubstring]
      simp [← List.reverse_append]
    · simp [Substring.dropRight, String.toSubstring]
    · simp only [Substring.dropRight]
      have := hp
      simp only [String.toSubstring] at this ⊢
      have h2 := congrArg String.Pos.byteIdx this
      simpa using h2
  exact hv.toString

/-- The repeated `?,` is a `?`, the repeated `,?` and a last comma. -/
theorem Repeat_placeholders (n : Nat) :
    Repeat "?," (n + 1) = "?" ++ Repeat ",?" n ++ "," := by
  induction n with
  | zero => rfl
  | succ k ih =>
    rw [Repeat, ih]
    apply String.ext
    simp [Repeat, String.data_append]

/-- Joining `?` placeholders with commas gives a `?` and the repeated `,?`. -/
theorem intercalate_go_placeholders (n : Nat) (acc : String) :
    String.intercalate.go acc "," (List.replicate n "?") = acc ++ Repeat ",?" n := by
  induction n generalizing acc with
  | zero => simp [String.intercalate.go, Repeat]
  | succ k ih =>
    simp only [List.replicate_succ, String.intercalate.go, ih, Repeat]
    apply String.ext
    simp [String.data_append]

/-- The slice `inClause[:len(inClause)-1]` of the `IN` leaf holds one `?` per
value, separated by commas. -/
theorem inClause_eq (n : Nat) :
    (Repeat "?," (n + 1)).dropRight 1 =
      String.intercalate "," (List.replicate (n + 1) "?") ∧
    (Repeat "?," (n + 1)).length ≠ 0 := by
  constructor
  · rw [dropRight_data, Repeat_placeholders, List.replicate_succ, String.intercalate,
      intercalate_go_placeholders]
    apply String.ext
    simp [String.data_append]
  · rw [Repeat_placeholders]
    intro h
    have h2 : (("?" : String) ++ Repeat ",?" n ++ ",").data = [] :=
      List.length_eq_zero.mp h
    simp only [String.data_append] at h2
    have h3 := congrArg List.length h2
    simp at h3

/-- An `IN` leaf with a non-empty sequence writes the field, `IN(`, one `?`
per value separated by commas and `)`, and binds the values except the keyed
mappings. -/
theorem leafBuild_in (f s : String) (v : Value) (vs : List Value) (st : Statement) :
    leafBuild f WE_IN s (.slice (v :: vs)) st =
      .ok { st with
        SQL := st.SQL ++ (st.NameMapper f).getD f ++ " IN(" ++
          String.intercalate "," (List.replicate (vs.length + 1) "?") ++ ")",
        Vals := st.Vals ++ (v :: vs).filter (fun x => !x.isMap) } := by
  have h1 : ¬ (WE_IN = "") := by decide
  have h2 : ¬ (WE_IN = WE_BETWEEN) := by decide
  have h3 : ∀ x : String, (" " ++ (WE_IN ++ ("(" ++ x)) : String) = " IN(" ++ x := by
    intro x
    apply String.ext
    simp [String.data_append, WE_IN]
  obtain ⟨hd, hl⟩ := inClause_eq vs.length
  cases hm : st.NameMapper f <;>
    simp [leafBuild, h1, h2, h3, hd, hl, Statement.WriteQuoted, Statement.WriteString,
      Statement.AddVar, hm, String.append_assoc]

/-- Counterexample to C11 as stated: with the one-element sequence `[{}]`,
whose element is a keyed mapping, the `IN` leaf writes one placeholder and
appends no parameter. -/
theorem C11_counterexample :
    (((WhereColumn.and [] "name" WE_IN "" (.slice [.map .nil])).build
        freshStatement).toOption.map (fun st => (st.SQL, st.Vals)) =
      some ("name IN(?)", [])) ∧
    ((statementOf (rootDB.Where
        [.val (.str "name"), .val (.str "IN"), .val (.slice [.map .nil])])).bind
          (fun st => st.clauseOutput "WHERE") = some ("WHERE name IN(?)", [])) ∧
    (((statementOf (rootDB.Where
        [.val (.str "name"), .val (.str "IN"), .val (.slice [.map .nil])])).bind
          (fun st => st.clauseOutput "WHERE")).map (fun p => p.2.length) ≠ some 1) := by
  refine ⟨rfl, rfl, ?_⟩
  decide

/-- C11 (amended): for every field `f` and every non-empty sequence `vs` of
`n` values none of which is a keyed mapping, an `IN` leaf (of either node
kind) appends to the text the field as `WriteQuoted` writes it (the name the
rename table gives for `f`, else `f` itself) followed by ` IN(`, `n` question
marks separated by commas, and `)`, and appends the `n` values of `vs` as
parameters in order. `Where("name", "IN", ["a","b"])` on a root handle gives
`WHERE name IN(?,?)` with parameters `["a","b"]`. -/
theorem C11_in_leaf_serializes (f s : String) (vs : List Value) (st : Statement)
    (hne : vs ≠ []) (hv : ∀ v ∈ vs, v.isMap = false) :
    ((WhereColumn.and [] f WE_IN s (.slice vs)).build st =
      .ok { st with
        SQL := st.SQL ++ (st.NameMapper f).getD f ++ " IN(" ++
          String.intercalate "," (List.replicate vs.length "?") ++ ")",
        Vals := st.Vals ++ vs }) ∧
    ((WhereColumn.or [] f WE_IN s (.slice vs)).build st =
      .ok { st with
        SQL := st.SQL ++ (st.NameMapper f).getD f ++ " IN(" ++
          String.intercalate "," (List.replicate vs.length "?") ++ ")",
        Vals := st.Vals ++ vs }) ∧
    ((statementOf (rootDB.Where
        [.val (.str "name"), .val (.str "IN"), .val (.slice [.str "a", .str "b"])])).bind
          (fun st => st.clauseOutput "WHERE") =
      some ("WHERE name IN(?,?)", [.str "a", .str "b"])) := by
  have hf : vs.filter (fun x => !x.isMap) = vs := by
    apply List.filter_eq_self.mpr
    intro v hmem
    simp [hv v hmem]
  match vs, hne, hf with
  | v :: rest, _, hf =>
    refine ⟨?_, ?_, rfl⟩
    · rw [WhereColumn.build.eq_def]
      simp only [List.length_nil, Nat.not_lt_zero, gt_iff_lt, if_false]
      rw [leafBuild_in, hf]
      rfl
    · rw [WhereColumn.build.eq_def]
      simp only [List.length_nil, Nat.not_lt_zero, gt_iff_lt, if_false]
      rw [leafBuild_in, hf]
      rfl

/-- Witness of C11 (amended) at field `name` and the sequence `["a", "b"]` on
a statement whose rename table maps `name` to `user_name`. -/
theorem C11_in_leaf_serializes_witness :
    (([.str "a", .str "b"] : List Value) ≠ [] ∧
      ∀ v ∈ ([.str "a", .str "b"] : List Value), v.isMap = false) ∧
    ((WhereColumn.and [] "name" WE_IN "" (.slice [.str "a", .str "b"])).build
        { freshStatement with
          NameMapper := fun k => if k = "name" then some "user_name" else none }).toOption.map
      (fun st => (st.SQL, st.Vals)) =
        some ("user_name IN(?,?)", [.str "a", .str "b"]) :=
  ⟨⟨by simp, by simp [Value.isMap]⟩, by
    rw [(C11_in_leaf_serializes "name" "" [.str "a", .str "b"]
      { freshStatement with
        NameMapper := fun k => if k = "name" then some "user_name" else none }
      (by simp) (by simp [Value.isMap])).1]
    rfl⟩

/-! ## Chains of nested-mapping calls -/

/-- A `WHERE` contribution on a statement whose stored `WHERE` nodes are not
empty succeeds and stores the new nodes in front of the stored ones. -/
theorem Statement.AddClause_where_total (st : Statement) (new : List WhereColumn)
    (h : noEmptyNode st.storedColumns = true) :
    ∃ st1, st.AddClause (.Where { Columns := new }) = .ok st1 ∧
      st1.whereColumns = some (new ++ st.storedColumns) := by
  cases hc : st.Clauses "WHERE" with
  | none =>
    refine ⟨_, Statement.AddClause_where_first st new hc, ?_⟩
    simp [Statement.whereColumns, Statement.storedColumns, hc]
  | some c =>
    obtain ⟨nm, ex⟩ := c
    match ex, hc with
    | some (.Where w), hc =>
      have hst : st.storedColumns = w.Columns := by
        simp [Statement.storedColumns, Statement.whereColumns, hc]
      have hne : ∀ c ∈ w.Columns, c.IsEmpty = false := by
        intro c hmem
        rw [hst] at h
        have := List.all_eq_true.mp h c hmem
        simpa using this
      refine ⟨_, Statement.AddClause_where_merge st nm w new hc hne, ?_⟩
      simp [Statement.whereColumns, hst]
    | none, hc =>
      refine ⟨{ st with Clauses := fun k =>
        if k = "WHERE" then some ⟨"WHERE", some (.Where ⟨new⟩)⟩ else st.Clauses k }, ?_, ?_⟩
      · simp [Statement.AddClause, Expression.Name, Expression.MergeClause,
          Where.MergeClause, hc]
      · simp [Statement.whereColumns, Statement.storedColumns, hc]
    | some (.orderBy _), hc =>
      refine ⟨{ st with Clauses := fun k =>
        if k = "WHERE" then some ⟨"WHERE", some (.Where ⟨new⟩)⟩ else st.Clauses k }, ?_, ?_⟩
      · simp [Statement.AddClause, Expression.Name, Expression.MergeClause,
          Where.MergeClause, hc]
      · simp [Statement.whereColumns, Statement.storedColumns, hc]
    | some (.groupBy _), hc =>
      refine ⟨{ st with Clauses := fun k =>
        if k = "WHERE" then some ⟨"WHERE", some (.Where ⟨new⟩)⟩ else st.Clauses k }, ?_, ?_⟩
      · simp [Statement.AddClause, Expression.Name, Expression.MergeClause,
          Where.MergeClause, hc]
      · simp [Statement.whereColumns, Statement.storedColumns, hc]
    | some (.Limit _), hc =>
      refine ⟨{ st with Clauses := fun k =>
        if k = "WHERE" then some ⟨"WHERE", some (.Where ⟨new⟩)⟩ else st.Clauses k }, ?_, ?_⟩
      · simp [Statement.AddClause, Expression.Name, Expression.MergeClause,
          Where.MergeClause, hc]
      · simp [Statement.whereColumns, Statement.storedColumns, hc]

/-- The instance of an instance is the instance itself. -/
theorem DB.getInstance_idem (db : DB) : db.getInstance.getInstance = db.getInstance := by
  by_cases h : db.clone > 0
  · by_cases h1 : db.clone = 1 <;> simp [DB.getInstance, h, h1]
  · simp [DB.getInstance, h]

/-- One nested-mapping call whose lowered nodes are not empty, on a handle
whose stored `WHERE` nodes are not empty, succeeds; the handle returned owns
its statement and stores the lowered nodes in front of the stored ones. -/
theorem DB.Where_mapping_total (db : DB) (m : Entries)
    (hdb : noEmptyNode db.getInstance.Statement.storedColumns = true)
    (hm : noEmptyNode (travelWhere m) = true) :
    ∃ tx, db.Where [.val (.map m)] = .ok tx ∧ tx.getInstance = tx ∧
      tx.Statement.storedColumns = travelWhere m ++ db.getInstance.Statement.storedColumns ∧
      noEmptyNode tx.Statement.storedColumns = true := by
  by_cases he : (travelWhere m).isEmpty = true
  · refine ⟨db.getInstance, by simp [DB.Where, he], DB.getInstance_idem db, ?_, hdb⟩
    simp [List.isEmpty_iff.mp he]
  · obtain ⟨st1, h1, h2⟩ :=
      Statement.AddClause_where_total db.getInstance.Statement (travelWhere m) hdb
    have hcl : ({ db.getInstance with Statement := st1 } : DB).getInstance =
        { db.getInstance with Statement := st1 } := by
      have := DB.getInstance_idem db
      by_cases h : db.clone > 0
      · by_cases h0 : db.clone = 1 <;> simp [DB.getInstance, h, h0]
      · simp [DB.getInstance, h]
    refine ⟨{ db.getInstance with Statement := st1 }, ?_, hcl, ?_, ?_⟩
    · simp [DB.Where, he, DB.addClause, h1]
    · simp [Statement.storedColumns, h2]
    · simp only [Statement.storedColumns, h2, Option.getD_some]
      unfold noEmptyNode at hm hdb ⊢
      rw [List.all_append, hm]
      simpa [Statement.storedColumns] using hdb

/-- A chain of nested-mapping calls on a handle that owns its statement: when
neither the stored nor the lowered nodes are empty every call succeeds, and
the handle ends with the lowered nodes, latest call first, in front of the
stored ones. -/
theorem DB.whereCalls_mapping_owned (ms : List Entries) :
    ∀ db : DB, db.getInstance = db →
      noEmptyNode db.Statement.storedColumns = true →
      (∀ m ∈ ms, noEmptyNode (travelWhere m) = true) →
      ∃ tx, db.whereCalls (mappingCalls ms) = .ok tx ∧
        tx.Statement.storedColumns =
          (ms.reverse.map travelWhere).flatten ++ db.Statement.storedColumns := by
  induction ms with
  | nil =>
    intro db _ _ _
    exact ⟨db, rfl, by simp⟩
  | cons m rest ih =>
    intro db hown hdb hms
    obtain ⟨tx1, h1, h2, h3, h4⟩ := DB.Where_mapping_total db m (by rw [hown]; exact hdb)
      (hms m (List.mem_cons_self _ _))
    obtain ⟨tx, k1, k2⟩ := ih tx1 h2 h4 (fun x hx => hms x (List.mem_cons_of_mem _ hx))
    refine ⟨tx, ?_, ?_⟩
    · simp only [mappingCalls, List.map_cons, DB.whereCalls, h1]
      exact k1
    · rw [k2, h3, hown]
      simp [List.append_assoc]

/-- Counterexample to C16 as stated: `Where({"x": {"AND": {}}})` stores an
empty group node, and the next call `Where({"a": {"=": 1}})` on the handle
returned fails with the construction error of the merge. -/
theorem C16_counterexample :
    ((statementOf (rootDB.Where
        [.val (.map (.ofList [("x", .map (.ofList [("AND", .map .nil)]))]))])).bind
      Statement.whereColumns = some [emptyNode]) ∧
    (rootDB.whereCalls (mappingCalls
      [.ofList [("x", .map (.ofList [("AND", .map .nil)]))],
       .ofList [("a", .map (.ofList [("=", .int 1)]))]]) =
        .error "has empty WhereColumn") := by
  refine ⟨rfl, rfl⟩

/-- C16 (amended): for every handle whose stored `WHERE` nodes are not empty
and every sequence of nested mappings none of which lowers to an empty node
(an empty `AND` / `OR` group or a predicate with an empty field name), the
chain of `DB.Where` calls succeeds: no call fails, malformed entries are
dropped, and the handle ends with the nodes stored before together with the
lowered nodes of all calls (in an order that is left open here), none of
them empty. -/
theorem C16_mapping_calls_succeed_without_empty_nodes (db : DB) (ms : List Entries)
    (hdb : noEmptyNode db.getInstance.Statement.storedColumns = true)
    (hms : ∀ m ∈ ms, noEmptyNode (travelWhere m) = true) :
    ∃ tx, db.whereCalls (mappingCalls ms) = .ok tx ∧
      (ms ≠ [] →
        List.Perm tx.Statement.storedColumns
          ((ms.map travelWhere).flatten ++ db.getInstance.Statement.storedColumns) ∧
        noEmptyNode tx.Statement.storedColumns = true) := by
  match ms, hms with
  | [], _ => exact ⟨db, rfl, fun h => absurd rfl h⟩
  | m :: rest, hms =>
    obtain ⟨tx1, h1, h2, h3, h4⟩ := DB.Where_mapping_total db m hdb
      (hms m (List.mem_cons_self _ _))
    obtain ⟨tx, k1, k2⟩ := DB.whereCalls_mapping_owned rest tx1 h2 h4
      (fun x hx => hms x (List.mem_cons_of_mem _ hx))
    have hperm : List.Perm tx.Statement.storedColumns
        (((m :: rest).map travelWhere).flatten ++ db.getInstance.Statement.storedColumns) := by
      rw [k2, h3, ← List.append_assoc]
      refine List.Perm.append_right _ ?_
      rw [List.map_cons, List.flatten_cons]
      refine List.Perm.trans List.perm_append_comm ?_
      exact List.Perm.append_left _
        (List.Perm.flatten (List.Perm.map _ (List.reverse_perm rest)))
    refine ⟨tx, ?_, fun _ => ⟨hperm, ?_⟩⟩
    · simp only [mappingCalls, List.map_cons, DB.whereCalls, h1]
      exact k1
    · unfold noEmptyNode at hdb hms ⊢
      rw [List.all_eq_true]
      intro c hc
      rcases List.mem_append.mp ((List.Perm.mem_iff hperm).mp hc) with hc1 | hc2
      · obtain ⟨l, hl, hcl⟩ := List.mem_flatten.mp hc1
        obtain ⟨x, hx, rfl⟩ := List.mem_map.mp hl
        exact List.all_eq_true.mp (hms x hx) c hcl
      · exact List.all_eq_true.mp hdb c hc2

/-- Witness of C16 (amended): the mappings `{"a": {"=": 1}}`,
`{"x": {"foo": 1}}` (unknown operator, dropped) and `{"b": {"=": 2}}` on a
root handle; the chain succeeds and the handle holds the two predicates. -/
theorem C16_mapping_calls_succeed_without_empty_nodes_witness :
    (noEmptyNode rootDB.getInstance.Statement.storedColumns = true ∧
      ∀ m ∈ sampleMappings, noEmptyNode (travelWhere m) = true) ∧
    ∃ tx, rootDB.whereCalls (mappingCalls sampleMappings) = .ok tx ∧
      (sampleMappings ≠ [] →
        List.Perm tx.Statement.storedColumns
          ((sampleMappings.map travelWhere).flatten ++
            rootDB.getInstance.Statement.storedColumns) ∧
        noEmptyNode tx.Statement.storedColumns = true) :=
  ⟨⟨by decide, by decide⟩,
    C16_mapping_calls_succeed_without_empty_nodes rootDB sampleMappings
      (by decide) (by decide)⟩

/-! ## Parameters and placeholders -/

/-- A list without keyed mapping passes the filter of `AddVar` unchanged. -/
theorem filter_bindable (vs : List Value) (h : bindable vs = true) :
    vs.filter (fun v => !v.isMap) = vs := by
  apply List.filter_eq_self.mpr
  intro v hv
  exact List.all_eq_true.mp h v hv

/-- The repeated `,?` holds one placeholder per repetition. -/
theorem placeholders_repeat (n : Nat) : placeholders (Repeat ",?" n) = n := by
  induction n with
  | zero => rfl
  | succ k ih =>
    unfold placeholders at ih ⊢
    have hc : (",?" : String).data.count '?' = 1 := by decide
    rw [Repeat, String.data_append, List.count_append, ih, hc]
    omega

/-- The text an `IN` leaf writes after the field holds one placeholder per
value. -/
theorem placeholders_in (n : Nat) :
    placeholders (" IN(" ++ String.intercalate "," (List.replicate (n + 1) "?") ++ ")") =
      n + 1 := by
  have h := placeholders_repeat n
  rw [List.replicate_succ, String.intercalate, intercalate_go_placeholders]
  unfold placeholders at h ⊢
  have h1 : (" IN(" : String).data.count '?' = 0 := by decide
  have h2 : ("?" : String).data.count '?' = 1 := by decide
  have h3 : (")" : String).data.count '?' = 0 := by decide
  rw [String.data_append, String.data_append, String.data_append, List.count_append,
    List.count_append, List.count_append, h, h1, h2, h3]
  omega

/-- The text a default-form leaf writes after the field holds one
placeholder. -/
theorem placeholders_compare (e : WhereEquality) (h : e ∈ compareOps) :
    placeholders (" " ++ e ++ " ?") = 1 := by
  simp only [compareOps, List.mem_cons, List.mem_singleton, List.not_mem_nil, or_false] at h
  rcases h with rfl | rfl | rfl | rfl | rfl | rfl | rfl <;> decide

/-- A well-formed childless node serializes, and binds exactly its values; a
field predicate writes the field and then a text with as many placeholders as
values. -/
theorem leafBuild_wellFormed (f : String) (e : WhereEquality) (s : String) (v : Value)
    (st : Statement) (h : leafWellFormed e s v = true) :
    ∃ st1 : Statement, leafBuild f e s v st = .ok st1 ∧
      st1.Vals = st.Vals ++ leafValues e v ∧
      (e ≠ "" → ∃ tail : String,
        st1.SQL = st.SQL ++ (st.NameMapper f).getD f ++ tail ∧
        placeholders tail = (leafValues e v).length) := by
  by_cases h0 : e = ""
  · subst h0
    match v, h with
    | .slice vs, h =>
      simp only [leafWellFormed, if_true, Bool.and_eq_true, decide_eq_true_eq] at h
      refine ⟨(st.WriteString (" " ++ s)).AddVar vs, by simp [leafBuild, h.1], ?_,
        fun hne => absurd rfl hne⟩
      simp [Statement.AddVar, Statement.WriteString, filter_bindable vs h.2, leafValues]
  · by_cases h1 : e = WE_BETWEEN
    · subst h1
      have hb : ¬ (WE_BETWEEN = "") := by decide
      match v, h with
      | .slice [a, b], h =>
        simp only [leafWellFormed, hb, if_false, if_true] at h
        have hf := filter_bindable [a, b] h
        have ha : a.isMap = false := by
          have := List.all_eq_true.mp h a (by simp)
          simpa using this
        have hbm : b.isMap = false := by
          have := List.all_eq_true.mp h b (by simp)
          simpa using this
        refine ⟨(((st.WriteQuoted f).WriteString (" " ++ WE_BETWEEN ++ " ? AND ?")).AddVar
          [a]).AddVar [b], by simp [leafBuild, hb], ?_,
          fun _ => ⟨" BETWEEN ? AND ?", ?_, ?_⟩⟩
        · simp [Statement.AddVar, Statement.WriteString, Statement.WriteQuoted, leafValues,
            ha, hbm]
          cases st.NameMapper f <;> simp
        · cases hm : st.NameMapper f <;>
            simp [Statement.AddVar, Statement.WriteString, Statement.WriteQuoted, hm,
              String.append_assoc] <;> rfl
        · simp [leafValues]
          decide
    · by_cases h2 : e = WE_IN
      · subst h2
        have hb : ¬ (WE_IN = "") := by decide
        match v, h with
        | .slice (a :: rest), h =>
          simp only [leafWellFormed, hb, h1, if_false, if_true] at h
          refine ⟨_, leafBuild_in f s a rest st, ?_, fun _ =>
            ⟨" IN(" ++ String.intercalate "," (List.replicate (rest.length + 1) "?") ++ ")",
              ?_, ?_⟩⟩
          · simp [filter_bindable (a :: rest) h, leafValues]
          · simp [String.append_assoc]
          · simp [leafValues, placeholders_in]
      · simp only [leafWellFormed, h0, h1, h2, if_false, Bool.and_eq_true,
          decide_eq_true_eq, Bool.not_eq_true'] at h
        refine ⟨((st.WriteQuoted f).WriteString (" " ++ e ++ " ?")).AddVar [v],
          by simp [leafBuild, h0, h1, h2], ?_, fun _ => ⟨" " ++ e ++ " ?", ?_, ?_⟩⟩
        · simp [Statement.AddVar, Statement.WriteString, Statement.WriteQuoted, leafValues,
            h0, h1, h2, h.2]
          cases st.NameMapper f <;> simp
        · cases hm : st.NameMapper f <;>
            simp [Statement.AddVar, Statement.WriteString, Statement.WriteQuoted, hm,
              String.append_assoc]
        · simp [leafValues, h0, h1, h2, placeholders_compare e h.1]

mutual
/-- A well-formed tree serializes, and binds the depth-first concatenation of
its leaf values. -/
theorem build_params : ∀ (c : WhereColumn) (st : Statement), c.wellFormed = true →
    ∃ st1 : Statement, c.build st = .ok st1 ∧ st1.Vals = st.Vals ++ c.params
  | .and [] f e s v, st, h => by
    obtain ⟨st1, h1, h2, _⟩ := leafBuild_wellFormed f e s v st
      (by simpa [WhereColumn.wellFormed] using h)
    exact ⟨st1, by simpa [WhereColumn.build] using h1, by simpa [WhereColumn.params] using h2⟩
  | .and [c] f e s v, st, h => by
    have hc : c.wellFormed = true := by
      simpa [WhereColumn.wellFormed, WhereColumn.wellFormedList] using h
    obtain ⟨st1, h1, h2⟩ := build_params c st hc
    exact ⟨st1, by simpa [WhereColumn.build] using h1,
      by simpa [WhereColumn.params, WhereColumn.paramsList] using h2⟩
  | .and (c :: d :: rest) f e s v, st, h => by
    have hc : WhereColumn.wellFormedList (c :: d :: rest) = true := by
      simpa [WhereColumn.wellFormed] using h
    obtain ⟨st1, h1, h2⟩ := buildColumns_params (c :: d :: rest) 0 (st.WriteString "(") hc
    refine ⟨st1.WriteString ")", ?_, ?_⟩
    · rw [WhereColumn.build.eq_def]
      simp [h1, Except.map]
    · simpa [WhereColumn.params, Statement.WriteString] using h2
  | .or [] f e s v, st, h => by
    obtain ⟨st1, h1, h2, _⟩ := leafBuild_wellFormed f e s v st
      (by simpa [WhereColumn.wellFormed] using h)
    exact ⟨st1, by simpa [WhereColumn.build] using h1, by simpa [WhereColumn.params] using h2⟩
  | .or [c] f e s v, st, h => by
    have hc : c.wellFormed = true := by
      simpa [WhereColumn.wellFormed, WhereColumn.wellFormedList] using h
    obtain ⟨st1, h1, h2⟩ := build_params c st hc
    exact ⟨st1, by simpa [WhereColumn.build] using h1,
      by simpa [WhereColumn.params, WhereColumn.paramsList] using h2⟩
  | .or (c :: d :: rest) f e s v, st, h => by
    have hc : WhereColumn.wellFormedList (c :: d :: rest) = true := by
      simpa [WhereColumn.wellFormed] using h
    obtain ⟨st1, h1, h2⟩ := buildColumns_params (c :: d :: rest) 0 (st.WriteString "(") hc
    refine ⟨st1.WriteString ")", ?_, ?_⟩
    · rw [WhereColumn.build.eq_def]
      simp [h1, Except.map]
    · simpa [WhereColumn.params, Statement.WriteString] using h2
termination_by c => sizeOf c
/-- The column loop over well-formed trees succeeds, and binds the
concatenation of their parameters in order. -/
theorem buildColumns_params : ∀ (cs : List WhereColumn) (idx : Nat) (st : Statement),
    WhereColumn.wellFormedList cs = true →
    ∃ st1 : Statement, WhereColumn.buildColumns cs idx st = .ok st1 ∧
      st1.Vals = st.Vals ++ WhereColumn.paramsList cs
  | [], idx, st, _ => ⟨st, by simp [WhereColumn.buildColumns], by simp [WhereColumn.paramsList]⟩
  | c :: rest, idx, st, h => by
    have hc : c.wellFormed = true ∧ WhereColumn.wellFormedList rest = true := by
      simpa [WhereColumn.wellFormedList] using h
    obtain ⟨st1, h1, h2⟩ := build_params c
      (if idx > 0 then st.WriteString (" " ++ c.name ++ " ") else st) hc.1
    obtain ⟨st2, k1, k2⟩ := buildColumns_params rest (idx + 1) st1 hc.2
    refine ⟨st2, ?_, ?_⟩
    · simp only [WhereColumn.buildColumns, h1]
      exact k1
    · rw [k2, h2]
      by_cases hi : idx > 0 <;> simp [hi, Statement.WriteString, WhereColumn.paramsList]
termination_by cs => sizeOf cs
end

/-- A `WHERE` clause over well-formed trees serializes, and binds the
concatenation of their parameters in order. -/
theorem Where.Build_params (w : Where) (st : Statement)
    (h : WhereColumn.wellFormedList w.Columns = true) :
    ∃ st1 : Statement, w.Build st = .ok st1 ∧
      st1.Vals = st.Vals ++ WhereColumn.paramsList w.Columns := by
  obtain ⟨cols⟩ := w
  match cols, h with
  | [], _ => exact ⟨st, by simp [Where.Build], by simp [WhereColumn.paramsList]⟩
  | [c], h =>
    by_cases hl : c.Len > 0
    · have hc : c.wellFormed = true := by
        simpa [WhereColumn.wellFormedList] using h
      have hsub : WhereColumn.wellFormedList c.columns = true ∧
          c.params = WhereColumn.paramsList c.columns := by
        cases c with
        | and cs f e s v =>
          cases cs with
          | nil => simp [WhereColumn.Len, WhereColumn.columns] at hl
          | cons d rest =>
            exact ⟨by simpa [WhereColumn.wellFormed, WhereColumn.columns] using hc,
              by simp [WhereColumn.params, WhereColumn.columns]⟩
        | or cs f e s v =>
          cases cs with
          | nil => simp [WhereColumn.Len, WhereColumn.columns] at hl
          | cons d rest =>
            exact ⟨by simpa [WhereColumn.wellFormed, WhereColumn.columns] using hc,
              by simp [WhereColumn.params, WhereColumn.columns]⟩
      obtain ⟨st1, h1, h2⟩ := buildColumns_params c.columns 0 st hsub.1
      exact ⟨st1, by simpa [Where.Build, hl] using h1,
        by simpa [WhereColumn.paramsList, hsub.2] using h2⟩
    · obtain ⟨st1, h1, h2⟩ := buildColumns_params [c] 0 st h
      exact ⟨st1, by simpa [Where.Build, hl] using h1, h2⟩
  | c :: d :: rest, h =>
    obtain ⟨st1, h1, h2⟩ := buildColumns_params (c :: d :: rest) 0 st h
    exact ⟨st1, by simpa [Where.Build] using h1, h2⟩

/-- Counterexample to C13 as stated: the leaf `a = {}`, whose value is a
keyed mapping, writes `a = ?` (one placeholder) and appends no parameter. -/
theorem C13_counterexample :
    (((WhereColumn.and [] "a" WE_EQ "" (.map .nil)).build freshStatement).toOption.map
      (fun st => (st.SQL, st.Vals)) = some ("a = ?", [])) ∧
    (placeholders "a = ?" = 1) ∧
    ((((WhereColumn.and [] "a" WE_EQ "" (.map .nil)).build freshStatement).toOption.map
      (fun st => st.Vals.length)) ≠ some (placeholders "a = ?")) := by
  refine ⟨rfl, by decide, by decide⟩

/-- C13 (amended): a leaf predicate `c` with a field and an operator from the
closed set (`IN` with a non-empty sequence, `BETWEEN` with a two-element
sequence, any value for the other operators) none of whose values is a keyed
mapping serializes through a statement by writing the field and then a text
with exactly as many `?` placeholders as the parameters it appends, which are
its values; and every `WHERE` clause `w` whose leaves are such predicates (or
raw fragments with a non-empty text) serializes, and the parameters appended
are the depth-first, left-to-right concatenation of the leaf values. -/
theorem C13_parameters_match_placeholders (c : WhereColumn) (w : Where) (st : Statement)
    (hc : c.wellFormed = true) (hleaf : c.columns = []) (hop : c.Equality ≠ "")
    (hw : WhereColumn.wellFormedList w.Columns = true) :
    (∃ (st1 : Statement) (tail : String), c.build st = .ok st1 ∧
      st1.SQL = st.SQL ++ (st.NameMapper c.Field).getD c.Field ++ tail ∧
      st1.Vals = st.Vals ++ leafValues c.Equality c.Value ∧
      placeholders tail = (leafValues c.Equality c.Value).length) ∧
    (∃ st2 : Statement, w.Build st = .ok st2 ∧
      st2.Vals = st.Vals ++ WhereColumn.paramsList w.Columns) := by
  refine ⟨?_, Where.Build_params w st hw⟩
  cases c with
  | and cs f e s v =>
    simp only [WhereColumn.columns] at hleaf
    subst hleaf
    simp only [WhereColumn.Equality] at hop
    obtain ⟨st1, h1, h2, h3⟩ := leafBuild_wellFormed f e s v st
      (by simpa [WhereColumn.wellFormed] using hc)
    obtain ⟨tail, t1, t2⟩ := h3 hop
    exact ⟨st1, tail, by simpa [WhereColumn.build] using h1, t1, h2, t2⟩
  | or cs f e s v =>
    simp only [WhereColumn.columns] at hleaf
    subst hleaf
    simp only [WhereColumn.Equality] at hop
    obtain ⟨st1, h1, h2, h3⟩ := leafBuild_wellFormed f e s v st
      (by simpa [WhereColumn.wellFormed] using hc)
    obtain ⟨tail, t1, t2⟩ := h3 hop
    exact ⟨st1, tail, by simpa [WhereColumn.build] using h1, t1, h2, t2⟩

/-- Witness of C13 (amended) at the leaf `n IN ("x", "y")` and the clause
`(a = 1 OR n IN ("x", "y")) AND b BETWEEN 3 AND 4`, whose parameters are
`1, "x", "y", 3, 4`. -/
theorem C13_parameters_match_placeholders_witness :
    ((WhereColumn.or [] "n" WE_IN "" (.slice [.str "x", .str "y"])).wellFormed = true ∧
      WhereColumn.wellFormedList sampleWhere.Columns = true ∧
      WhereColumn.paramsList sampleWhere.Columns =
        [.int 1, .str "x", .str "y", .int 3, .int 4]) ∧
    ((sampleWhere.Build freshStatement).toOption.map (fun r => (r.SQL, r.Vals)) =
      some ("(a = ? OR n IN(?,?)) AND b BETWEEN ? AND ?",
        [.int 1, .str "x", .str "y", .int 3, .int 4])) ∧
    (∃ st2 : Statement, sampleWhere.Build freshStatement = .ok st2 ∧
      st2.Vals = freshStatement.Vals ++ WhereColumn.paramsList sampleWhere.Columns) :=
  ⟨⟨by decide, by decide, rfl⟩, rfl,
    (C13_parameters_match_placeholders
      (WhereColumn.or [] "n" WE_IN "" (.slice [.str "x", .str "y"])) sampleWhere
      freshStatement (by decide) rfl (by decide) (by decide)).2⟩

/-! ## Serialization does not depend on the statement written to -/

theorem Framed.congr {f g : Statement → Except String Statement}
    (h : ∀ st, f st = g st) (hg : Framed g) : Framed f := by
  intro m
  obtain ⟨res, hr⟩ := hg m
  exact ⟨res, fun st hm => by rw [h st, hr st hm]⟩

theorem Framed.error (e : String) : Framed (fun _ => .error e) :=
  fun _ => ⟨.error e, fun _ _ => rfl⟩

theorem Framed.ok : Framed (fun st => .ok st) :=
  fun _ => ⟨.ok ("", []), fun st _ => by simp [Statement.extend]⟩

theorem Framed.write (s : String) : Framed (fun st => .ok (st.WriteString s)) :=
  fun _ => ⟨.ok (s, []), fun st _ => by simp [Statement.extend, Statement.WriteString]⟩

theorem Framed.byte (c : Char) : Framed (fun st => .ok (st.WriteByte c)) :=
  fun _ => ⟨.ok (String.singleton c, []), fun st _ => by
    simp only [Statement.extend, Statement.WriteByte, List.append_nil]
    congr 2⟩

theorem Framed.quoted (v : String) : Framed (fun st => .ok (st.WriteQuoted v)) :=
  fun m => ⟨.ok ((m v).getD v, []), fun st hm => by
    subst hm
    cases h : st.NameMapper v <;>
      simp [Statement.extend, Statement.WriteQuoted, Statement.WriteString, h]⟩

theorem Framed.addVar (vs : List Value) : Framed (fun st => .ok (st.AddVar vs)) :=
  fun _ => ⟨.ok ("", vs.filter (fun v => !v.isMap)), fun st _ => by
    simp [Statement.extend, Statement.AddVar]⟩

theorem Framed.bind {f g : Statement → Except String Statement}
    (hf : Framed f) (hg : Framed g) : Framed (fun st => (f st).bind g) := by
  intro m
  obtain ⟨rf, hf⟩ := hf m
  obtain ⟨rg, hg⟩ := hg m
  cases rf with
  | error e => exact ⟨.error e, fun st hm => by
      show (f st).bind g = _
      rw [hf st hm]
      rfl⟩
  | ok a =>
    obtain ⟨t, ps⟩ := a
    cases rg with
    | error e =>
      exact ⟨.error e, fun st hm => by
        show (f st).bind g = _
        rw [hf st hm]
        simp only [Statement.extend, Except.bind]
        rw [hg { st with SQL := st.SQL ++ t, Vals := st.Vals ++ ps } hm]
        rfl⟩
    | ok b =>
      obtain ⟨t2, ps2⟩ := b
      exact ⟨.ok (t ++ t2, ps ++ ps2), fun st hm => by
        show (f st).bind g = _
        rw [hf st hm]
        simp only [Statement.extend, Except.bind]
        rw [hg { st with SQL := st.SQL ++ t, Vals := st.Vals ++ ps } hm]
        simp [Statement.extend, String.append_assoc]⟩

theorem Framed.map {f : Statement → Except String Statement} (hf : Framed f) (s : String) :
    Framed (fun st => (f st).map fun r => r.WriteString s) :=
  Framed.congr (fun st => by cases f st <;> rfl) (Framed.bind hf (Framed.write s))

/-- A framed serializer appends, to any statement, what it writes on the
empty statement with the same rename table. -/
theorem Framed.eq {f : Statement → Except String Statement} (hf : Framed f) (st : Statement) :
    f st = st.extend (outputOf (f (sinkOf st.NameMapper))) := by
  obtain ⟨res, hr⟩ := hf st.NameMapper
  rw [hr st rfl, hr (sinkOf st.NameMapper) rfl]
  cases res with
  | error e => rfl
  | ok a =>
    obtain ⟨t, ps⟩ := a
    simp [Statement.extend, outputOf, sinkOf]

theorem leafBuild_framed (f : String) (e : WhereEquality) (s : String) (v : Value) :
    Framed (leafBuild f e s v) := by
  have hb : ¬ WE_BETWEEN = "" := by decide
  have hi : ¬ WE_IN = "" := by decide
  have hib : ¬ WE_IN = WE_BETWEEN := by decide
  unfold leafBuild
  by_cases h1 : e = ""
  · subst h1
    by_cases h2 : s = ""
    · exact Framed.congr (fun st => by simp [h2])
        (Framed.error "equlity not support and sematic is empty")
    · cases v with
      | slice vs =>
        exact Framed.congr (fun st => by simp [h2]; rfl)
          (Framed.bind (Framed.write (" " ++ s)) (Framed.addVar vs))
      | _ =>
        exact Framed.congr (fun st => by simp [h2])
          (Framed.error "interface conversion: interface is not []interface")
  · by_cases h3 : e = WE_BETWEEN
    · subst h3
      cases v with
      | slice vs =>
        match vs with
        | [] => exact Framed.congr (fun st => by simp [hb]) (Framed.error "index out of range")
        | [_] => exact Framed.congr (fun st => by simp [hb]) (Framed.error "index out of range")
        | v0 :: v1 :: _ =>
          exact Framed.congr (fun st => by simp [hb]; rfl)
            (Framed.bind (Framed.bind (Framed.bind (Framed.quoted f)
              (Framed.write (" " ++ WE_BETWEEN ++ " ? AND ?"))) (Framed.addVar [v0]))
              (Framed.addVar [v1]))
      | _ =>
        exact Framed.congr (fun st => by simp [hb])
          (Framed.error "interface conversion: interface is not []interface")
    · by_cases h4 : e = WE_IN
      · subst h4
        cases v with
        | slice vs =>
          by_cases h5 : (Repeat "?," vs.length).length = 0
          · exact Framed.congr (fun st => by simp [hi, hib, h5])
              (Framed.error "slice bounds out of range [:-1]")
          · exact Framed.congr (fun st => by simp [hi, hib, h5]; rfl)
              (Framed.bind (Framed.bind (Framed.quoted f)
                (Framed.write (" " ++ WE_IN ++ "(" ++ (Repeat "?," vs.length).dropRight 1 ++ ")")))
                (Framed.addVar vs))
        | _ =>
          exact Framed.congr (fun st => by simp [hi, hib])
            (Framed.error "interface conversion: interface is not []interface")
      · exact Framed.congr (fun st => by simp [h1, h3, h4]; rfl)
          (Framed.bind (Framed.bind (Framed.quoted f) (Framed.write (" " ++ e ++ " ?")))
            (Framed.addVar [v]))

theorem Framed.cond (p : Prop) [Decidable p] {f : Statement → Statement}
    (hf : Framed (fun st => .ok (f st))) :
    Framed (fun st => .ok (if p then f st else st)) := by
  by_cases h : p
  · exact Framed.congr (fun st => by simp [h]) hf
  · exact Framed.congr (fun st => by simp [h]) Framed.ok

mutual
/-- Serializing a node appends the same text and parameters to every
statement with the same rename table. -/
theorem build_framed : ∀ c : WhereColumn, Framed c.build
  | .and [] f e s v =>
    Framed.congr (fun st => by simp [WhereColumn.build]) (leafBuild_framed f e s v)
  | .and [c] _ _ _ _ =>
    Framed.congr (fun st => by simp [WhereColumn.build]) (build_framed c)
  | .and (c :: d :: rest) _ _ _ _ =>
    Framed.congr (fun st => by rw [WhereColumn.build.eq_def]; simp; rfl)
      (Framed.map (Framed.bind (Framed.write "(") (buildColumns_framed (c :: d :: rest) 0)) ")")
  | .or [] f e s v =>
    Framed.congr (fun st => by simp [WhereColumn.build]) (leafBuild_framed f e s v)
  | .or [c] _ _ _ _ =>
    Framed.congr (fun st => by simp [WhereColumn.build]) (build_framed c)
  | .or (c :: d :: rest) _ _ _ _ =>
    Framed.congr (fun st => by rw [WhereColumn.build.eq_def]; simp; rfl)
      (Framed.map (Framed.bind (Framed.write "(") (buildColumns_framed (c :: d :: rest) 0)) ")")
termination_by c => sizeOf c
/-- The column loop appends the same text and parameters to every statement
with the same rename table. -/
theorem buildColumns_framed : ∀ (cs : List WhereColumn) (idx : Nat),
    Framed (WhereColumn.buildColumns cs idx)
  | [], _ => Framed.congr (fun st => by simp [WhereColumn.buildColumns]) Framed.ok
  | c :: rest, idx =>
    Framed.congr
      (fun st => by
        simp only [WhereColumn.buildColumns]
        show _ = (c.build (if idx > 0 then st.WriteString (" " ++ c.name ++ " ") else st)).bind
          (WhereColumn.buildColumns rest (idx + 1))
        cases c.build (if idx > 0 then st.WriteString (" " ++ c.name ++ " ") else st) <;> rfl)
      (Framed.bind
        (Framed.bind (Framed.cond (idx > 0) (Framed.write (" " ++ c.name ++ " ")))
          (build_framed c))
        (buildColumns_framed rest (idx + 1)))
termination_by cs => sizeOf cs
end

theorem Where.Build_where_framed (w : Where) : Framed w.Build := by
  obtain ⟨cols⟩ := w
  match cols with
  | [] => exact Framed.congr (fun st => by simp [Where.Build]) Framed.ok
  | [c] =>
    by_cases h : c.Len > 0
    · exact Framed.congr (fun st => by simp [Where.Build, h]) (buildColumns_framed c.columns 0)
    · exact Framed.congr (fun st => by simp [Where.Build, h]) (buildColumns_framed [c] 0)
  | c :: d :: rest =>
    exact Framed.congr (fun st => by simp [Where.Build]) (buildColumns_framed (c :: d :: rest) 0)

theorem orderBy.buildColumns_order_framed : ∀ (cols : List orderByColumn) (idx : Nat),
    Framed (fun st => .ok (orderBy.buildColumns cols idx st))
  | [], _ => Framed.congr (fun _ => rfl) Framed.ok
  | col :: rest, idx =>
    Framed.congr (fun _ => rfl)
      (Framed.bind
        (Framed.bind
          (Framed.bind (Framed.cond (idx > 0) (Framed.byte ','))
            (Framed.quoted col.Column))
          (Framed.cond (col.Desc = true) (Framed.write " DESC")))
        (orderBy.buildColumns_order_framed rest (idx + 1)))

theorem groupBy.buildColumns_group_framed : ∀ (cols : List groupByColumn) (idx : Nat),
    Framed (fun st => .ok (groupBy.buildColumns cols idx st))
  | [], _ => Framed.congr (fun _ => rfl) Framed.ok
  | col :: rest, idx =>
    Framed.congr (fun _ => rfl)
      (Framed.bind
        (Framed.bind (Framed.cond (idx > 0) (Framed.byte ','))
          (Framed.quoted col.Column))
        (groupBy.buildColumns_group_framed rest (idx + 1)))

theorem Limit.Build_framed (limit : Zsql.Limit) : Framed (fun st => .ok (limit.Build st)) := by
  have h1 : Framed (fun st => .ok (if limit.Limit > 0 then
      (st.WriteString "LIMIT ").WriteString (Itoa limit.Limit) else st)) :=
    Framed.cond (limit.Limit > 0)
      (Framed.congr (fun _ => rfl)
        (Framed.bind (Framed.write "LIMIT ") (Framed.write (Itoa limit.Limit))))
  by_cases h : limit.Offset > 0
  · exact Framed.congr (fun st => by simp [Limit.Build, h]; rfl)
      (Framed.bind
        (Framed.bind (Framed.bind h1 (Framed.cond (limit.Limit > 0) (Framed.write " ")))
          (Framed.write "OFFSET "))
        (Framed.write (Itoa limit.Offset)))
  · exact Framed.congr (fun st => by simp [Limit.Build, h]) h1

theorem Expression.Build_expression_framed : ∀ e : Expression, Framed e.Build
  | .orderBy e => Framed.congr (fun _ => rfl) (orderBy.buildColumns_order_framed e.Columns 0)
  | .groupBy e => Framed.congr (fun _ => rfl) (groupBy.buildColumns_group_framed e.Columns 0)
  | .Limit e => Framed.congr (fun _ => rfl) (Limit.Build_framed e)
  | .Where e => Framed.congr (fun _ => rfl) (Where.Build_where_framed e)

theorem Clause.Build_clause_framed (c : Clause) : Framed c.Build := by
  obtain ⟨name, ex⟩ := c
  cases ex with
  | none => exact Framed.congr (fun _ => rfl) Framed.ok
  | some e =>
    have hn : Framed (fun st => .ok ((st.WriteString name).WriteByte ' ')) :=
      Framed.congr (fun _ => rfl) (Framed.bind (Framed.write name) (Framed.byte ' '))
    exact Framed.congr (fun _ => rfl)
      (Framed.bind (Framed.cond (name ≠ "") hn) (Expression.Build_expression_framed e))

/-- Serializing a node on a statement appends what the node writes on the
empty statement. -/
theorem build_frame (c : WhereColumn) (st : Statement) :
    c.build st = st.extend (c.output st.NameMapper) :=
  Framed.eq (build_framed c) st

/-- Serializing a clause on a statement appends what the clause writes on the
empty statement. -/
theorem Clause.Build_clause_frame (c : Clause) (st : Statement) :
    c.Build st = st.extend (c.output st.NameMapper) :=
  Framed.eq (Clause.Build_clause_framed c) st

theorem Expression.Build_expression_frame (e : Expression) (st : Statement) :
    e.Build st = st.extend (e.output st.NameMapper) :=
  Framed.eq (Expression.Build_expression_framed e) st

theorem String.join_cons_go (a : String) (l : List String) :
    String.join (a :: l) = a ++ String.join l := by
  apply String.ext
  simp [String.data_join, String.data_append]

theorem String.join_nil_go : String.join [] = "" := rfl

/-! ## The text of a built statement -/

theorem Clause.output_clause_text_bound (c : Clause) (m : String → Option String)
    (o : String × List Value) (h : c.output m = .ok o) :
    c.output m = .ok (c.text m, c.bound m) := by
  simp [Clause.text, Clause.bound, h]

theorem output_text_bound (c : WhereColumn) (m : String → Option String)
    (o : String × List Value) (h : c.output m = .ok o) :
    c.output m = .ok (c.text m, c.bound m) := by
  simp [WhereColumn.text, WhereColumn.bound, h]

/-- `Build` on a statement with the clause map and the rename table of `st0`
appends the pieces of `st0` for the requested names, in the requested
order. -/
theorem Build_pieces : ∀ (ns : List String) (st0 st : Statement),
    st.Clauses = st0.Clauses → st.NameMapper = st0.NameMapper →
    (∀ n ∈ ns, ∀ c, st0.Clauses n = some c → ∃ o, c.output st0.NameMapper = .ok o) →
    st.Build ns =
      st.extend (.ok (String.join (ns.map st0.buildText), (ns.map st0.buildVals).flatten))
  | [], _, st, _, _, _ => by simp [Statement.Build, Statement.extend, String.join_nil_go]
  | n :: rest, st0, st, hc, hm, h => by
    have hrest : ∀ n ∈ rest, ∀ c, st0.Clauses n = some c →
        ∃ o, c.output st0.NameMapper = .ok o :=
      fun k hk => h k (List.mem_cons_of_mem _ hk)
    cases hn : st0.Clauses n with
    | none =>
      have hs : st.Clauses n = none := by rw [hc, hn]
      simp only [Statement.Build, hs]
      rw [Build_pieces rest st0 st hc hm hrest]
      simp [Statement.buildText, Statement.buildVals, hn, String.join_cons_go]
    | some c =>
      obtain ⟨o, ho⟩ := h n (List.mem_cons_self _ _) c hn
      have hs : st.Clauses n = some c := by rw [hc, hn]
      have hb := Clause.Build_clause_frame c (st.WriteString " ")
      rw [show (st.WriteString " ").NameMapper = st0.NameMapper from hm,
        Clause.output_clause_text_bound c _ o ho] at hb
      have ih : ∀ st1 : Statement, st1.Clauses = st0.Clauses →
          st1.NameMapper = st0.NameMapper → st1.Build rest = st1.extend
            (.ok (String.join (rest.map st0.buildText), (rest.map st0.buildVals).flatten)) :=
        fun st1 a b => Build_pieces rest st0 st1 a b hrest
      simp only [Statement.Build, hs, hb, Statement.extend]
      rw [ih]
      · simp [Statement.extend, Statement.WriteString, Statement.buildText,
          Statement.buildVals, hn, String.join_cons_go, String.append_assoc]
      · exact hc
      · exact hm

/-- C21: for every statement (clause map, rename table, text, parameters)
and every list of names `ns` such that each clause stored under a name of
`ns` serializes, `Statement.Build(ns...)` returns the statement with its text
followed by the concatenation, over `ns` in the given order, of a space and
the serialized text of the clause for each name present in the map and of
nothing for each absent name; the previous text is kept as a prefix, the
parameters of the clauses are appended in the same order, and the maps are
unchanged. -/
theorem C21_Build_appends_present_clauses_in_requested_order (st : Statement)
    (ns : List String)
    (h : ∀ n ∈ ns, ∀ c, st.Clauses n = some c → ∃ o, c.output st.NameMapper = .ok o) :
    ∃ r : Statement, st.Build ns = .ok r ∧
      r.SQL = st.SQL ++ String.join (ns.map st.buildText) ∧
      r.Vals = st.Vals ++ (ns.map st.buildVals).flatten ∧
      r.Clauses = st.Clauses ∧ r.NameMapper = st.NameMapper ∧
      (∀ n ∈ ns, st.Clauses n = none → st.buildText n = "") ∧
      (∀ n ∈ ns, ∀ c, st.Clauses n = some c → st.buildText n = " " ++ c.text st.NameMapper) := by
  refine ⟨_, Build_pieces ns st st rfl rfl h, rfl, rfl, rfl, rfl, ?_, ?_⟩
  · intro n _ hn
    simp [Statement.buildText, hn]
  · intro n _ c hn
    simp [Statement.buildText, hn]

/-- Witness of C21: a statement holding a `WHERE` and an `ORDER BY` clause,
built for the names `ORDER BY`, `HAVING`, `WHERE` in that order. -/
theorem C21_Build_appends_present_clauses_in_requested_order_witness :
    (∀ n ∈ ["ORDER BY", "HAVING", "WHERE"], ∀ c, builtStatement.Clauses n = some c →
      ∃ o, c.output builtStatement.NameMapper = .ok o) ∧
    (∃ r : Statement, builtStatement.Build ["ORDER BY", "HAVING", "WHERE"] = .ok r ∧
      r.SQL = builtStatement.SQL ++
        String.join (["ORDER BY", "HAVING", "WHERE"].map builtStatement.buildText) ∧
      r.Vals = builtStatement.Vals ++
        (["ORDER BY", "HAVING", "WHERE"].map builtStatement.buildVals).flatten ∧
      r.Clauses = builtStatement.Clauses ∧ r.NameMapper = builtStatement.NameMapper ∧
      (∀ n ∈ ["ORDER BY", "HAVING", "WHERE"], builtStatement.Clauses n = none →
        builtStatement.buildText n = "") ∧
      (∀ n ∈ ["ORDER BY", "HAVING", "WHERE"], ∀ c, builtStatement.Clauses n = some c →
        builtStatement.buildText n = " " ++ c.text builtStatement.NameMapper)) ∧
    (builtStatement.Build ["ORDER BY", "HAVING", "WHERE"]).toOption.map
        (fun r => (r.SQL, r.Vals)) =
      some ("SELECT 1 ORDER BY a DESC WHERE a = ?", [.int 7, .int 1]) :=
  have hyp : ∀ n ∈ ["ORDER BY", "HAVING", "WHERE"], ∀ c, builtStatement.Clauses n = some c →
      ∃ o, c.output builtStatement.NameMapper = .ok o := by
    intro n hn c hc
    simp only [List.mem_cons, List.mem_singleton, List.not_mem_nil, or_false] at hn
    rcases hn with rfl | rfl | rfl
    · have : c = ⟨"ORDER BY", some (.orderBy ⟨[⟨"a", true⟩]⟩)⟩ :=
        (Option.some.inj hc).symm
      subst this
      exact ⟨_, rfl⟩
    · simp [builtStatement, builtClauses] at hc
    · have : c = ⟨"WHERE", some (.Where ⟨[leafA]⟩)⟩ := (Option.some.inj hc).symm
      subst this
      exact ⟨_, rfl⟩
  ⟨hyp,
    C21_Build_appends_present_clauses_in_requested_order builtStatement
      ["ORDER BY", "HAVING", "WHERE"] hyp,
    rfl⟩

/-! ## Contributions of different kinds -/

/-- Only the `WHERE` merge can panic. -/
theorem Expression.MergeClause_error_name (u : Expression) (c : Clause) (e : String)
    (h : u.MergeClause c = .error e) : u.Name = "WHERE" := by
  cases u <;> simp [Expression.MergeClause] at h
  rfl

/-- `AddClause` in terms of the merge with the entry under the name of the
contribution. -/
theorem Statement.AddClause_eq (st : Statement) (u : Expression) :
    st.AddClause u =
      match u.MergeClause ⟨u.Name, ((st.Clauses u.Name).getD ⟨"", none⟩).Expression⟩
      with
      | .error e => .error e
      | .ok c2 =>
        .ok { st with Clauses := fun k => if k = u.Name then some c2 else st.Clauses k } := by
  rfl

/-- C22: for every statement and any two contributions `u`, `v` of different
kinds (different `Name()`), `AddClause(u)` then `AddClause(v)` gives the same
result as `AddClause(v)` then `AddClause(u)`, the same statement with the same
clause map (or the same panic of the `WHERE` merge); hence `Build(ns...)`
after either order produces the same text and parameters for every name list
`ns`. A returning `AddClause(u)` changes only the entry under the name of `u`:
the other entries, the text, the parameters and the rename table are kept. -/
theorem C22_contributions_of_different_kinds_commute (st : Statement) (u v : Expression)
    (h : u.Name ≠ v.Name) :
    ((st.AddClause u).bind fun s => s.AddClause v) =
      ((st.AddClause v).bind fun s => s.AddClause u) ∧
    (∀ ns : List String,
      (((st.AddClause u).bind fun s => s.AddClause v).bind fun s => s.Build ns) =
        (((st.AddClause v).bind fun s => s.AddClause u).bind fun s => s.Build ns)) ∧
    (∀ r : Statement, st.AddClause u = .ok r →
      (∀ k, k ≠ u.Name → r.Clauses k = st.Clauses k) ∧
      r.SQL = st.SQL ∧ r.Vals = st.Vals ∧ r.NameMapper = st.NameMapper) := by
  have hvu : v.Name ≠ u.Name := fun x => h x.symm
  have key : ((st.AddClause u).bind fun s => s.AddClause v) =
      ((st.AddClause v).bind fun s => s.AddClause u) := by
    rw [Statement.AddClause_eq st u, Statement.AddClause_eq st v]
    cases hA : u.MergeClause ⟨u.Name, ((st.Clauses u.Name).getD ⟨"", none⟩).Expression⟩
      with
    | error ea =>
      cases hB : v.MergeClause ⟨v.Name, ((st.Clauses v.Name).getD ⟨"", none⟩).Expression⟩
        with
      | error eb =>
        exact absurd ((Expression.MergeClause_error_name u _ ea hA).trans
          (Expression.MergeClause_error_name v _ eb hB).symm) h
      | ok b =>
        simp only [Except.bind]
        rw [Statement.AddClause_eq]
        simp only [h, if_false, hA]
    | ok a =>
      cases hB : v.MergeClause ⟨v.Name, ((st.Clauses v.Name).getD ⟨"", none⟩).Expression⟩
        with
      | error eb =>
        simp only [Except.bind]
        rw [Statement.AddClause_eq]
        simp only [hvu, if_false, hB]
      | ok b =>
        simp only [Except.bind]
        rw [Statement.AddClause_eq, Statement.AddClause_eq]
        simp only [h, hvu, if_false, hA, hB]
        congr 2
        funext k
        by_cases h1 : k = u.Name
        · subst h1
          simp [h]
        · simp [h1]
  refine ⟨key, fun ns => by rw [key], fun r hr => ?_⟩
  rw [Statement.AddClause_eq] at hr
  split at hr
  · simp at hr
  · simp only [Except.ok.injEq] at hr
    subst hr
    exact ⟨fun k hk => by simp [hk], rfl, rfl, rfl⟩

/-- Witness of C22: a `WHERE` and an `ORDER BY` contribution on a statement
that already holds a `WHERE` clause; in both orders the clause list
`WHERE, ORDER BY` builds the same text and parameters. -/
theorem C22_contributions_of_different_kinds_commute_witness :
    (Expression.Name (.Where { Columns := [leafB] }) ≠
      Expression.Name (.orderBy { Columns := [{ Column := "a", Desc := true }] })) ∧
    ((((heldDB.Statement.AddClause (.Where { Columns := [leafB] })).bind fun s =>
        s.AddClause (.orderBy { Columns := [{ Column := "a", Desc := true }] })).bind
          fun s => s.Build ["WHERE", "ORDER BY"]) =
      (((heldDB.Statement.AddClause
          (.orderBy { Columns := [{ Column := "a", Desc := true }] })).bind fun s =>
        s.AddClause (.Where { Columns := [leafB] })).bind
          fun s => s.Build ["WHERE", "ORDER BY"])) ∧
    ((((heldDB.Statement.AddClause (.Where { Columns := [leafB] })).bind fun s =>
        s.AddClause (.orderBy { Columns := [{ Column := "a", Desc := true }] })).bind
          fun s => s.Build ["WHERE", "ORDER BY"]).toOption.map (fun r => (r.SQL, r.Vals)) =
      some (" WHERE b = ? AND a = ? ORDER BY a DESC", [.int 1, .int 2, .int 1])) :=
  ⟨by decide,
    (C22_contributions_of_different_kinds_commute heldDB.Statement
      (.Where { Columns := [leafB] })
      (.orderBy { Columns := [{ Column := "a", Desc := true }] }) (by decide)).2.1
        ["WHERE", "ORDER BY"],
    rfl⟩

/-! ## A clause with an empty expression -/

/-- C23 (code defect): `Clause.Build` emits nothing when the expression is
absent; when an expression is present it emits the name followed by one space
(only when the name is not empty) and then the serialization of the
expression, and an empty expression is no exception: a `WHERE` with no
predicates or an `ORDER BY` / `GROUP BY` with no columns under a non-empty
name writes the name and the space instead of nothing. `DB.Order` with the
pair list `[["a", "XYZ"]]` stores an `ORDER BY` with no columns, and
`Build("ORDER BY")` then writes ` ORDER BY `. -/
theorem C23_Clause_Build_writes_name_of_empty_expression :
    (∀ (name : String) (st : Statement), Clause.Build ⟨name, none⟩ st = .ok st) ∧
    (∀ (name : String) (e : Expression) (st : Statement), name ≠ "" →
      Clause.Build ⟨name, some e⟩ st = (st.extend (.ok (name ++ " ", []))).bind e.Build) ∧
    (∀ (e : Expression) (st : Statement), Clause.Build ⟨"", some e⟩ st = e.Build st) ∧
    (∀ (name : String) (e : Expression) (st : Statement), name ≠ "" →
      e = .Where ⟨[]⟩ ∨ e = .orderBy ⟨[]⟩ ∨ e = .groupBy ⟨[]⟩ →
      Clause.Build ⟨name, some e⟩ st = st.extend (.ok (name ++ " ", []))) ∧
    (Clause.Build ⟨"WHERE", some (.Where ⟨[]⟩)⟩ freshStatement).toOption.map
        (fun r => (r.SQL, r.Vals)) = some ("WHERE ", []) ∧
    (rootDB.Order (.pairs [["a", "XYZ"]])).toOption.map
        (fun tx => tx.Statement.orderColumns) = some (some []) ∧
    ((rootDB.Order (.pairs [["a", "XYZ"]])).bind fun tx =>
        tx.Statement.Build ["ORDER BY"]).toOption.map
          (fun r => (r.SQL, r.Vals)) = some (" ORDER BY ", []) := by
  have hname : ∀ (name : String) (e : Expression) (st : Statement), name ≠ "" →
      Clause.Build ⟨name, some e⟩ st = (st.extend (.ok (name ++ " ", []))).bind e.Build := by
    intro name e st hn
    have hw : (st.WriteString name).WriteByte ' ' =
        { st with SQL := st.SQL ++ (name ++ " "), Vals := st.Vals ++ [] } := by
      simp only [Statement.WriteString, Statement.WriteByte, List.append_nil]
      congr 1
      apply String.ext
      simp [String.data_append]
    simp only [Clause.Build, hn, ne_eq, not_false_eq_true, if_true, hw, Statement.extend]
    rfl
  refine ⟨fun _ _ => rfl, hname, fun e st => by simp [Clause.Build], ?_, rfl, rfl, rfl⟩
  intro name e st hn he
  rw [hname name e st hn]
  rcases he with rfl | rfl | rfl <;> rfl

/-! ## Conjunction nodes with one child -/

/-- C24: a conjunction node (`and` or `or`) with exactly one child `c`
serializes exactly as `c` alone: on every sink the node and the child give the
same result, the same text and the same appended parameters, with no
parentheses and no connector keyword (and the same panic when `c` panics). -/
theorem C24_single_child_node_flattens :
    ∀ (c : WhereColumn) (f : String) (e : WhereEquality) (s : String) (v : Value)
      (st : Statement),
      (WhereColumn.and [c] f e s v).build st = c.build st ∧
      (WhereColumn.or [c] f e s v).build st = c.build st := by
  intro c f e s v st
  constructor <;> simp [WhereColumn.build]

/-! ## The text of a conjunction -/

/-- The column loop from a position after the first: every node is preceded
by its own connector between spaces. -/
theorem buildColumns_siblings : ∀ (cs : List WhereColumn) (idx : Nat) (st : Statement)
    (m : String → Option String), st.NameMapper = m → 0 < idx →
    (∀ c ∈ cs, ∃ o, c.output m = .ok o) →
    WhereColumn.buildColumns cs idx st =
      st.extend (.ok (String.join (cs.map fun c => " " ++ c.name ++ " " ++ c.text m),
        (cs.map fun c => c.bound m).flatten))
  | [], _, st, _, _, _, _ => by
    simp [WhereColumn.buildColumns, Statement.extend, String.join_nil_go]
  | c :: rest, idx, st, m, hm, hi, h => by
    obtain ⟨o, ho⟩ := h c (List.mem_cons_self _ _)
    have hb := build_frame c (st.WriteString (" " ++ c.name ++ " "))
    rw [show (st.WriteString (" " ++ c.name ++ " ")).NameMapper = m from hm,
      output_text_bound c _ o ho] at hb
    have ih : ∀ st1 : Statement, st1.NameMapper = m →
        WhereColumn.buildColumns rest (idx + 1) st1 = st1.extend
          (.ok (String.join (rest.map fun c => " " ++ c.name ++ " " ++ c.text m),
            (rest.map fun c => c.bound m).flatten)) :=
      fun st1 a => buildColumns_siblings rest (idx + 1) st1 m a (Nat.succ_pos _)
        (fun d hd => h d (List.mem_cons_of_mem _ hd))
    simp only [WhereColumn.buildColumns, hi, if_true, hb, Statement.extend]
    rw [ih]
    · simp [Statement.extend, Statement.WriteString, String.join_cons_go, String.append_assoc]
    · exact hm

/-- The column loop from the start: the first node has no prefix. -/
theorem buildColumns_first (c1 : WhereColumn) (rest : List WhereColumn) (st : Statement)
    (m : String → Option String) (hm : st.NameMapper = m)
    (h : ∀ c ∈ c1 :: rest, ∃ o, c.output m = .ok o) :
    WhereColumn.buildColumns (c1 :: rest) 0 st =
      st.extend (.ok (c1.text m ++
          String.join (rest.map fun c => " " ++ c.name ++ " " ++ c.text m),
        ((c1 :: rest).map fun c => c.bound m).flatten)) := by
  obtain ⟨o, ho⟩ := h c1 (List.mem_cons_self _ _)
  have hb := build_frame c1 st
  rw [hm, output_text_bound c1 _ o ho] at hb
  have ih : ∀ st1 : Statement, st1.NameMapper = m →
      WhereColumn.buildColumns rest (0 + 1) st1 = st1.extend
        (.ok (String.join (rest.map fun c => " " ++ c.name ++ " " ++ c.text m),
          (rest.map fun c => c.bound m).flatten)) :=
    fun st1 a => buildColumns_siblings rest (0 + 1) st1 m a Nat.one_pos
      (fun d hd => h d (List.mem_cons_of_mem _ hd))
  simp only [WhereColumn.buildColumns, gt_iff_lt, Nat.lt_irrefl, if_false, hb, Statement.extend]
  rw [ih]
  · simp [Statement.extend, String.append_assoc]
  · exact hm

/-- C25: for every conjunction node (`and` or `or`) with children
`c1, c2, ...` (at least two) that all serialize, serializing the node appends
`(` then the text of `c1`, then for each later child a space, the connector
keyword of that child itself (`AND` for an `and` child, `OR` for an `or`
child, whatever the parent is), a space and the text of the child, then `)`;
the parameters appended are those of the children concatenated in order. -/
theorem C25_conjunction_parenthesizes_with_child_connectors (c1 c2 : WhereColumn)
    (rest : List WhereColumn) (f : String) (e : WhereEquality) (s : String) (v : Value)
    (st : Statement)
    (h : ∀ c ∈ c1 :: c2 :: rest, ∃ o, c.output st.NameMapper = .ok o) :
    (∀ node : WhereColumn,
      node = .and (c1 :: c2 :: rest) f e s v ∨ node = .or (c1 :: c2 :: rest) f e s v →
      ∃ r : Statement, node.build st = .ok r ∧
        r.SQL = st.SQL ++ ("(" ++ c1.text st.NameMapper ++
          String.join ((c2 :: rest).map fun c =>
            " " ++ c.name ++ " " ++ c.text st.NameMapper) ++ ")") ∧
        r.Vals = st.Vals ++ ((c1 :: c2 :: rest).map fun c => c.bound st.NameMapper).flatten ∧
        r.Clauses = st.Clauses ∧ r.NameMapper = st.NameMapper) ∧
    (∀ cs f1 e1 s1 v1, (WhereColumn.and cs f1 e1 s1 v1).name = "AND") ∧
    (∀ cs f1 e1 s1 v1, (WhereColumn.or cs f1 e1 s1 v1).name = "OR") := by
  have hb := buildColumns_first c1 (c2 :: rest) (st.WriteString "(") st.NameMapper rfl h
  refine ⟨fun node hn => ?_, fun _ _ _ _ _ => rfl, fun _ _ _ _ _ => rfl⟩
  have hnode : node.build st = st.extend (.ok ("(" ++ c1.text st.NameMapper ++
      String.join ((c2 :: rest).map fun c =>
        " " ++ c.name ++ " " ++ c.text st.NameMapper) ++ ")",
      ((c1 :: c2 :: rest).map fun c => c.bound st.NameMapper).flatten)) := by
    have hl : (c1 :: c2 :: rest).length > 1 := by simp
    rcases hn with rfl | rfl
    · rw [WhereColumn.build.eq_def]
      simp only [hl, if_true, hb]
      simp [Statement.extend, Except.map, Statement.WriteString, String.append_assoc]
    · rw [WhereColumn.build.eq_def]
      simp only [hl, if_true, hb]
      simp [Statement.extend, Except.map, Statement.WriteString, String.append_assoc]
  exact ⟨_, hnode, rfl, rfl, rfl, rfl⟩

/-- Witness of C25: an `and` node over the children `a = 1` (an `and` leaf)
and `b = 2` (an `or` leaf) writes `(a = ? OR b = ?)`, with the connector of
the second child. -/
theorem C25_conjunction_parenthesizes_with_child_connectors_witness :
    (∀ c ∈ [leafA, leafOrB], ∃ o, c.output freshStatement.NameMapper = .ok o) ∧
    ((∀ node : WhereColumn,
      node = .and [leafA, leafOrB] "" "" "" .nil ∨ node = .or [leafA, leafOrB] "" "" "" .nil →
      ∃ r : Statement, node.build freshStatement = .ok r ∧
        r.SQL = freshStatement.SQL ++ ("(" ++ leafA.text freshStatement.NameMapper ++
          String.join ([leafOrB].map fun c =>
            " " ++ c.name ++ " " ++ c.text freshStatement.NameMapper) ++ ")") ∧
        r.Vals = freshStatement.Vals ++
          ([leafA, leafOrB].map fun c => c.bound freshStatement.NameMapper).flatten ∧
        r.Clauses = freshStatement.Clauses ∧ r.NameMapper = freshStatement.NameMapper) ∧
      (∀ cs f1 e1 s1 v1, (WhereColumn.and cs f1 e1 s1 v1).name = "AND") ∧
      (∀ cs f1 e1 s1 v1, (WhereColumn.or cs f1 e1 s1 v1).name = "OR")) ∧
    ((WhereColumn.and [leafA, leafOrB] "" "" "" .nil).build freshStatement).toOption.map
        (fun r => (r.SQL, r.Vals)) = some ("(a = ? OR b = ?)", [.int 1, .int 2]) :=
  have hyp : ∀ c ∈ [leafA, leafOrB], ∃ o, c.output freshStatement.NameMapper = .ok o := by
    intro c hc
    simp only [List.mem_cons, List.mem_singleton, List.not_mem_nil, or_false] at hc
    rcases hc with rfl | rfl
    · exact ⟨_, rfl⟩
    · exact ⟨_, rfl⟩
  ⟨hyp,
    C25_conjunction_parenthesizes_with_child_connectors leafA leafOrB [] "" "" "" .nil
      freshStatement hyp,
    rfl⟩

/-! ## The sink primitives -/

/-- The loop of `AddVar` appends the values that are not keyed mappings, in
order. -/
theorem Statement.addVarLoop_eq (vars : List Value) :
    ∀ st : Statement, st.addVarLoop vars =
      { st with Vals := st.Vals ++ vars.filter (fun v => !v.isMap) } := by
  induction vars with
  | nil => intro st; simp [Statement.addVarLoop]
  | cons val rest ih =>
    intro st
    cases val <;> simp [Statement.addVarLoop, ih, Value.isMap, List.append_assoc]

/-- C26: for every statement and every argument list `vars`, `AddVar(vars...)`
sets the parameter list to the previous list followed by the elements of
`vars` that are not keyed mappings, in their original order, and changes
nothing else (text, clause map and rename table are as before). -/
theorem C26_AddVar_appends_all_but_keyed_mappings :
    ∀ (st : Statement) (vars : List Value),
      (st.addVarLoop vars).Vals = st.Vals ++ vars.filter (fun v => !v.isMap) ∧
      List.Sublist (vars.filter (fun v => !v.isMap)) vars ∧
      (∀ v ∈ vars, v ∈ vars.filter (fun v => !v.isMap) ↔ v.isMap = false) ∧
      (st.addVarLoop vars).SQL = st.SQL ∧
      (st.addVarLoop vars).Clauses = st.Clauses ∧
      (st.addVarLoop vars).NameMapper = st.NameMapper ∧
      st.AddVar vars = st.addVarLoop vars := by
  intro st vars
  rw [Statement.addVarLoop_eq]
  refine ⟨rfl, List.filter_sublist vars, ?_, rfl, rfl, rfl, rfl⟩
  intro v hv
  simp [List.mem_filter, hv]

/-- C27: for every statement with rename table `m` and every identifier `s`,
`WriteQuoted(s)` appends `m[s]` to the text when `s` is a key of `m` and `s`
itself, unmodified, otherwise, and leaves the rename table, the clause map and
the parameter list unchanged. -/
theorem C27_WriteQuoted_renames_or_writes_verbatim :
    ∀ (st : Statement) (s : String),
      (∀ nn, st.NameMapper s = some nn → (st.WriteQuoted s).SQL = st.SQL ++ nn) ∧
      (st.NameMapper s = none → (st.WriteQuoted s).SQL = st.SQL ++ s) ∧
      (st.WriteQuoted s).NameMapper = st.NameMapper ∧
      (st.WriteQuoted s).Clauses = st.Clauses ∧
      (st.WriteQuoted s).Vals = st.Vals := by
  intro st s
  cases h : st.NameMapper s <;> simp [Statement.WriteQuoted, Statement.WriteString, h]

/-! ## Handles as objects -/

theorem DB.getInstance_maps (db : DB) (h : db.clone > 0) :
    db.getInstance.Statement.Clauses = (fun _ => none) ∧
    db.getInstance.Statement.NameMapper = (fun _ => none) ∧
    db.getInstance.clone = 0 := by
  unfold DB.getInstance
  by_cases h1 : db.clone = 1
  · simp [h, h1, freshStatement]
  · simp [h, h1, Statement.clone]

theorem DB.getInstance_owned (db : DB) (h : db.clone ≤ 0) : db.getInstance = db := by
  unfold DB.getInstance
  simp [not_lt.mpr h]

/-- A contribution to a handle whose clause map is empty is always merged. -/
theorem DB.addClause_empty (tx : DB) (hc : tx.Statement.Clauses = fun _ => none)
    (v : Expression) : ∃ r : DB, tx.addClause v = .ok r := by
  unfold DB.addClause Statement.AddClause
  rw [hc]
  cases v <;> simp [Expression.MergeClause, Where.MergeClause]

theorem DB.orderColumns_total : ∀ (v : List (List String)) (acc : List orderByColumn),
    (v.all fun i => decide (2 ≤ i.length)) = true →
    ∃ cols, DB.orderColumns v acc = .ok cols
  | [], acc, _ => ⟨acc, rfl⟩
  | i :: rest, acc, h => by
    simp only [List.all_cons, Bool.and_eq_true, decide_eq_true_eq] at h
    match i, h with
    | i0 :: i1 :: _, h =>
      simp only [DB.orderColumns]
      split_ifs
      · exact DB.orderColumns_total rest _ h.2
      · exact DB.orderColumns_total rest _ h.2
      · exact DB.orderColumns_total rest _ h.2
    | [], h => simp at h
    | [_], h => simp at h

/-- On a handle that owns an empty clause map every builder call returns,
but for `Order` on a pair that is too short. -/
theorem DB.call_total (g : DB) (hg : g.getInstance = g)
    (hc : g.Statement.Clauses = fun _ => none) (c : BuilderCall)
    (hw : c.wellFormed = true) : ∃ tx : DB, g.call c = .ok tx := by
  cases c with
  | Where args =>
    simp only [DB.call, DB.Where, hg]
    split
    · exact ⟨g, rfl⟩
    · split
      · exact ⟨g, rfl⟩
      · exact DB.addClause_empty g hc _
    · exact DB.addClause_empty g hc _
    · unfold DB.wherePositional
      split_ifs
      · split
        · split_ifs
          · exact ⟨g, rfl⟩
          · exact ⟨g, rfl⟩
          · exact DB.addClause_empty g hc _
        · exact ⟨g, rfl⟩
      · exact DB.addClause_empty g hc _
    · unfold DB.wherePositional
      split_ifs
      · split
        · split_ifs
          · exact ⟨g, rfl⟩
          · exact ⟨g, rfl⟩
          · exact DB.addClause_empty g hc _
        · exact ⟨g, rfl⟩
      · exact DB.addClause_empty g hc _
    · unfold DB.whereRaw
      split
      · exact DB.addClause_empty g hc _
      · exact ⟨g, rfl⟩
  | Order value =>
    cases value with
    | column v =>
      simp only [DB.call, DB.Order, hg]
      exact DB.addClause_empty g hc _
    | str v =>
      simp only [DB.call, DB.Order, hg]
      split_ifs
      · exact DB.addClause_empty g hc _
      · exact ⟨g, rfl⟩
    | pairs v =>
      simp only [DB.call, DB.Order, hg]
      split_ifs
      · exact ⟨g, rfl⟩
      · obtain ⟨cols, hcols⟩ := DB.orderColumns_total v [] hw
        rw [hcols]
        exact DB.addClause_empty g hc _
    | other => exact ⟨g, by simp [DB.call, DB.Order, hg]⟩
  | GroupBy column =>
    simp only [DB.call, DB.GroupBy, hg]
    exact DB.addClause_empty g hc _
  | Limit limit =>
    simp only [DB.call, DB.Limit, hg]
    exact DB.addClause_empty g hc _
  | Offset offset =>
    simp only [DB.call, DB.Offset, hg]
    exact DB.addClause_empty g hc _
  | Paging page perPage =>
    simp only [DB.call, DB.Paging, hg]
    exact DB.addClause_empty g hc _
  | AddNameMap old new => exact ⟨_, rfl⟩

theorem DB.addClause_clone (tx : DB) (v : Expression) (r : DB)
    (h : tx.addClause v = .ok r) : r.clone = tx.clone := by
  unfold DB.addClause at h
  split at h
  · simp at h
  · simp only [Except.ok.injEq] at h
    subst h
    rfl

/-- A builder call on a handle that owns its statement returns a handle with
the same `clone`. -/
theorem DB.call_clone (g : DB) (hg : g.getInstance = g) (c : BuilderCall) (tx : DB)
    (h : g.call c = .ok tx) : tx.clone = g.clone := by
  have hok : ∀ r : DB, (Except.ok g : Except String DB) = .ok r → r.clone = g.clone := by
    intro r hr
    simp only [Except.ok.injEq] at hr
    subst hr
    rfl
  cases c with
  | Where args =>
    simp only [DB.call, DB.Where, hg] at h
    split at h
    · exact hok _ h
    · split at h
      · exact hok _ h
      · exact DB.addClause_clone _ _ _ h
    · exact DB.addClause_clone _ _ _ h
    · unfold DB.wherePositional at h
      split_ifs at h
      · split at h
        · split_ifs at h
          · exact hok _ h
          · exact hok _ h
          · exact DB.addClause_clone _ _ _ h
        · exact hok _ h
      · exact DB.addClause_clone _ _ _ h
    · unfold DB.wherePositional at h
      split_ifs at h
      · split at h
        · split_ifs at h
          · exact hok _ h
          · exact hok _ h
          · exact DB.addClause_clone _ _ _ h
        · exact hok _ h
      · exact DB.addClause_clone _ _ _ h
    · unfold DB.whereRaw at h
      split at h
      · exact DB.addClause_clone _ _ _ h
      · exact hok _ h
  | Order value =>
    cases value with
    | column v =>
      simp only [DB.call, DB.Order, hg] at h
      exact DB.addClause_clone _ _ _ h
    | str v =>
      simp only [DB.call, DB.Order, hg] at h
      split_ifs at h
      · exact DB.addClause_clone _ _ _ h
      · exact hok _ h
    | pairs v =>
      simp only [DB.call, DB.Order, hg] at h
      split_ifs at h
      · exact hok _ h
      · split at h
        · simp at h
        · exact DB.addClause_clone _ _ _ h
    | other =>
      simp only [DB.call, DB.Order, hg] at h
      exact hok _ h
  | GroupBy column =>
    simp only [DB.call, DB.GroupBy, hg] at h
    exact DB.addClause_clone _ _ _ h
  | Limit limit =>
    simp only [DB.call, DB.Limit, hg] at h
    exact DB.addClause_clone _ _ _ h
  | Offset offset =>
    simp only [DB.call, DB.Offset, hg] at h
    exact DB.addClause_clone _ _ _ h
  | Paging page perPage =>
    simp only [DB.call, DB.Paging, hg] at h
    exact DB.addClause_clone _ _ _ h
  | AddNameMap old new =>
    simp only [DB.call, DB.AddNameMap, hg, Except.ok.injEq] at h
    subst h
    rfl

/-- The builder call on a handle with `clone > 0`, on the store. -/
theorem Store.call_shared (s : Store) (p : Nat) (db : DB) (c : BuilderCall)
    (hp : s[p]? = some db) (h : db.clone > 0) :
    s.call p c =
      match db.getInstance.call c with
      | .error e => .error e
      | .ok tx => .ok (s ++ [tx], s.length) := by
  simp only [Store.call, Store.getInstance, hp, h, if_true]
  have hget : (s ++ [db.getInstance])[s.length]? = some db.getInstance := by simp
  simp only [hget]
  cases db.getInstance.call c with
  | error e => rfl
  | ok tx => simp

/-- The builder call on a handle with `clone <= 0`, on the store. -/
theorem Store.call_owned (s : Store) (p : Nat) (db : DB) (c : BuilderCall)
    (hp : s[p]? = some db) (h : db.clone ≤ 0) :
    s.call p c =
      match db.call c with
      | .error e => .error e
      | .ok tx => .ok (s.set p tx, p) := by
  simp only [Store.call, Store.getInstance, hp, not_lt.mpr h, if_false]

/-- C28: in a store of handles, a builder call (`Where`, `Order`, `GroupBy`,
`Limit`, `Offset`, `Paging`, `AddNameMap`) on a handle with `clone > 0`
returns (always, but for `Order` on a pair shorter than two) a newly
allocated handle, different from the receiver, whose clause map and rename
table are the new empty maps of `getInstance` with the effect of the call,
and whose `clone` is 0; the receiver and every other handle allocated before,
with their statements (clause map, rename table, text, parameters), are
unchanged. On a handle with `clone = 0` the call returns the receiver itself,
the effect of the call is on the receiver in place, and no handle is
allocated. -/
theorem C28_builder_calls_allocate_for_shared_handles_only (s : Store) (p : Nat) (db : DB)
    (c : BuilderCall) (hp : s[p]? = some db) :
    (db.clone > 0 →
      db.getInstance.Statement.Clauses = (fun _ => none) ∧
      db.getInstance.Statement.NameMapper = (fun _ => none) ∧
      (c.wellFormed = true → ∃ r q, s.call p c = .ok (r, q)) ∧
      (∀ r q, s.call p c = .ok (r, q) →
        q = s.length ∧ q ≠ p ∧ r.length = s.length + 1 ∧
        (∀ i, i < s.length → r[i]? = s[i]?) ∧ r[p]? = some db ∧
        ∃ tx : DB, r[q]? = some tx ∧ tx.clone = 0 ∧ db.getInstance.call c = .ok tx)) ∧
    (db.clone = 0 →
      (∀ tx : DB, db.call c = .ok tx → s.call p c = .ok (s.set p tx, p)) ∧
      (∀ r q, s.call p c = .ok (r, q) →
        q = p ∧ r.length = s.length ∧ (∀ i, i ≠ p → r[i]? = s[i]?) ∧
        ∃ tx : DB, r[p]? = some tx ∧ tx.clone = 0 ∧ db.call c = .ok tx)) := by
  have hlt : p < s.length := by
    rcases Nat.lt_or_ge p s.length with hlt | hge
    · exact hlt
    · rw [List.getElem?_eq_none hge] at hp
      simp at hp
  constructor
  · intro h
    obtain ⟨h1, h2, h3⟩ := DB.getInstance_maps db h
    have hcall := Store.call_shared s p db c hp h
    refine ⟨h1, h2, ?_, ?_⟩
    · intro hw
      obtain ⟨tx, htx⟩ := DB.call_total db.getInstance (DB.getInstance_idem db) h1 c hw
      rw [htx] at hcall
      exact ⟨_, _, hcall⟩
    · intro r q hr
      rw [hcall] at hr
      cases hc : db.getInstance.call c with
      | error e => simp [hc] at hr
      | ok tx =>
        simp only [hc, Except.ok.injEq, Prod.mk.injEq] at hr
        obtain ⟨rfl, rfl⟩ := hr
        refine ⟨rfl, Nat.ne_of_gt hlt, by simp, ?_, ?_, tx, by simp, ?_, rfl⟩
        · intro i hi
          simp [List.getElem?_append_left hi]
        · rw [List.getElem?_append_left hlt, hp]
        · rw [DB.call_clone db.getInstance (DB.getInstance_idem db) c tx hc, h3]
  · intro h
    have hcall := Store.call_owned s p db c hp (le_of_eq h)
    have hown : db.getInstance = db := DB.getInstance_owned db (le_of_eq h)
    constructor
    · intro tx htx
      rw [hcall, htx]
    · intro r q hr
      rw [hcall] at hr
      cases hc : db.call c with
      | error e => simp [hc] at hr
      | ok tx =>
        simp only [hc, Except.ok.injEq, Prod.mk.injEq] at hr
        obtain ⟨rfl, rfl⟩ := hr
        refine ⟨rfl, by simp, ?_, tx, by simp [hlt], ?_, rfl⟩
        · intro i hi
          simp [List.getElem?_set, Ne.symm hi]
        · rw [DB.call_clone db hown c tx hc, h]

/-- Witness of C28: in a store holding a root handle and a handle that owns
its statement, `AddNameMap("a", "x")` on the root handle allocates a third
handle and leaves the two others as they are; on the owning handle it returns
that handle and sets the entry in place. -/
theorem C28_builder_calls_allocate_for_shared_handles_only_witness :
    sampleStore[0]? = some ⟨builtStatement, 1⟩ ∧
    ((((⟨builtStatement, 1⟩ : DB).clone > 0 →
      (⟨builtStatement, 1⟩ : DB).getInstance.Statement.Clauses = (fun _ => none) ∧
      (⟨builtStatement, 1⟩ : DB).getInstance.Statement.NameMapper = (fun _ => none) ∧
      ((BuilderCall.AddNameMap "a" "x").wellFormed = true →
        ∃ r q, sampleStore.call 0 (.AddNameMap "a" "x") = .ok (r, q)) ∧
      (∀ r q, sampleStore.call 0 (.AddNameMap "a" "x") = .ok (r, q) →
        q = sampleStore.length ∧ q ≠ 0 ∧ r.length = sampleStore.length + 1 ∧
        (∀ i, i < sampleStore.length → r[i]? = sampleStore[i]?) ∧
        r[0]? = some ⟨builtStatement, 1⟩ ∧
        ∃ tx : DB, r[q]? = some tx ∧ tx.clone = 0 ∧
          (⟨builtStatement, 1⟩ : DB).getInstance.call (.AddNameMap "a" "x") = .ok tx)) ∧
    ((⟨builtStatement, 1⟩ : DB).clone = 0 →
      (∀ tx : DB, (⟨builtStatement, 1⟩ : DB).call (.AddNameMap "a" "x") = .ok tx →
        sampleStore.call 0 (.AddNameMap "a" "x") = .ok (sampleStore.set 0 tx, 0)) ∧
      (∀ r q, sampleStore.call 0 (.AddNameMap "a" "x") = .ok (r, q) →
        q = 0 ∧ r.length = sampleStore.length ∧ (∀ i, i ≠ 0 → r[i]? = sampleStore[i]?) ∧
        ∃ tx : DB, r[0]? = some tx ∧ tx.clone = 0 ∧
          (⟨builtStatement, 1⟩ : DB).call (.AddNameMap "a" "x") = .ok tx)))) ∧
    ((sampleStore.call 0 (.AddNameMap "a" "x")).toOption.map
        (fun r => (r.2, r.1.length, r.1.map fun h => (h.clone, h.Statement.SQL,
          h.Statement.Vals, h.Statement.NameMapper "a")))) =
      some (2, 3, [(1, "SELECT 1", [.int 7], none), (0, "", [.int 1], none),
        (0, "", [], some "x")]) ∧
    ((sampleStore.call 1 (.AddNameMap "a" "x")).toOption.map
        (fun r => (r.2, r.1.length, r.1.map fun h => (h.clone, h.Statement.SQL,
          h.Statement.Vals, h.Statement.NameMapper "a")))) =
      some (1, 2, [(1, "SELECT 1", [.int 7], none), (0, "", [.int 1], some "x")]) :=
  ⟨rfl,
    C28_builder_calls_allocate_for_shared_handles_only sampleStore 0 ⟨builtStatement, 1⟩
      (.AddNameMap "a" "x") rfl,
    rfl, rfl⟩

/-! ## Reading an operator text -/

/-- Upper-casing a character twice is upper-casing it once. -/
theorem upperRune_idem (c : Char) : upperRune (upperRune c) = upperRune c := by
  by_cases h : 'a' ≤ c ∧ c ≤ 'z'
  · have h1 : 97 ≤ c.toNat := h.1
    have h2 : c.toNat ≤ 122 := h.2
    have hc : c = Char.ofNat c.toNat := by simp
    generalize c.toNat = n at h1 h2 hc
    subst hc
    interval_cases n <;> decide
  · by_cases h1 : c = Char.ofNat 0x131
    · subst h1; decide
    · by_cases h2 : c = Char.ofNat 0x17F
      · subst h2; decide
      · simp [upperRune, h, h1, h2]

/-- Upper-casing twice is upper-casing once. -/
theorem ToUpper_idem (s : String) : ToUpper (ToUpper s) = ToUpper s := by
  simp [ToUpper, List.map_map, Function.comp_def, upperRune_idem]

/-- The switch of `ToWhereEquality` on the upper-cased text `u`. -/
theorem ToWhereEquality_switch (s : String) (e : WhereEquality) (he : e ∈ closedOps) :
    ToWhereEquality s = e ↔ ToUpper s = e := by
  simp only [closedOps, List.mem_cons, List.mem_singleton, List.not_mem_nil, or_false] at he
  unfold ToWhereEquality
  generalize ToUpper s = u
  constructor
  · intro h
    simp only at h
    split_ifs at h with h1 h2 h3 h4 h5 h6 h7 h8 h9
    · rw [h1]; exact h
    · rw [h2]; exact h
    · rw [h3]; exact h
    · rw [h4]; exact h
    · rw [h5]; exact h
    · rw [h6]; exact h
    · rw [h7]; exact h
    · rw [h8]; exact h
    · rw [h9]; exact h
    · rcases he with rfl | rfl | rfl | rfl | rfl | rfl | rfl | rfl | rfl <;>
        exact absurd h (by decide)
  · intro h
    subst h
    rcases he with rfl | rfl | rfl | rfl | rfl | rfl | rfl | rfl | rfl <;> decide

/-- C29: for every string `s` and every operator `e` of the closed set,
`ToWhereEquality(s)` is `e` exactly when the upper-cased `s` equals the text
of `e`; when the upper-cased `s` is no member of the set the result is the
empty operator; `ToWhereEquality(s) = ToWhereEquality(upper(s))`; and
`ToWhereEquality(e.Equality()) = e` for every operator `e` of the set. -/
theorem C29_ToWhereEquality_matches_upper_cased_text :
    ∀ s : String,
      (∀ e ∈ closedOps, ToWhereEquality s = e ↔ ToUpper s = e) ∧
      (ToUpper s ∉ closedOps → ToWhereEquality s = "") ∧
      (ToWhereEquality s ∈ closedOps ∨ ToWhereEquality s = "") ∧
      ToWhereEquality s = ToWhereEquality (ToUpper s) ∧
      (∀ e ∈ closedOps, ToWhereEquality e = e) := by
  intro s
  have hmem : ToWhereEquality s ∈ closedOps ∨ ToWhereEquality s = "" := by
    unfold ToWhereEquality
    simp only
    split_ifs <;> simp [closedOps]
  refine ⟨fun e he => ToWhereEquality_switch s e he, ?_, hmem, ?_, ?_⟩
  · intro hn
    rcases hmem with h | h
    · exact absurd ((ToWhereEquality_switch s _ h).mp rfl ▸ h) hn
    · exact h
  · unfold ToWhereEquality
    rw [ToUpper_idem]
  · intro e he
    simp only [closedOps, List.mem_cons, List.mem_singleton, List.not_mem_nil, or_false] at he
    rcases he with rfl | rfl | rfl | rfl | rfl | rfl | rfl | rfl | rfl <;> decide

/-! ## Column naming -/

/-- C30 (code defect): `toDBName("a_B")` is `a__b`. Before a final
upper-case letter an underscore is inserted although the character before it
is already an underscore (the initialism replacer leaves `a_B` as it is).
Inside the loop the same insertion is guarded by the neighbours not being
underscores, so `a_Bc` gives `a_bc`; the step after the loop has no such
guard. The values of the test hold: `toDBName("Day_2")` is `day_2`, and
`toDBName("")` is empty. -/
theorem C30_toDBName_doubles_underscore_before_final_capital :
    toDBName "a_B" = "a__b" ∧
    commonInitialismsReplace "a_B" = "a_B" ∧
    toDBName "a_Bc" = "a_bc" ∧
    toDBName "_B" = "__b" ∧
    toDBName "Day_2" = "day_2" ∧
    toDBName "" = "" ∧
    toDBName "UserID" = "user_id" := by
  refine ⟨?_, ?_, ?_, ?_, ?_, ?_, ?_⟩ <;> decide

end Zsql
